import Mathlib

/-!
# Composite energies and constraints of the surface-parameterisation code

A shallow embedding of `src/src/def.h` (the `Functional` / `Constraint`
interfaces and the composites `energy_t` / `constraint_t`), of the degree of
freedom reduction used by `src/src/gradient_deform.cc`, and of the weight
normalisation done by the term constructors of `src/src/volume_frame.cc`.

Conventions.
* The scalar type `T` of the templates stays a type parameter.
* A raw pointer `T *p` is the function `i ↦ p[i]` of type `Nat → T`.
* A `size_t` is a natural number; arithmetic on it wraps explicitly
  (`% 2 ^ 64`), and `(size_t)-1` is `SIZE_MAX = 2 ^ 64 - 1`.
* A method with an out-parameter returns the new content of the out-parameter
  together with its `int` return code.
* A `shared_ptr` that may be null is an `Option`.
-/

namespace riemann

/-! ## Definitions -/

/-- The value `(size_t)-1`, that is `2 ^ 64 - 1`: what `dim_(-1)` and `xdim_(-1)`
store, and what `dim_ == -1` compares with. -/
def SIZE_MAX : Nat := 2 ^ 64 - 1

/-- Eigen triplet `(row, col, value)`. -/
structure Triplet (T : Type) where
  row : Nat
  col : Nat
  value : T

/-- Interface `Functional<T>` of `def.h`: the four pure virtual methods.
`Val x val` returns the new `*val`, `Gra x gra` the new gradient buffer,
`Hes x hes` the new triplet list, each with the `int` return code. -/
structure Functional (T : Type) where
  Nx : Nat
  Val : (Nat → T) → T → T × Int
  Gra : (Nat → T) → (Nat → T) → (Nat → T) × Int
  Hes : (Nat → T) → List (Triplet T) → List (Triplet T) × Int

/-- The virtual methods of a term, as they appear in a call log. -/
inductive Method where
  | Nx
  | Val
  | Gra
  | Hes
deriving DecidableEq, Repr

/-- One virtual call made on the entry at position `slot` of the buffer. -/
structure Call where
  slot : Nat
  method : Method
deriving DecidableEq, Repr

/-- The two exception classes thrown by the composite constructors. -/
inductive exception where
  | null_input_exception
  | compatibility_exception
deriving DecidableEq, Repr

/-- The non-null entries of a buffer of shared pointers, in buffer order. -/
def non_null {α : Type} (buffer : List (Option α)) : List α :=
  buffer.filterMap id

/-- Class `energy_t<T>`: the referenced buffer and the cached dimension. -/
structure energy_t (T : Type) where
  buffer_ : List (Option (Functional T))
  dim_ : Nat

/-- First loop of the constructor of `energy_t` (lines 59-64): `dim_`
becomes the `Nx()` of the first non-null entry, then `break`. The arguments are
the entries still to visit, the position of the first of them and the current
`dim_`; the result is the final `dim_` and the calls made. -/
def energy_t.scan_dim {T : Type} :
    List (Option (Functional T)) → Nat → Nat → Nat × List Call
  | [], _, dim => (dim, [])
  | none :: es, i, dim => energy_t.scan_dim es (i + 1) dim
  | some e :: _, i, _ => (e.Nx, [⟨i, Method.Nx⟩])

/-- Second loop of the constructor of `energy_t` (lines 68-72): the first
component is `true` when the loop throws, which it does at the first non-null
entry whose `Nx()` differs from `dim_`; the second is the calls made. -/
def energy_t.check_dim {T : Type} :
    List (Option (Functional T)) → Nat → Nat → Bool × List Call
  | [], _, _ => (false, [])
  | none :: es, i, dim => energy_t.check_dim es (i + 1) dim
  | some e :: es, i, dim =>
    if e.Nx ≠ dim then (true, [⟨i, Method.Nx⟩])
    else ((energy_t.check_dim es (i + 1) dim).1,
          ⟨i, Method.Nx⟩ :: (energy_t.check_dim es (i + 1) dim).2)

/-- Constructor `energy_t(buffer)` (lines 57-73): the outcome (the object or
the exception thrown) and the log of the virtual calls made on the terms. -/
def energy_t.ctor {T : Type} (buffer : List (Option (Functional T))) :
    Except exception (energy_t T) × List Call :=
  if (energy_t.scan_dim buffer 0 SIZE_MAX).1 = SIZE_MAX then
    (Except.error exception.null_input_exception, (energy_t.scan_dim buffer 0 SIZE_MAX).2)
  else if (energy_t.check_dim buffer 0 (energy_t.scan_dim buffer 0 SIZE_MAX).1).1 then
    (Except.error exception.compatibility_exception,
      (energy_t.scan_dim buffer 0 SIZE_MAX).2 ++
        (energy_t.check_dim buffer 0 (energy_t.scan_dim buffer 0 SIZE_MAX).1).2)
  else
    (Except.ok ⟨buffer, (energy_t.scan_dim buffer 0 SIZE_MAX).1⟩,
      (energy_t.scan_dim buffer 0 SIZE_MAX).2 ++
        (energy_t.check_dim buffer 0 (energy_t.scan_dim buffer 0 SIZE_MAX).1).2)

/-- Method `energy_t::Nx` (lines 74-76). -/
def energy_t.Nx {T : Type} (self : energy_t T) : Nat :=
  self.dim_

/-- Method `energy_t::Val` (lines 77-84): every non-null term is handed the same
`val` pointer in buffer order, its return code is dropped, and 0 is returned. -/
def energy_t.Val {T : Type} (self : energy_t T) (x : Nat → T) (val : T) : T × Int :=
  (self.buffer_.foldl
    (fun acc e => match e with
      | some f => (f.Val x acc).1
      | none => acc) val, 0)

/-- Method `energy_t::Gra` (lines 85-92). -/
def energy_t.Gra {T : Type} (self : energy_t T) (x : Nat → T) (gra : Nat → T) :
    (Nat → T) × Int :=
  (self.buffer_.foldl
    (fun acc e => match e with
      | some f => (f.Gra x acc).1
      | none => acc) gra, 0)

/-- Method `energy_t::Hes` (lines 93-100). -/
def energy_t.Hes {T : Type} (self : energy_t T) (x : Nat → T) (hes : List (Triplet T)) :
    List (Triplet T) × Int :=
  (self.buffer_.foldl
    (fun acc e => match e with
      | some f => (f.Hes x acc).1
      | none => acc) hes, 0)

/-- A sample term over the integers with `Nx = n`: its value `c * x[0]` is added
to the accumulator, `c` is added to the first `n` gradient cells, and one
triplet `(0, 0, c)` is appended. -/
def sample_term (n : Nat) (c : Int) : Functional Int where
  Nx := n
  Val := fun x val => (val + c * x 0, 0)
  Gra := fun _ gra => (fun i => gra i + (if i < n then c else 0), 0)
  Hes := fun _ hes => (hes ++ [⟨0, 0, c⟩], 0)

/-- A composite over two terms of dimension 3 with a null entry between them. -/
def sample_energy : energy_t Int :=
  ⟨[some (sample_term 3 2), none, some (sample_term 3 5)], 3⟩

/-- A buffer whose two non-null terms disagree on `Nx` (3 and 4). -/
def mismatched_buffer : List (Option (Functional Int)) :=
  [none, some (sample_term 3 2), some (sample_term 4 5)]

/-- A buffer whose first non-null term reports `Nx = SIZE_MAX` and whose second
reports `Nx = 5`. -/
def wrapped_mismatch_buffer : List (Option (Functional Int)) :=
  [some (sample_term SIZE_MAX 1), some (sample_term 5 1)]

/-- A buffer holding only null entries. -/
def null_buffer : List (Option (Functional Int)) :=
  [none, none]

/-- A buffer whose two non-null terms agree on `Nx = 3`. -/
def matched_buffer : List (Option (Functional Int)) :=
  [some (sample_term 3 2), none, some (sample_term 3 5)]

/-- Entry `(r, c)` of the matrix assembled from a triplet list the way
`setFromTriplets` does: the values of all triplets at `(r, c)` are summed. -/
def assemble {T : Type} [AddMonoid T] (trips : List (Triplet T)) (r c : Nat) : T :=
  ((trips.filter (fun t => decide (t.row = r ∧ t.col = c))).map Triplet.value).sum

/-- Interface `Constraint<T>` of `def.h`. `Val x val` returns the new content of
the value buffer, `Jac x off jac` the new triplet list, `Hes x off hes` the new
list of per-row triplet lists, each with the `int` return code. -/
structure Constraint (T : Type) where
  Nx : Nat
  Nf : Nat
  Val : (Nat → T) → (Nat → T) → (Nat → T) × Int
  Jac : (Nat → T) → Nat → List (Triplet T) → List (Triplet T) × Int
  Hes : (Nat → T) → Nat → List (List (Triplet T)) → List (List (Triplet T)) × Int

/-- Class `constraint_t<T>`: the referenced buffer and the two cached sizes. -/
structure constraint_t (T : Type) where
  buffer_ : List (Option (Constraint T))
  xdim_ : Nat
  fdim_ : Nat

/-- First loop of the constructor of `constraint_t` (lines 124-129): `xdim_`
becomes the `Nx()` of the first non-null entry, then `break`. -/
def constraint_t.scan_xdim {T : Type} : List (Option (Constraint T)) → Nat → Nat
  | [], xdim => xdim
  | none :: cs, xdim => constraint_t.scan_xdim cs xdim
  | some c :: _, _ => c.Nx

/-- Second loop of the constructor of `constraint_t` (lines 132-139) on the state
`(fdim_, compatible)`: every non-null entry adds its `Nf()` to `fdim_` (a
`size_t`, so the sum wraps) and clears `compatible` when its `Nx()` differs from
`xdim_`. The loop has no early exit. -/
def constraint_t.accumulate {T : Type} (xdim : Nat) :
    List (Option (Constraint T)) → Nat × Bool → Nat × Bool
  | [], st => st
  | none :: cs, st => constraint_t.accumulate xdim cs st
  | some c :: cs, st =>
    constraint_t.accumulate xdim cs
      ((st.1 + c.Nf) % 2 ^ 64, if c.Nx ≠ xdim then false else st.2)

/-- Constructor `constraint_t(buffer)` (lines 122-142). -/
def constraint_t.ctor {T : Type} (buffer : List (Option (Constraint T))) :
    Except exception (constraint_t T) :=
  if constraint_t.scan_xdim buffer SIZE_MAX = SIZE_MAX then
    Except.error exception.null_input_exception
  else if !(constraint_t.accumulate (constraint_t.scan_xdim buffer SIZE_MAX) buffer
      (0, true)).2 then
    Except.error exception.compatibility_exception
  else
    Except.ok ⟨buffer, constraint_t.scan_xdim buffer SIZE_MAX,
      (constraint_t.accumulate (constraint_t.scan_xdim buffer SIZE_MAX) buffer (0, true)).1⟩

/-- Method `constraint_t::Nx` (lines 143-145). -/
def constraint_t.Nx {T : Type} (self : constraint_t T) : Nat :=
  self.xdim_

/-- Method `constraint_t::Nf` (lines 146-153): recomputed from the buffer on
every call, in `size_t` arithmetic. -/
def constraint_t.Nf {T : Type} (self : constraint_t T) : Nat :=
  self.buffer_.foldl
    (fun fdim c => match c with
      | some c => (fdim + c.Nf) % 2 ^ 64
      | none => fdim) 0

/-- Method `constraint_t::Val` (lines 154-168) on the state `(val, offset)`: each
non-null term fills a zeroed temporary of `nf` entries, which is added to rows
`offset .. offset + nf - 1` of the output, and `offset` advances by `nf`. -/
def constraint_t.Val {T : Type} [Zero T] [Add T] (self : constraint_t T) (x : Nat → T)
    (val : Nat → T) : (Nat → T) × Int :=
  ((self.buffer_.foldl
    (fun (st : (Nat → T) × Nat) c => match c with
      | some c =>
        (fun i =>
          if st.2 ≤ i ∧ i < st.2 + c.Nf then st.1 i + (c.Val x (fun _ => 0)).1 (i - st.2)
          else st.1 i,
         (st.2 + c.Nf) % 2 ^ 64)
      | none => st) (val, 0)).1, 0)

/-- Method `constraint_t::Jac` (lines 169-178) on the state `(jac, offset)`,
with `offset` starting at `off`. -/
def constraint_t.Jac {T : Type} (self : constraint_t T) (x : Nat → T) (off : Nat)
    (jac : List (Triplet T)) : List (Triplet T) × Int :=
  ((self.buffer_.foldl
    (fun (st : List (Triplet T) × Nat) c => match c with
      | some c => ((c.Jac x st.2 st.1).1, (st.2 + c.Nf) % 2 ^ 64)
      | none => st) (jac, off)).1, 0)

/-- What `std::vector::resize(n)` leaves: the first `n` entries, padded with
empty vectors. -/
def resize {α : Type} (v : List (List α)) (n : Nat) : List (List α) :=
  v.take n ++ List.replicate (n - v.length) []

/-- First statement of `constraint_t::Hes` (lines 180-181): the output is
resized to `fdim_` entries when its size differs. -/
def constraint_t.Hes_resize {T : Type} (self : constraint_t T)
    (hes : List (List (Triplet T))) : List (List (Triplet T)) :=
  if hes.length ≠ self.fdim_ then resize hes self.fdim_ else hes

/-- Method `constraint_t::Hes` (lines 179-190) on the state `(hes, offset)`, with
`offset` starting at 0 whatever `off` is. -/
def constraint_t.Hes {T : Type} (self : constraint_t T) (x : Nat → T) (_off : Nat)
    (hes : List (List (Triplet T))) : List (List (Triplet T)) × Int :=
  ((self.buffer_.foldl
    (fun (st : List (List (Triplet T)) × Nat) c => match c with
      | some c => ((c.Hes x st.2 st.1).1, (st.2 + c.Nf) % 2 ^ 64)
      | none => st) (self.Hes_resize hes, 0)).1, 0)

/-- Row at which the block of the `k`-th non-null term starts: the sum of `Nf`
over the non-null terms before it. -/
def row_start {T : Type} (terms : List (Constraint T)) (k : Nat) : Nat :=
  ((terms.take k).map Constraint.Nf).sum

/-- A sample constraint term over the integers with the given `Nx` and `Nf`: it
adds `c * x[0]` to each of its `nf` rows, appends one Jacobian triplet per row
at the offset it is handed, and has no Hessian. -/
def sample_constraint (nx nf : Nat) (c : Int) : Constraint Int where
  Nx := nx
  Nf := nf
  Val := fun x val => (fun i => if i < nf then val i + c * x 0 else val i, 0)
  Jac := fun _ off jac => (jac ++ (List.range nf).map (fun r => ⟨off + r, 0, c⟩), 0)
  Hes := fun _ _ hes => (hes, 37)

/-- Two constraint terms of 2 and 3 rows around a null entry. -/
def stacked_buffer : List (Option (Constraint Int)) :=
  [some (sample_constraint 4 2 1), none, some (sample_constraint 4 3 10)]

/-- Two constraint terms whose row counts `2 ^ 63` add up to `2 ^ 64`. -/
def overflow_buffer : List (Option (Constraint Int)) :=
  [some (sample_constraint 4 (2 ^ 63) 1), some (sample_constraint 4 (2 ^ 63) 1)]

/-- Two constraint terms: the first reports `Nx = SIZE_MAX`, the second `Nx = 5`. -/
def wrapped_constraint_buffer : List (Option (Constraint Int)) :=
  [some (sample_constraint SIZE_MAX 1 1), some (sample_constraint 5 1 1)]

/-- Two constraint terms of one row each. -/
def unit_rows_buffer : List (Option (Constraint Int)) :=
  [some (sample_constraint 4 1 1), some (sample_constraint 4 1 10)]

/-- The composite that the constructor builds from `stacked_buffer`. -/
def sample_stacked : constraint_t Int :=
  ⟨stacked_buffer, 4, 5⟩

/-- Modelled from the spec: the loop of `build_global_local_mapping` (declared in
`util.h`, which is not among the sources) over the global indices still to
visit. An excluded index gets the sentinel `(size_t)-1`, a free index the next
local index `ptr`. -/
def g2l_scan (F : Finset Nat) : List Nat → Nat → List Nat
  | [], _ => []
  | i :: is, ptr =>
    if i ∈ F then SIZE_MAX :: g2l_scan F is ptr else ptr :: g2l_scan F is (ptr + 1)

/-- Modelled from the spec: `build_global_local_mapping(N, F, g2l)` of `util.h`
(not among the sources): the global-to-local index array of length `N`, holding
the local index of every free variable and the sentinel for every excluded one. -/
def build_global_local_mapping (N : Nat) (F : Finset Nat) : List Nat :=
  g2l_scan F (List.range N) 0

/-- Modelled from the spec: `rm_vector_row(v, g2l)` of `util.h` (not among the
sources): strips from `v` the rows of the excluded indices. -/
def rm_vector_row {T : Type} (v : List T) (g2l : List Nat) : List T :=
  (List.zip g2l v).filterMap (fun p => if p.1 = SIZE_MAX then none else some p.2)

/-- Modelled from the spec: `rc_vector_row(sub, g2l, v)` of `util.h` (not among
the sources): scatters the reduced vector `sub` into the free positions of `v`
and leaves the excluded positions at their prior value. A read past the end of
`sub` (undefined in the code) yields 0. -/
def rc_vector_row {T : Type} [Zero T] (sub : List T) (g2l : List Nat) (v : List T) : List T :=
  List.zipWith (fun gi vi => if gi = SIZE_MAX then vi else sub.getD gi 0) g2l v

/-- Method `gradient_field_deform::solve_for_xyz` (gradient_deform.cc, lines
153-175) on one coordinate row `X` of `_nods_`, returning the new row. The
members `fixDOF_` and `g2l_` are arguments; `rhs_of X` stands for the right-hand
side `calc_divergence(grad_xyz_.col(xyz)) - L_ * X` and `solve` for
`sol_.solve`, both taken as parameters (the solve is assumed to succeed). -/
def solve_for_xyz {T : Type} [Zero T] [Add T] (rhs_of : List T → List T)
    (solve : List T → List T) (fixDOF_ : Finset Nat) (g2l_ : List Nat) (X : List T) : List T :=
  List.zipWith (fun a b => a + b) X
    (if fixDOF_ ≠ ∅ then
      rc_vector_row (solve (rm_vector_row (rhs_of X) g2l_)) g2l_ (List.replicate X.length 0)
    else
      solve (rhs_of X))

/-- A sample exclusion set for five variables. -/
def sample_fixed : Finset Nat := {1, 3}

/-- A column of the `3 x V` node matrix `nods`. -/
structure Vec3 (K : Type) where
  x : K
  y : K
  z : K

/-- Difference of two columns. -/
def Vec3.sub {K : Type} [Sub K] (a b : Vec3 K) : Vec3 K :=
  ⟨a.x - b.x, a.y - b.y, a.z - b.z⟩

/-- Determinant of the `3 x 3` matrix with columns `a`, `b`, `c`. -/
def det3 {K : Type} [Ring K] (a b c : Vec3 K) : K :=
  a.x * (b.y * c.z - b.z * c.y) - b.x * (a.y * c.z - a.z * c.y) +
    c.x * (a.y * b.z - a.z * b.y)

/-- Volume of one tetrahedron as both constructors compute it
(volume_frame.cc, lines 82-83 and 369-370): `fabs(det(Ds)) / 6.0`, the columns
of `Ds` being the last three corners minus the first. -/
def tet_volume {K : Type} [LinearOrderedField K] (nods : Nat → Vec3 K)
    (t : Nat × Nat × Nat × Nat) : K :=
  abs (det3 ((nods t.2.1).sub (nods t.1)) ((nods t.2.2.1).sub (nods t.1))
    ((nods t.2.2.2).sub (nods t.1))) / 6

/-- Barycentre `nods(:, tets(:, t)) * ones(4, 1) / 4.0` of a tetrahedron. -/
def barycenter {K : Type} [Field K] (nods : Nat → Vec3 K) (t : Nat × Nat × Nat × Nat) :
    Vec3 K :=
  ⟨((nods t.1).x + (nods t.2.1).x + (nods t.2.2.1).x + (nods t.2.2.2).x) / 4,
   ((nods t.1).y + (nods t.2.1).y + (nods t.2.2.1).y + (nods t.2.2.2).y) / 4,
   ((nods t.1).z + (nods t.2.1).z + (nods t.2.2.1).z + (nods t.2.2.2).z) / 4⟩

/-- Euclidean norm, over a square root function taken as a parameter. -/
def norm3 {K : Type} [Ring K] (sqrt : K → K) (v : Vec3 K) : K :=
  sqrt (v.x * v.x + v.y * v.y + v.z * v.z)

/-- The normalisation `stiff_ /= sum(stiff_)` shared by the term constructors. -/
def normalize {K : Type} [Field K] (w : List K) : List K :=
  w.map (fun a => a / w.sum)

/-- Adjacency table `adjt_` of `SH_smooth_energy_tet` (lines 88-97): the tet pairs
of the faces that are not outside faces. The face table `face2tet_` and the test
`is_outside_face` come from the mesh library and are parameters. -/
def SH_smooth_energy_tet.adjt_ (face2tet_ : List (Nat × Nat))
    (is_outside_face : Nat × Nat → Bool) : List (Nat × Nat) :=
  face2tet_.filter (fun ts => !is_outside_face ts)

/-- Distance between the barycentres of two tetrahedra (lines 102-104). -/
def SH_smooth_energy_tet.dist {K : Type} [Field K] (sqrt : K → K)
    (tets : List (Nat × Nat × Nat × Nat)) (nods : Nat → Vec3 K) (lr : Nat × Nat) : K :=
  norm3 sqrt ((barycenter nods (tets.getD lr.1 (0, 0, 0, 0))).sub
    (barycenter nods (tets.getD lr.2 (0, 0, 0, 0))))

/-- Raw weights of `SH_smooth_energy_tet` before the division by their total
(lines 101-106): `(volume[l] + volume[r]) / (dist * dist)` per interior face. -/
def SH_smooth_energy_tet.raw_stiff {K : Type} [LinearOrderedField K] (sqrt : K → K)
    (tets : List (Nat × Nat × Nat × Nat)) (nods : Nat → Vec3 K)
    (adjt : List (Nat × Nat)) : List K :=
  adjt.map (fun lr =>
    (tet_volume nods (tets.getD lr.1 (0, 0, 0, 0)) +
        tet_volume nods (tets.getD lr.2 (0, 0, 0, 0))) /
      (SH_smooth_energy_tet.dist sqrt tets nods lr *
        SH_smooth_energy_tet.dist sqrt tets nods lr))

/-- Member `stiff_` of `SH_smooth_energy_tet` after construction (lines 99-109). -/
def SH_smooth_energy_tet.stiff_ {K : Type} [LinearOrderedField K] (sqrt : K → K)
    (tets : List (Nat × Nat × Nat × Nat)) (nods : Nat → Vec3 K)
    (adjt : List (Nat × Nat)) : List K :=
  normalize (SH_smooth_energy_tet.raw_stiff sqrt tets nods adjt)

/-- Member `volume_` of `frame_orth_energy` after construction (lines 366-374). -/
def frame_orth_energy.volume_ {K : Type} [LinearOrderedField K]
    (tets : List (Nat × Nat × Nat × Nat)) (nods : Nat → Vec3 K) : List K :=
  normalize (tets.map (tet_volume nods))

/-- Member `stiff_` of `SH_align_energy_tet` after construction (lines 189-195):
the areas of the surface triangles divided by their total. The surface `surf`
and `cal_face_area` come from the mesh library and are parameters. -/
def SH_align_energy_tet.stiff_ {K : Type} [Field K] (cal_face_area : Vec3 K → Vec3 K → Vec3 K → K)
    (nods : Nat → Vec3 K) (surf : List (Nat × Nat × Nat)) : List K :=
  normalize (surf.map (fun f => cal_face_area (nods f.1) (nods f.2.1) (nods f.2.2)))

/-- Member `stiff_` of `boundary_fix_energy` after construction (lines 416-422). -/
def boundary_fix_energy.stiff_ {K : Type} [Field K] (cal_face_area : Vec3 K → Vec3 K → Vec3 K → K)
    (nods : Nat → Vec3 K) (surf : List (Nat × Nat × Nat)) : List K :=
  normalize (surf.map (fun f => cal_face_area (nods f.1) (nods f.2.1) (nods f.2.2)))

/-- Sample mesh: the corners of two mirror-image tetrahedra glued along the
face `(0, 1, 2)` in the plane `z = 0`. -/
def sample_nods (i : Nat) : Vec3 ℚ :=
  [⟨0, 0, 0⟩, ⟨4, 0, 0⟩, ⟨4, 3, 0⟩, ⟨4, 3, 4⟩, ⟨4, 3, -4⟩].getD i ⟨0, 0, 0⟩

/-- Sample mesh: the two tetrahedra. -/
def sample_tets : List (Nat × Nat × Nat × Nat) :=
  [(0, 1, 2, 3), (0, 1, 2, 4)]

/-- Sample mesh: the tet pairs of its seven faces, `SIZE_MAX` standing for the
missing neighbour of an outside face. -/
def sample_face2tet : List (Nat × Nat) :=
  [(0, 1), (0, SIZE_MAX), (0, SIZE_MAX), (0, SIZE_MAX), (SIZE_MAX, 1), (SIZE_MAX, 1),
    (SIZE_MAX, 1)]

/-- Sample mesh: a face is outside when one of its two tets is missing. -/
def sample_is_outside (ts : Nat × Nat) : Bool :=
  decide (ts.1 = SIZE_MAX) || decide (ts.2 = SIZE_MAX)

/-- Sample mesh: its six outside triangles. -/
def sample_surf : List (Nat × Nat × Nat) :=
  [(0, 1, 3), (1, 2, 3), (0, 2, 3), (0, 1, 4), (1, 2, 4), (0, 2, 4)]

/-- Square root on the values that occur in the sample mesh (4, 144 and 400). -/
def sample_sqrt (q : ℚ) : ℚ :=
  if q = 4 then 2 else if q = 144 then 12 else if q = 400 then 20 else 0

/-- Area of the triangle `a b c`: half the norm of the cross product of two
edges, with the square root of the sample mesh. -/
def sample_face_area (a b c : Vec3 ℚ) : ℚ :=
  sample_sqrt
    ((((b.sub a).y * (c.sub a).z - (b.sub a).z * (c.sub a).y) *
        ((b.sub a).y * (c.sub a).z - (b.sub a).z * (c.sub a).y)) +
      (((b.sub a).z * (c.sub a).x - (b.sub a).x * (c.sub a).z) *
        ((b.sub a).z * (c.sub a).x - (b.sub a).x * (c.sub a).z)) +
      (((b.sub a).x * (c.sub a).y - (b.sub a).y * (c.sub a).x) *
        ((b.sub a).x * (c.sub a).y - (b.sub a).y * (c.sub a).x))) / 2

/-- Method `SH_smooth_energy_tet::Hes` (volume_frame.cc, lines 136-138):
`return __LINE__;`, the triplet list is not touched. -/
def SH_smooth_energy_tet.Hes {K : Type} (_abc : Nat → K) (hes : List (Triplet K)) :
    List (Triplet K) × Int :=
  (hes, 137)

/-- Method `SH_align_energy_tet::Hes` (lines 234-236). -/
def SH_align_energy_tet.Hes {K : Type} (_abc : Nat → K) (hes : List (Triplet K)) :
    List (Triplet K) × Int :=
  (hes, 235)

/-- Method `poly_smooth_energy_tet::Hes` (lines 317-319). -/
def poly_smooth_energy_tet.Hes {K : Type} (_abc : Nat → K) (hes : List (Triplet K)) :
    List (Triplet K) × Int :=
  (hes, 318)

/-- The virtual `Hes` of `l1_smooth_energy_tet`. The class declares
`int Hes(const double *f, double *gra) const` (lines 354-356), whose second
parameter is not a triplet list, so it does not override the virtual: a call
through `Functional` runs the `Hes` inherited from `SH_smooth_energy_tet`. -/
def l1_smooth_energy_tet.Hes {K : Type} (f : Nat → K) (hes : List (Triplet K)) :
    List (Triplet K) × Int :=
  SH_smooth_energy_tet.Hes f hes

/-- Method `frame_orth_energy::Hes` (lines 395-397). -/
def frame_orth_energy.Hes {K : Type} (_f : Nat → K) (hes : List (Triplet K)) :
    List (Triplet K) × Int :=
  (hes, 396)

/-- Method `boundary_fix_energy::Hes` (lines 454-456). -/
def boundary_fix_energy.Hes {K : Type} (_x : Nat → K) (hes : List (Triplet K)) :
    List (Triplet K) × Int :=
  (hes, 455)

/-- The default body of `Constraint::Hes` (def.h, lines 36-38). -/
def Constraint.Hes_default {T : Type} (_x : Nat → T) (_off : Nat)
    (hes : List (List (Triplet T))) : List (List (Triplet T)) × Int :=
  (hes, 37)

/-- A term without Hessian: the value and gradient of `sample_term`, and a `Hes`
that returns the sentinel of `boundary_fix_energy::Hes`. -/
def first_order_term (n : Nat) (c : Int) : Functional Int where
  Nx := n
  Val := (sample_term n c).Val
  Gra := (sample_term n c).Gra
  Hes := boundary_fix_energy.Hes

/-- Member `dim_` of `SH_smooth_energy_tet` and of its subclasses (line 78):
`3 * tets.size(2)`, a `size_t` product. -/
def SH_smooth_energy_tet.dim_ (tets : List (Nat × Nat × Nat × Nat)) : Nat :=
  (3 * tets.length) % 2 ^ 64

/-- The `3 x 2` block `ABC(colon(), adjt_(colon(), i))` as the kernels see it
through `&abcs[0]`: the three angles of tet `l`, then those of tet `r`. -/
def SH_smooth_energy_tet.abcs {K : Type} (abc : Nat → K) (lr : Nat × Nat) : Nat → K :=
  fun k => if k < 3 then abc (3 * lr.1 + k) else abc (3 * lr.2 + (k - 3))

/-- The update `G(colon(), col) += v` on a buffer seen as a matrix with `n` rows:
cell `n * col + k` receives `v k` for `k < n`. -/
def add_col {K : Type} [Add K] (n : Nat) (G : Nat → K) (col : Nat) (v : Nat → K) : Nat → K :=
  fun j => if n * col ≤ j ∧ j < n * col + n then G j + v (j - n * col) else G j

/-- Method `SH_smooth_energy_tet::Val` (lines 115-124) on the state
`(value, *val)`. The Fortran kernel `cubic_sym_smooth_tet_` is a parameter that
maps the old content of `value`, the block `abcs` and the weight to the new
content of `value`. `stiff_` has one entry per column of `adjt_` (line 99), so
the loop runs over the pairs of both. -/
def SH_smooth_energy_tet.Val {K : Type} [Zero K] [Add K] [Mul K]
    (cubic_sym_smooth_tet_ : K → (Nat → K) → K → K) (w_ : K)
    (adjt_ : List (Nat × Nat)) (stiff_ : List K) (abc : Nat → K) (val : K) : K × Int :=
  (((adjt_.zip stiff_).foldl
    (fun (st : K × K) p =>
      (cubic_sym_smooth_tet_ st.1 (SH_smooth_energy_tet.abcs abc p.1) p.2,
        st.2 + w_ * cubic_sym_smooth_tet_ st.1 (SH_smooth_energy_tet.abcs abc p.1) p.2))
    (0, val)).2, 0)

/-- Method `SH_smooth_energy_tet::Gra` (lines 125-135) on the state `(g, G)`.
The kernel `cubic_sym_smooth_tet_jac_` is a parameter that maps the old content
of the `3 x 2` block `g`, the block `abcs` and the weight to the new `g`, whose
two columns are added, scaled by `w_`, to columns `l` and `r` of `G`. -/
def SH_smooth_energy_tet.Gra {K : Type} [Zero K] [Add K] [Mul K]
    (cubic_sym_smooth_tet_jac_ : (Nat → K) → (Nat → K) → K → (Nat → K)) (w_ : K)
    (adjt_ : List (Nat × Nat)) (stiff_ : List K) (abc : Nat → K) (gra : Nat → K) :
    (Nat → K) × Int :=
  (((adjt_.zip stiff_).foldl
    (fun (st : (Nat → K) × (Nat → K)) p =>
      (cubic_sym_smooth_tet_jac_ st.1 (SH_smooth_energy_tet.abcs abc p.1) p.2,
        add_col 3
          (add_col 3 st.2 p.1.1
            (fun k => w_ *
              cubic_sym_smooth_tet_jac_ st.1 (SH_smooth_energy_tet.abcs abc p.1) p.2 k))
          p.1.2
          (fun k => w_ *
            cubic_sym_smooth_tet_jac_ st.1 (SH_smooth_energy_tet.abcs abc p.1) p.2 (3 + k))))
    (fun _ => 0, gra)).2, 0)

/-- The product `dot(a, b)` of two 9-vectors. -/
def dot9 {K : Type} [Zero K] [Add K] [Mul K] (a b : Nat → K) : K :=
  ((List.range 9).map (fun k => a k * b k)).sum

/-- Method `SH_smooth_energy_tet::ValSH` (lines 139-148): per adjacent pair,
`*val += w_ * stiff_[i] * dot(dif, dif)` with `dif` the difference of the two
columns of the `9 x (dim_ / 3)` field `Fs`. -/
def SH_smooth_energy_tet.ValSH {K : Type} [Zero K] [Add K] [Mul K] [Sub K] (w_ : K)
    (adjt_ : List (Nat × Nat)) (stiff_ : List K) (f : Nat → K) (val : K) : K × Int :=
  ((adjt_.zip stiff_).foldl
    (fun val p =>
      val + w_ * p.2 *
        dot9 (fun k => f (9 * p.1.1 + k) - f (9 * p.1.2 + k))
          (fun k => f (9 * p.1.1 + k) - f (9 * p.1.2 + k))) val, 0)

/-- Method `SH_smooth_energy_tet::GraSH` (lines 149-159): per adjacent pair `(l, r)`,
column `l` of `G` receives `2 w_ stiff_[i] (F_l - F_r)` and then column `r`
receives `2 w_ stiff_[i] (F_r - F_l)`. -/
def SH_smooth_energy_tet.GraSH {K : Type} [Add K] [Mul K] [Sub K] [OfNat K 2] (w_ : K)
    (adjt_ : List (Nat × Nat)) (stiff_ : List K) (f : Nat → K) (gra : Nat → K) :
    (Nat → K) × Int :=
  ((adjt_.zip stiff_).foldl
    (fun G p =>
      add_col 9
        (add_col 9 G p.1.1 (fun k => 2 * w_ * p.2 * (f (9 * p.1.1 + k) - f (9 * p.1.2 + k))))
        p.1.2 (fun k => 2 * w_ * p.2 * (f (9 * p.1.2 + k) - f (9 * p.1.1 + k)))) gra, 0)

/-- Modelled from the spec: `add_diag_block<T, N>(r, c, v, hes)`, declared in
`util.h`, which is not among the sources. As the claim on the assembled system
words it, it appends the value `v` at `(N r + k, N c + k)` for `k = 0 .. N - 1`. -/
def add_diag_block {K : Type} (n r c : Nat) (v : K) (hes : List (Triplet K)) :
    List (Triplet K) :=
  hes ++ (List.range n).map (fun k => ⟨n * r + k, n * c + k, v⟩)

/-- Method `SH_smooth_energy_tet::HesSH` (lines 160-170); its argument `f` is not
read (the caller passes `nullptr`). -/
def SH_smooth_energy_tet.HesSH {K : Type} [Mul K] [Neg K] [OfNat K 2] (w_ : K)
    (adjt_ : List (Nat × Nat)) (stiff_ : List K) (hes : List (Triplet K)) :
    List (Triplet K) × Int :=
  ((adjt_.zip stiff_).foldl
    (fun hes p =>
      add_diag_block 9 p.1.2 p.1.2 (2 * w_ * p.2)
        (add_diag_block 9 p.1.2 p.1.1 (-(2 * w_ * p.2))
          (add_diag_block 9 p.1.1 p.1.2 (-(2 * w_ * p.2))
            (add_diag_block 9 p.1.1 p.1.1 (2 * w_ * p.2) hes)))) hes, 0)

/-- The face table of a single tetrahedron: four outside faces. -/
def single_tet_face2tet : List (Nat × Nat) :=
  [(0, SIZE_MAX), (0, SIZE_MAX), (SIZE_MAX, 0), (SIZE_MAX, 0)]

/-- A field of SH coefficients that is 1 in the first coefficient of element 0
and 0 elsewhere. -/
def unit_field (i : Nat) : ℚ :=
  if i = 0 then 1 else 0

/-- Method `SH_smooth_energy_tet::Nx` (lines 112-114), also the `Nx` of
`poly_smooth_energy_tet`. -/
def SH_smooth_energy_tet.Nx (tets : List (Nat × Nat × Nat × Nat)) : Nat :=
  SH_smooth_energy_tet.dim_ tets

/-- Member `dim_` of `SH_align_energy_tet` (line 184): `3 * tets.size(2)`. -/
def SH_align_energy_tet.dim_ (tets : List (Nat × Nat × Nat × Nat)) : Nat :=
  (3 * tets.length) % 2 ^ 64

/-- Method `SH_align_energy_tet::Nx` (lines 210-212). -/
def SH_align_energy_tet.Nx (tets : List (Nat × Nat × Nat × Nat)) : Nat :=
  SH_align_energy_tet.dim_ tets

/-- Method `l1_smooth_energy_tet::Nx` (lines 330-332): `3 * dim_`, with the
`dim_` of the base class. -/
def l1_smooth_energy_tet.Nx (tets : List (Nat × Nat × Nat × Nat)) : Nat :=
  (3 * SH_smooth_energy_tet.dim_ tets) % 2 ^ 64

/-- Member `dim_` of `frame_orth_energy` (line 365): `9 * tets.size(2)`. -/
def frame_orth_energy.dim_ (tets : List (Nat × Nat × Nat × Nat)) : Nat :=
  (9 * tets.length) % 2 ^ 64

/-- Method `frame_orth_energy::Nx` (lines 376-378). -/
def frame_orth_energy.Nx (tets : List (Nat × Nat × Nat × Nat)) : Nat :=
  frame_orth_energy.dim_ tets

/-- Member `dim_` of `boundary_fix_energy` (line 411): `var_dim_ * tets.size(2)`;
`var_dim_` is declared, and so initialised, before `dim_`. -/
def boundary_fix_energy.dim_ (var_dim : Nat) (tets : List (Nat × Nat × Nat × Nat)) : Nat :=
  (var_dim * tets.length) % 2 ^ 64

/-- Method `boundary_fix_energy::Nx` (lines 432-434). -/
def boundary_fix_energy.Nx (var_dim : Nat) (tets : List (Nat × Nat × Nat × Nat)) : Nat :=
  boundary_fix_energy.dim_ var_dim tets

/-- The squared norm `(X.col(tid) - X0.col(tid)).squaredNorm()` of lines 440,
for the `var_dim x (dim_ / var_dim)` maps `X` and `X0` over `x` and `x0_`. -/
def col_sq_dist {K : Type} [Zero K] [Add K] [Mul K] [Sub K] (var_dim : Nat)
    (x x0 : Nat → K) (tid : Nat) : K :=
  ((List.range var_dim).map (fun k =>
    (x (var_dim * tid + k) - x0 (var_dim * tid + k)) *
      (x (var_dim * tid + k) - x0 (var_dim * tid + k)))).sum

/-- Method `boundary_fix_energy::Val` (lines 435-443). `adjt_` holds the tet of
every surface face and `stiff_` one weight per face (lines 416 and 424), so the
loop runs over the pairs of both. -/
def boundary_fix_energy.Val {K : Type} [Zero K] [Add K] [Mul K] [Sub K] (var_dim_ : Nat)
    (w_ : K) (adjt_ : List Nat) (stiff_ : List K) (x0_ : Nat → K) (x : Nat → K) (val : K) :
    K × Int :=
  ((adjt_.zip stiff_).foldl
    (fun val p => val + w_ * p.2 * col_sq_dist var_dim_ x x0_ p.1) val, 0)

/-- Method `boundary_fix_energy::Gra` (lines 444-453):
`G.col(tid) += w_ * 2.0 * stiff_[i] * (X.col(tid) - X0.col(tid))` per face. -/
def boundary_fix_energy.Gra {K : Type} [Add K] [Mul K] [Sub K] [OfNat K 2] (var_dim_ : Nat)
    (w_ : K) (adjt_ : List Nat) (stiff_ : List K) (x0_ : Nat → K) (x : Nat → K)
    (gra : Nat → K) : (Nat → K) × Int :=
  ((adjt_.zip stiff_).foldl
    (fun G p =>
      add_col var_dim_ G p.1
        (fun k => w_ * 2 * p.2 * (x (var_dim_ * p.1 + k) - x0_ (var_dim_ * p.1 + k)))) gra, 0)

/-- Method `gradient_field_deform::propagate_transform` (gradient_deform.cc,
lines 108-141): the new content of `hf_`. `L_mul hf` stands for the product
`LHS * hf_` and `solve` for `solver.compute(LHS); solver.solve(rhs)` on the
(possibly reduced) matrix; both are parameters and the solve is assumed to
succeed. The vector `hf_` has `nods_.size(2)` entries. In the branch of an empty exclusion set the statement `df = Df`
overwrites the solver's output with zeros and `Df` stays the zero vector of
line 129. -/
def propagate_transform {K : Type} [Zero K] [Add K] [Neg K] (L_mul : List K → List K)
    (solve : List K → List K) (fixDOF_ editDOF_ : Finset Nat) (hf_ : List K) : List K :=
  List.zipWith (fun a b => a + b) hf_
    (if fixDOF_ ∪ editDOF_ ≠ ∅ then
      rc_vector_row
        (solve (rm_vector_row ((L_mul hf_).map (fun a => -a))
          (build_global_local_mapping hf_.length (fixDOF_ ∪ editDOF_))))
        (build_global_local_mapping hf_.length (fixDOF_ ∪ editDOF_))
        (List.replicate hf_.length 0)
    else
      List.replicate hf_.length 0)

/-- The solver's output `df` of line 127 in `propagate_transform`, before the
branch of lines 130-133. -/
def propagate_transform_df {K : Type} [Neg K] (L_mul : List K → List K)
    (solve : List K → List K) (fixDOF_ editDOF_ : Finset Nat) (hf_ : List K) : List K :=
  solve
    (if fixDOF_ ∪ editDOF_ ≠ ∅ then
      rm_vector_row ((L_mul hf_).map (fun a => -a))
        (build_global_local_mapping hf_.length (fixDOF_ ∪ editDOF_))
    else (L_mul hf_).map (fun a => -a))

/-- The 3x3 block `itr_matrix<double *>(3, 3, &mat[9*i])` of `smoothL1`
(volume_frame.cc, line 704): column-major, entry `(r, c)` at `9*i + 3*c + r`. -/
def frame_block {K : Type} (mat : Nat → K) (i : Nat) : Matrix (Fin 3) (Fin 3) K :=
  Matrix.of (fun r c => mat (9 * i + 3 * c.val + r.val))

/-- The post-process loop of `frame_smoother::smoothL1` (volume_frame.cc, lines
701-708) on a vector `mat` of `size` cells: every block `i < size / 9` is
replaced by `U * VT`, where `(U, S, VT)` is what `svd` returns on that block;
the iterations touch disjoint blocks. The library routine `svd` is a
parameter. -/
def smoothL1_orthogonalize {K : Type} [Mul K] [AddCommMonoid K]
    (svd : Matrix (Fin 3) (Fin 3) K →
      Matrix (Fin 3) (Fin 3) K × Matrix (Fin 3) (Fin 3) K × Matrix (Fin 3) (Fin 3) K)
    (mat : Nat → K) (size : Nat) : Nat → K :=
  fun j =>
    if j / 9 < size / 9 then
      ((svd (frame_block mat (j / 9))).1 * (svd (frame_block mat (j / 9))).2.2)
        ⟨j % 9 % 3, Nat.mod_lt _ (by decide)⟩ ⟨j % 9 / 3, by omega⟩
    else mat j

/-- A sample frame vector: one block, the diagonal matrix `diag(2, 3, 4)`. -/
def sample_frame (j : Nat) : ℚ :=
  if j = 0 then 2 else if j = 4 then 3 else if j = 8 then 4 else 0

/-- A singular value decomposition of `sample_frame`: `U = VT = 1`,
`S = diag(2, 3, 4)`. -/
def sample_svd (_A : Matrix (Fin 3) (Fin 3) ℚ) :
    Matrix (Fin 3) (Fin 3) ℚ × Matrix (Fin 3) (Fin 3) ℚ × Matrix (Fin 3) (Fin 3) ℚ :=
  (1, Matrix.diagonal ![2, 3, 4], 1)

/-- Function `convert_zyz_to_mat` (volume_frame.cc, lines 63-70) on a vector
`abc` of `size` cells: with `elem_num = size / 3`, frame `i < elem_num` is
`RZ(abc[3i+2]) * RY(abc[3i+1]) * RZ(abc[3i+0])`, stored column-major at `9*i`.
The rotations `RZ`, `RY` are parameters; cells past the `9 * elem_num` cells of
the result lie outside the vector and read as zero. -/
def convert_zyz_to_mat {K : Type} [Mul K] [AddCommMonoid K]
    (RZ RY : K → Matrix (Fin 3) (Fin 3) K) (abc : Nat → K) (size : Nat) : Nat → K :=
  fun j =>
    if j / 9 < size / 3 then
      (RZ (abc (3 * (j / 9) + 2)) * RY (abc (3 * (j / 9) + 1)) * RZ (abc (3 * (j / 9) + 0)))
        ⟨j % 9 % 3, Nat.mod_lt _ (by decide)⟩ ⟨j % 9 / 3, by omega⟩
    else 0

/-- The pointer `grad.getcontent()` of an array; cells past the end of the
array lie outside it and read as zero. -/
def getcontent {K : Type} [Zero K] (a : List K) : Nat → K :=
  fun j => a.getD j 0

/-- The call `std::fill(p, p + n, v)`. -/
def std_fill {K : Type} (p : Nat → K) (n : Nat) (v : K) : Nat → K :=
  fun j => if j < n then v else p j

/-- What one call of a monitoring callback leaves behind: the outputs `func`
and `grad`, the static counter `g_count`, and the line written to `cout`
(iteration number and diagnostic value) when there is one. -/
structure callback_result (K : Type) where
  func : K
  grad : List K
  g_count : Nat
  report : Option (Nat × K)

/-- Function `callback_sh` (volume_frame.cc, lines 603-624). The statics
`g_func`, `g_smooth` (non-null, set by the driver) and `g_count` (a `size_t`)
are explicit arguments; `_func` and `grad` are the contents of the outputs on
entry. -/
def callback_sh {K : Type} [Mul K] [AddCommMonoid K] (RZ RY : K → Matrix (Fin 3) (Fin 3) K)
    (g_func g_smooth : Functional K) (g_count : Nat) (x : Nat → K) (_func : K)
    (grad : List K) : callback_result K where
  func := (g_func.Val x 0).1
  grad := (List.range grad.length).map
    (g_func.Gra x (std_fill (getcontent grad) g_func.Nx 0)).1
  g_count := (g_count + 1) % 2 ^ 64
  report :=
    if g_count % 100 = 0 then
      some (g_count, (g_smooth.Val (convert_zyz_to_mat RZ RY x g_func.Nx) 0).1)
    else none

/-- Function `callback_l1` (volume_frame.cc, lines 626-644), with the same
conventions as `callback_sh`. -/
def callback_l1 {K : Type} [Zero K] (g_func g_smooth : Functional K) (g_count : Nat)
    (x : Nat → K) (_func : K) (grad : List K) : callback_result K where
  func := (g_func.Val x 0).1
  grad := (List.range grad.length).map
    (g_func.Gra x (std_fill (getcontent grad) g_func.Nx 0)).1
  g_count := (g_count + 1) % 2 ^ 64
  report :=
    if g_count % 100 = 0 then some (g_count, (g_smooth.Val x 0).1) else none

/-- The product with the Laplacian of a single triangle with unit edge weights:
the matrix with rows `(2, -1, -1)`, `(-1, 2, -1)`, `(-1, -1, 2)`. -/
def triangle_L_mul (v : List ℚ) : List ℚ :=
  match v with
  | [a, b, c] => [2 * a - b - c, -a + 2 * b - c, -a - b + 2 * c]
  | _ => []

/-- A solver for the Laplacian of the single triangle: the solution of
`L * df = rhs` whose middle entry is 0 (for a right-hand side summing to 0). -/
def triangle_solve (r : List ℚ) : List ℚ :=
  match r with
  | [r0, _, r2] => [(2 * r0 + r2) / 3, 0, (r0 + 2 * r2) / 3]
  | _ => []

/-- A buffer with one non-null term, which reports `Nx = SIZE_MAX`. -/
def sentinel_buffer : List (Option (Functional Int)) :=
  [some (sample_term SIZE_MAX 1)]

/-- A constraint buffer with one non-null term, which reports `Nx = SIZE_MAX`. -/
def sentinel_constraint_buffer : List (Option (Constraint Int)) :=
  [some (sample_constraint SIZE_MAX 1 1)]

/-- A sample constraint term with `Nx = 4` and `Nf = nf` that records the row
offset it is handed: `Jac` appends one triplet whose row is the offset, `Hes`
appends one row list holding such a triplet. -/
def offset_probe (nf : Nat) : Constraint Int where
  Nx := 4
  Nf := nf
  Val := fun _ val => (val, 0)
  Jac := fun _ off jac => (jac ++ [⟨off, 0, 0⟩], 0)
  Hes := fun _ off hes => (hes ++ [[⟨off, 0, 0⟩]], 0)

/-- Three recording terms of `2 ^ 63`, `2 ^ 63` and 1 rows: the rows before the
third term add up to `2 ^ 64`. -/
def probe_buffer : List (Option (Constraint Int)) :=
  [some (offset_probe (2 ^ 63)), some (offset_probe (2 ^ 63)), some (offset_probe 1)]

/-- Two recording terms of 2 and 3 rows around a null entry. -/
def small_probe_buffer : List (Option (Constraint Int)) :=
  [some (offset_probe 2), none, some (offset_probe 3)]

/-- Method `Functional::operator()` (def.h, lines 19-24), the entry point for
L-BFGS: `Val` is called on the caller's `*val` as it is, `Gra` on the caller's
`gra` only when `graON` is set, and 0 is returned; `_step` is not read. The
result is the new `*val`, the new `gra` and the return code. No class of the
sources overrides it. -/
def Functional.operator_call {T : Type} (self : Functional T) (x : Nat → T) (val : T)
    (gra : Nat → T) (_step : T) (graON : Bool) : (T × (Nat → T)) × Int :=
  (((self.Val x val).1, if graON then (self.Gra x gra).1 else gra), 0)

/-! ## Theorems -/

theorem scan_dim_fst {T : Type} (buffer : List (Option (Functional T))) (i dim : Nat) :
    (energy_t.scan_dim buffer i dim).1 =
      match (non_null buffer).head? with
      | some f => f.Nx
      | none => dim := by
  induction buffer generalizing i with
  | nil => rfl
  | cons e es ih =>
    cases e with
    | none => simpa [energy_t.scan_dim, non_null] using ih (i + 1)
    | some f => simp [energy_t.scan_dim, non_null]

theorem check_dim_fst {T : Type} (buffer : List (Option (Functional T))) (i dim : Nat) :
    (energy_t.check_dim buffer i dim).1 = true ↔ ∃ f ∈ non_null buffer, f.Nx ≠ dim := by
  induction buffer generalizing i with
  | nil => simp [energy_t.check_dim, non_null]
  | cons e es ih =>
    cases e with
    | none => simpa [energy_t.check_dim, non_null] using ih (i + 1)
    | some f =>
      by_cases h : f.Nx = dim
      · have := ih (i + 1)
        simp [energy_t.check_dim, non_null, h] at this ⊢
        exact this
      · simp [energy_t.check_dim, non_null, h]

theorem scan_dim_calls {T : Type} (buffer : List (Option (Functional T))) (i dim : Nat) :
    ∀ c ∈ (energy_t.scan_dim buffer i dim).2, c.method = Method.Nx := by
  induction buffer generalizing i with
  | nil => simp [energy_t.scan_dim]
  | cons e es ih =>
    cases e with
    | none => simpa [energy_t.scan_dim] using ih (i + 1)
    | some f => simp [energy_t.scan_dim]

theorem check_dim_calls {T : Type} (buffer : List (Option (Functional T))) (i dim : Nat) :
    ∀ c ∈ (energy_t.check_dim buffer i dim).2, c.method = Method.Nx := by
  induction buffer generalizing i with
  | nil => simp [energy_t.check_dim]
  | cons e es ih =>
    cases e with
    | none => simpa [energy_t.check_dim] using ih (i + 1)
    | some f =>
      by_cases h : f.Nx = dim
      · have := ih (i + 1)
        simp [energy_t.check_dim, h]
        exact this
      · simp [energy_t.check_dim, h]

theorem ctor_calls {T : Type} (buffer : List (Option (Functional T))) :
    ∀ c ∈ (energy_t.ctor buffer).2, c.method = Method.Nx := by
  intro c hc
  unfold energy_t.ctor at hc
  split_ifs at hc
  · exact scan_dim_calls _ _ _ c hc
  · rcases List.mem_append.1 hc with h | h
    · exact scan_dim_calls _ _ _ c h
    · exact check_dim_calls _ _ _ c h
  · rcases List.mem_append.1 hc with h | h
    · exact scan_dim_calls _ _ _ c h
    · exact check_dim_calls _ _ _ c h

theorem ctor_fst {T : Type} (buffer : List (Option (Functional T))) :
    (energy_t.ctor buffer).1 =
      match (non_null buffer).head? with
      | none => Except.error exception.null_input_exception
      | some f0 =>
        if f0.Nx = SIZE_MAX then Except.error exception.null_input_exception
        else if ∃ f ∈ non_null buffer, f.Nx ≠ f0.Nx then
          Except.error exception.compatibility_exception
        else Except.ok ⟨buffer, f0.Nx⟩ := by
  unfold energy_t.ctor
  have h1 := scan_dim_fst buffer 0 SIZE_MAX
  have h2 := fun d => check_dim_fst buffer 0 d
  cases hh : (non_null buffer).head? with
  | none =>
    rw [hh] at h1
    simp [h1]
  | some f0 =>
    rw [hh] at h1
    simp only [h1]
    by_cases hs : f0.Nx = SIZE_MAX
    · simp [hs]
    · by_cases hd : ∃ f ∈ non_null buffer, f.Nx ≠ f0.Nx
      · simp [hs, (h2 f0.Nx).2 hd, hd]
      · have hb : (energy_t.check_dim buffer 0 f0.Nx).1 = false := by
          cases hv : (energy_t.check_dim buffer 0 f0.Nx).1 with
          | false => rfl
          | true => exact absurd ((h2 f0.Nx).1 hv) hd
        simp only [hs, hb, hd, if_false]
        simp

theorem head_map_Nx {α : Type} (Nx : α → Nat) (l : List α) :
    (l.map Nx).head? = l.head?.map Nx := by
  cases l <;> rfl

theorem energy_ctor_compat_iff {T : Type} (buffer : List (Option (Functional T))) :
    (energy_t.ctor buffer).1 = Except.error exception.compatibility_exception ↔
      ∃ d, ((non_null buffer).map Functional.Nx).head? = some d ∧ d ≠ SIZE_MAX ∧
        ∃ n ∈ (non_null buffer).map Functional.Nx, n ≠ d := by
  rw [ctor_fst, head_map_Nx]
  cases hh : (non_null buffer).head? with
  | none => simp
  | some f0 =>
    by_cases hs : f0.Nx = SIZE_MAX
    · simp [hs]
    · by_cases hd : ∃ f ∈ non_null buffer, f.Nx ≠ f0.Nx
      · simp only [hs, hd, if_false, if_true, true_iff]
        obtain ⟨f, hf, hne⟩ := hd
        exact ⟨f0.Nx, rfl, hs, f.Nx, List.mem_map.2 ⟨f, hf, rfl⟩, hne⟩
      · simp only [hs, hd, if_false, false_iff, reduceCtorEq]
        rintro ⟨d, hd1, _, n, hn, hne⟩
        simp at hd1
        obtain ⟨f, hf, rfl⟩ := List.mem_map.1 hn
        exact hd ⟨f, hf, by rw [hd1]; exact hne⟩

theorem foldl_Val_add {T : Type} [AddMonoid T] (x : Nat → T)
    (buffer : List (Option (Functional T))) (acc : T)
    (hadd : ∀ f ∈ non_null buffer, ∀ a, (f.Val x a).1 = a + (f.Val x 0).1) :
    buffer.foldl
        (fun acc e => match e with
          | some f => (f.Val x acc).1
          | none => acc) acc =
      acc + ((non_null buffer).map (fun f => (f.Val x 0).1)).sum := by
  induction buffer generalizing acc with
  | nil => simp [non_null]
  | cons e es ih =>
    cases e with
    | none =>
      have := ih acc (by simpa [non_null] using hadd)
      simpa [non_null] using this
    | some f =>
      have hf : ∀ a, (f.Val x a).1 = a + (f.Val x 0).1 :=
        hadd f (by simp [non_null])
      have := ih (f.Val x acc).1 (fun g hg => hadd g (by
        simp only [non_null, List.filterMap_cons, id] at hg ⊢
        exact List.mem_cons_of_mem _ hg))
      simp only [List.foldl_cons, this, non_null, List.filterMap_cons, id, List.map_cons,
        List.sum_cons]
      rw [hf acc, add_assoc]

/-- C1. For an `energy_t` over a buffer with at least one non-null term whose
non-null terms all report the same `Nx`, and terms that add into the
accumulator, `Val` started from accumulator 0 ends with the sum over the
non-null terms of the value each term alone produces from accumulator 0, and
returns 0. -/
theorem energy_t_Val_sum {T : Type} [AddMonoid T] (self : energy_t T) (x : Nat → T)
    (_hne : non_null self.buffer_ ≠ [])
    (_hNx : ∀ f ∈ non_null self.buffer_, ∀ g ∈ non_null self.buffer_, f.Nx = g.Nx)
    (hadd : ∀ f ∈ non_null self.buffer_, ∀ acc, (f.Val x acc).1 = acc + (f.Val x 0).1) :
    self.Val x 0 = (((non_null self.buffer_).map (fun f => (f.Val x 0).1)).sum, 0) := by
  unfold energy_t.Val
  rw [foldl_Val_add x self.buffer_ 0 hadd, zero_add]

/-- Witness for C1: on the sample composite at `x = 1` the value is `2 + 5`. -/
theorem energy_t_Val_sum_witness :
    sample_energy.Val (fun _ => 1) 0 = (7, 0) :=
  energy_t_Val_sum sample_energy (fun _ => 1)
    (by simp [sample_energy, non_null])
    (by simp [sample_energy, non_null, sample_term])
    (by simp [sample_energy, non_null, sample_term])

/-- Counterexample to C2 as stated: the two non-null terms of the buffer report
different `Nx` (`2 ^ 64 - 1` and 5), yet construction throws
`null_input_exception`, not `compatibility_exception`. -/
theorem energy_t_ctor_mismatch_counterexample :
    (∃ f ∈ non_null wrapped_mismatch_buffer, ∃ g ∈ non_null wrapped_mismatch_buffer,
        f.Nx ≠ g.Nx) ∧
      (energy_t.ctor wrapped_mismatch_buffer).1 =
        Except.error exception.null_input_exception ∧
      (energy_t.ctor wrapped_mismatch_buffer).1 ≠
        Except.error exception.compatibility_exception := by
  refine ⟨⟨sample_term SIZE_MAX 1, ?_, sample_term 5 1, ?_, ?_⟩, ?_, ?_⟩
  · simp [wrapped_mismatch_buffer, non_null]
  · simp [wrapped_mismatch_buffer, non_null]
  · simp [sample_term, SIZE_MAX]
  · rw [ctor_fst]
    simp [wrapped_mismatch_buffer, non_null, sample_term]
  · rw [ctor_fst]
    simp [wrapped_mismatch_buffer, non_null, sample_term]

/-- C2 (amended). For every buffer in which two non-null terms report different
`Nx` and whose first non-null term does not report `Nx = 2 ^ 64 - 1`,
construction fails with `compatibility_exception`; every virtual call the
constructor made on the way is a call of `Nx` (no `Val`, `Gra` or `Hes`); and
the failure is the same for every other buffer whose non-null terms report the
same `Nx` values, whatever their `Val`, `Gra` and `Hes` are. -/
theorem energy_t_ctor_mismatch {T : Type} (buffer : List (Option (Functional T)))
    (hdiff : ∃ f ∈ non_null buffer, ∃ g ∈ non_null buffer, f.Nx ≠ g.Nx)
    (hfirst : ∀ f0, (non_null buffer).head? = some f0 → f0.Nx ≠ SIZE_MAX) :
    (energy_t.ctor buffer).1 = Except.error exception.compatibility_exception ∧
      (∀ c ∈ (energy_t.ctor buffer).2, c.method = Method.Nx) ∧
      ∀ other : List (Option (Functional T)),
        (non_null other).map Functional.Nx = (non_null buffer).map Functional.Nx →
          (energy_t.ctor other).1 = Except.error exception.compatibility_exception := by
  suffices h : (energy_t.ctor buffer).1 = Except.error exception.compatibility_exception by
    refine ⟨h, ctor_calls buffer, fun other ho => ?_⟩
    rw [energy_ctor_compat_iff] at h ⊢
    rw [ho]
    exact h
  rw [ctor_fst]
  obtain ⟨f, hf, g, hg, hfg⟩ := hdiff
  cases hh : (non_null buffer).head? with
  | none =>
    rw [List.head?_eq_none_iff] at hh
    rw [hh] at hf
    cases hf
  | some f0 =>
    have hd : ∃ f ∈ non_null buffer, f.Nx ≠ f0.Nx := by
      by_cases h : f.Nx = f0.Nx
      · exact ⟨g, hg, fun hg0 => hfg (h.trans hg0.symm)⟩
      · exact ⟨f, hf, h⟩
    simp only [hfirst f0 hh, hd, if_true, if_false]

/-- Witness for C2 (amended): the buffer with terms of dimension 3 and 4. -/
theorem energy_t_ctor_mismatch_witness :
    (energy_t.ctor mismatched_buffer).1 = Except.error exception.compatibility_exception ∧
      (∀ c ∈ (energy_t.ctor mismatched_buffer).2, c.method = Method.Nx) ∧
      ∀ other : List (Option (Functional Int)),
        (non_null other).map Functional.Nx = (non_null mismatched_buffer).map Functional.Nx →
          (energy_t.ctor other).1 = Except.error exception.compatibility_exception :=
  energy_t_ctor_mismatch mismatched_buffer
    ⟨sample_term 3 2, by simp [mismatched_buffer, non_null], sample_term 4 5,
      by simp [mismatched_buffer, non_null], by simp [sample_term]⟩
    (by
      intro f0 h
      simp [mismatched_buffer, non_null] at h
      subst h
      simp [sample_term, SIZE_MAX])

/-- Counterexample to C3 as stated: for the empty buffer the constructor throws
`null_input_exception`, which is not the `compatibility_exception` thrown for
terms that disagree on `Nx`. -/
theorem energy_t_ctor_empty_counterexample :
    (energy_t.ctor ([] : List (Option (Functional Int)))).1 =
        Except.error exception.null_input_exception ∧
      (energy_t.ctor ([] : List (Option (Functional Int)))).1 ≠
        Except.error exception.compatibility_exception := by
  constructor
  · rfl
  · rw [ctor_fst]
    simp [non_null]

/-- C3 (amended). For every buffer that is empty or holds only null entries,
construction fails with `null_input_exception`, an error kind distinct from the
`compatibility_exception` raised for terms that disagree on `Nx`. -/
theorem energy_t_ctor_no_term {T : Type} (buffer : List (Option (Functional T)))
    (hnull : ∀ e ∈ buffer, e = none) :
    (energy_t.ctor buffer).1 = Except.error exception.null_input_exception ∧
      exception.null_input_exception ≠ exception.compatibility_exception := by
  refine ⟨?_, by decide⟩
  rw [ctor_fst]
  have hnn : non_null buffer = [] := by
    unfold non_null
    rw [List.filterMap_eq_nil_iff]
    intro e he
    rw [hnull e he]
    rfl
  rw [hnn]
  rfl

/-- Witness for C3 (amended): a buffer of two null entries. -/
theorem energy_t_ctor_no_term_witness :
    (energy_t.ctor null_buffer).1 = Except.error exception.null_input_exception ∧
      exception.null_input_exception ≠ exception.compatibility_exception :=
  energy_t_ctor_no_term null_buffer (by simp [null_buffer])

/-- C4. When every non-null term reports an `Nx` below the maximum `size_t`
value, construction of `energy_t` throws `null_input_exception` exactly when the
buffer has no non-null term, throws `compatibility_exception` exactly when there
is a non-null term and some non-null term's `Nx` differs from that of the first,
and otherwise succeeds with `Nx()` equal to the `Nx` of every non-null term. -/
theorem energy_t_ctor_outcomes {T : Type} (buffer : List (Option (Functional T)))
    (hlt : ∀ f ∈ non_null buffer, f.Nx < SIZE_MAX) :
    ((energy_t.ctor buffer).1 = Except.error exception.null_input_exception ↔
        non_null buffer = []) ∧
      ((energy_t.ctor buffer).1 = Except.error exception.compatibility_exception ↔
        ∃ f0, (non_null buffer).head? = some f0 ∧ ∃ f ∈ non_null buffer, f.Nx ≠ f0.Nx) ∧
      ((non_null buffer ≠ [] ∧
          ¬ (∃ f0, (non_null buffer).head? = some f0 ∧
              ∃ f ∈ non_null buffer, f.Nx ≠ f0.Nx)) →
        ∃ self, (energy_t.ctor buffer).1 = Except.ok self ∧ self.buffer_ = buffer ∧
          ∀ f ∈ non_null buffer, self.Nx = f.Nx) := by
  rw [ctor_fst]
  cases hh : (non_null buffer).head? with
  | none =>
    have hnn : non_null buffer = [] := List.head?_eq_none_iff.1 hh
    simp [hnn]
  | some f0 =>
    have hmem : f0 ∈ non_null buffer := List.mem_of_mem_head? hh
    have hne : non_null buffer ≠ [] := List.ne_nil_of_mem hmem
    have hs : f0.Nx ≠ SIZE_MAX := Nat.ne_of_lt (hlt f0 hmem)
    by_cases hd : ∃ f ∈ non_null buffer, f.Nx ≠ f0.Nx
    · simp [hs, hd, hne]
    · simp only [hs, hd, if_false, hne, false_iff, not_false_eq_true, true_and, reduceCtorEq]
      refine ⟨?_, fun _ => ?_⟩
      · rintro ⟨f1, h1, h2⟩
        cases h1
        exact hd h2
      refine ⟨⟨buffer, f0.Nx⟩, rfl, rfl, fun f hf => ?_⟩
      by_contra hc
      exact hd ⟨f, hf, fun h => hc (by simp [energy_t.Nx, h])⟩

/-- Witness for C4: two terms of dimension 3 around a null entry. -/
theorem energy_t_ctor_outcomes_witness :
    ∃ self, (energy_t.ctor matched_buffer).1 = Except.ok self ∧
      self.buffer_ = matched_buffer ∧ ∀ f ∈ non_null matched_buffer, self.Nx = f.Nx :=
  (energy_t_ctor_outcomes matched_buffer
    (by simp [matched_buffer, non_null, sample_term, SIZE_MAX])).2.2
    ⟨by simp [matched_buffer, non_null],
      by simp [matched_buffer, non_null, sample_term]⟩

theorem ctor_ok_buffer {T : Type} (buffer : List (Option (Functional T))) (self : energy_t T)
    (hc : (energy_t.ctor buffer).1 = Except.ok self) : self.buffer_ = buffer := by
  rw [ctor_fst] at hc
  cases hh : (non_null buffer).head? with
  | none => simp [hh] at hc
  | some f0 =>
    simp only [hh] at hc
    split_ifs at hc
    cases hc
    rfl

theorem foldl_Gra_add {T : Type} [AddMonoid T] (x : Nat → T)
    (buffer : List (Option (Functional T))) (acc : Nat → T)
    (hgra : ∀ f ∈ non_null buffer, ∀ g i,
      (f.Gra x g).1 i = g i + (f.Gra x (fun _ => 0)).1 i) (i : Nat) :
    buffer.foldl
        (fun acc e => match e with
          | some f => (f.Gra x acc).1
          | none => acc) acc i =
      acc i + ((non_null buffer).map (fun f => (f.Gra x (fun _ => 0)).1 i)).sum := by
  induction buffer generalizing acc with
  | nil => simp [non_null]
  | cons e es ih =>
    cases e with
    | none =>
      have := ih acc (by simpa [non_null] using hgra)
      simpa [non_null] using this
    | some f =>
      have hf := hgra f (by simp [non_null])
      have := ih (f.Gra x acc).1 (fun g hg => hgra g (by
        simp only [non_null, List.filterMap_cons, id] at hg ⊢
        exact List.mem_cons_of_mem _ hg))
      simp only [List.foldl_cons, this, non_null, List.filterMap_cons, id, List.map_cons,
        List.sum_cons]
      rw [hf acc i, add_assoc]

theorem foldl_Hes_append {T : Type} (x : Nat → T)
    (buffer : List (Option (Functional T))) (acc : List (Triplet T))
    (hhes : ∀ f ∈ non_null buffer, ∀ h, (f.Hes x h).1 = h ++ (f.Hes x []).1) :
    buffer.foldl
        (fun acc e => match e with
          | some f => (f.Hes x acc).1
          | none => acc) acc =
      acc ++ ((non_null buffer).map (fun f => (f.Hes x []).1)).flatten := by
  induction buffer generalizing acc with
  | nil => simp [non_null]
  | cons e es ih =>
    cases e with
    | none =>
      have := ih acc (by simpa [non_null] using hhes)
      simpa [non_null] using this
    | some f =>
      have hf := hhes f (by simp [non_null])
      have := ih (f.Hes x acc).1 (fun g hg => hhes g (by
        simp only [non_null, List.filterMap_cons, id] at hg ⊢
        exact List.mem_cons_of_mem _ hg))
      simp only [List.foldl_cons, this, non_null, List.filterMap_cons, id, List.map_cons,
        List.flatten_cons]
      rw [hf acc, List.append_assoc]

theorem assemble_append {T : Type} [AddMonoid T] (h1 h2 : List (Triplet T)) (r c : Nat) :
    assemble (h1 ++ h2) r c = assemble h1 r c + assemble h2 r c := by
  simp [assemble, List.filter_append]

theorem assemble_flatten {T : Type} [AddMonoid T] (hs : List (List (Triplet T))) (r c : Nat) :
    assemble hs.flatten r c = (hs.map (fun h => assemble h r c)).sum := by
  induction hs with
  | nil => simp [assemble]
  | cons h hs ih => simp [assemble_append, ih]

/-- C5. For a successfully constructed `energy_t` whose terms add into the
gradient buffer and append to the triplet list: `Gra` from a zero buffer gives,
in every component, the sum of the non-null terms' gradient contributions; `Hes`
appends exactly the concatenation, in buffer order, of the triplets each
non-null term appends; the matrix assembled from them (duplicates summed) is the
sum of the terms' matrices; and both return 0. -/
theorem energy_t_Gra_Hes_sum {T : Type} [AddMonoid T]
    (buffer : List (Option (Functional T))) (self : energy_t T) (x : Nat → T)
    (hc : (energy_t.ctor buffer).1 = Except.ok self)
    (hgra : ∀ f ∈ non_null buffer, ∀ g i,
      (f.Gra x g).1 i = g i + (f.Gra x (fun _ => 0)).1 i)
    (hhes : ∀ f ∈ non_null buffer, ∀ h, (f.Hes x h).1 = h ++ (f.Hes x []).1) :
    (∀ i, (self.Gra x (fun _ => 0)).1 i =
        ((non_null buffer).map (fun f => (f.Gra x (fun _ => 0)).1 i)).sum) ∧
      (self.Gra x (fun _ => 0)).2 = 0 ∧
      (∀ hes, self.Hes x hes =
        (hes ++ ((non_null buffer).map (fun f => (f.Hes x []).1)).flatten, 0)) ∧
      (∀ r c, assemble (self.Hes x []).1 r c =
        ((non_null buffer).map (fun f => assemble (f.Hes x []).1 r c)).sum) := by
  have hb := ctor_ok_buffer buffer self hc
  have hH : ∀ hes, self.Hes x hes =
      (hes ++ ((non_null buffer).map (fun f => (f.Hes x []).1)).flatten, 0) := by
    intro hes
    unfold energy_t.Hes
    rw [hb, foldl_Hes_append x buffer hes hhes]
  refine ⟨fun i => ?_, rfl, hH, fun r c => ?_⟩
  · unfold energy_t.Gra
    rw [hb]
    simp only
    rw [foldl_Gra_add x buffer (fun _ => 0) hgra i, zero_add]
  · rw [hH []]
    simp only [List.nil_append]
    rw [assemble_flatten, List.map_map]
    rfl

/-- Witness for C5: the composite built from two terms of dimension 3. -/
theorem energy_t_Gra_Hes_sum_witness :
    (∀ i, (sample_energy.Gra (fun _ => 1) (fun _ => 0)).1 i =
        ((non_null matched_buffer).map
          (fun f => (f.Gra (fun _ => 1) (fun _ => 0)).1 i)).sum) ∧
      (sample_energy.Gra (fun _ => 1) (fun _ => 0)).2 = 0 ∧
      (∀ hes, sample_energy.Hes (fun _ => 1) hes =
        (hes ++ ((non_null matched_buffer).map
          (fun f => (f.Hes (fun _ => 1) []).1)).flatten, 0)) ∧
      (∀ r c, assemble (sample_energy.Hes (fun _ => 1) []).1 r c =
        ((non_null matched_buffer).map
          (fun f => assemble (f.Hes (fun _ => 1) []).1 r c)).sum) :=
  energy_t_Gra_Hes_sum matched_buffer sample_energy (fun _ => 1)
    (by
      rw [ctor_fst]
      simp [matched_buffer, non_null, sample_term, SIZE_MAX, sample_energy])
    (by simp [matched_buffer, non_null, sample_term])
    (by simp [matched_buffer, non_null, sample_term])

theorem scan_xdim_eq {T : Type} (buffer : List (Option (Constraint T))) (xdim : Nat) :
    constraint_t.scan_xdim buffer xdim =
      match (non_null buffer).head? with
      | some c => c.Nx
      | none => xdim := by
  induction buffer with
  | nil => rfl
  | cons e es ih =>
    cases e with
    | none => simpa [constraint_t.scan_xdim, non_null] using ih
    | some c => simp [constraint_t.scan_xdim, non_null]

theorem accumulate_fst {T : Type} (xdim : Nat) (buffer : List (Option (Constraint T)))
    (a : Nat) (b : Bool) :
    (constraint_t.accumulate xdim buffer (a % 2 ^ 64, b)).1 =
      (a + ((non_null buffer).map Constraint.Nf).sum) % 2 ^ 64 := by
  induction buffer generalizing a b with
  | nil => simp [constraint_t.accumulate, non_null]
  | cons e es ih =>
    cases e with
    | none => simpa [constraint_t.accumulate, non_null] using ih a b
    | some c =>
      simp only [constraint_t.accumulate, non_null, List.filterMap_cons, id, List.map_cons,
        List.sum_cons, Nat.mod_add_mod]
      have := ih (a + c.Nf) (if c.Nx ≠ xdim then false else b)
      simp only [non_null] at this
      rw [this, Nat.add_assoc]

theorem accumulate_snd {T : Type} (xdim : Nat) (buffer : List (Option (Constraint T)))
    (a : Nat) (b : Bool) :
    (constraint_t.accumulate xdim buffer (a, b)).2 = true ↔
      b = true ∧ ∀ c ∈ non_null buffer, c.Nx = xdim := by
  induction buffer generalizing a b with
  | nil => simp [constraint_t.accumulate, non_null]
  | cons e es ih =>
    cases e with
    | none => simpa [constraint_t.accumulate, non_null] using ih a b
    | some c =>
      simp only [constraint_t.accumulate, non_null, List.filterMap_cons, id, List.mem_cons,
        forall_eq_or_imp]
      rw [ih]
      by_cases h : c.Nx = xdim
      · simp [h, non_null]
      · simp [h]

theorem foldl_Nf {T : Type} (buffer : List (Option (Constraint T))) (a : Nat) :
    buffer.foldl
        (fun fdim c => match c with
          | some c => (fdim + c.Nf) % 2 ^ 64
          | none => fdim) (a % 2 ^ 64) =
      (a + ((non_null buffer).map Constraint.Nf).sum) % 2 ^ 64 := by
  induction buffer generalizing a with
  | nil => simp [non_null]
  | cons e es ih =>
    cases e with
    | none => simpa [non_null] using ih a
    | some c =>
      simp only [List.foldl_cons, non_null, List.filterMap_cons, id, List.map_cons,
        List.sum_cons, Nat.mod_add_mod]
      have := ih (a + c.Nf)
      simp only [non_null] at this
      rw [this, Nat.add_assoc]

theorem constraint_Nf_eq {T : Type} (self : constraint_t T) :
    self.Nf = ((non_null self.buffer_).map Constraint.Nf).sum % 2 ^ 64 := by
  have := foldl_Nf self.buffer_ 0
  simpa [constraint_t.Nf] using this

theorem constraint_ctor_eq {T : Type} (buffer : List (Option (Constraint T))) :
    constraint_t.ctor buffer =
      match (non_null buffer).head? with
      | none => Except.error exception.null_input_exception
      | some c0 =>
        if c0.Nx = SIZE_MAX then Except.error exception.null_input_exception
        else if ∃ c ∈ non_null buffer, c.Nx ≠ c0.Nx then
          Except.error exception.compatibility_exception
        else Except.ok ⟨buffer, c0.Nx,
          ((non_null buffer).map Constraint.Nf).sum % 2 ^ 64⟩ := by
  unfold constraint_t.ctor
  have h1 := scan_xdim_eq buffer SIZE_MAX
  cases hh : (non_null buffer).head? with
  | none =>
    rw [hh] at h1
    simp [h1]
  | some c0 =>
    rw [hh] at h1
    simp only [h1]
    have hf := accumulate_fst c0.Nx buffer 0 true
    have hs := accumulate_snd c0.Nx buffer 0 true
    simp only [Nat.zero_mod, Nat.zero_add] at hf
    by_cases hm : c0.Nx = SIZE_MAX
    · simp [hm]
    · by_cases hd : ∃ c ∈ non_null buffer, c.Nx ≠ c0.Nx
      · have hb : (constraint_t.accumulate c0.Nx buffer (0, true)).2 = false := by
          cases hv : (constraint_t.accumulate c0.Nx buffer (0, true)).2 with
          | false => rfl
          | true =>
            obtain ⟨c, hc, hne⟩ := hd
            exact absurd ((hs.1 hv).2 c hc) hne
        simp [hm, hb, hd]
      · have hb : (constraint_t.accumulate c0.Nx buffer (0, true)).2 = true := by
          apply hs.2
          refine ⟨rfl, fun c hc => ?_⟩
          by_contra hne
          exact hd ⟨c, hc, hne⟩
        simp only [hm, hb, hd, hf, if_false]
        simp

theorem constraint_ctor_compat_iff {T : Type} (buffer : List (Option (Constraint T))) :
    constraint_t.ctor buffer = Except.error exception.compatibility_exception ↔
      ∃ d, ((non_null buffer).map Constraint.Nx).head? = some d ∧ d ≠ SIZE_MAX ∧
        ∃ n ∈ (non_null buffer).map Constraint.Nx, n ≠ d := by
  rw [constraint_ctor_eq, head_map_Nx]
  cases hh : (non_null buffer).head? with
  | none => simp
  | some c0 =>
    by_cases hs : c0.Nx = SIZE_MAX
    · simp [hs]
    · by_cases hd : ∃ c ∈ non_null buffer, c.Nx ≠ c0.Nx
      · simp only [hs, hd, if_false, if_true, true_iff]
        obtain ⟨c, hc, hne⟩ := hd
        exact ⟨c0.Nx, rfl, hs, c.Nx, List.mem_map.2 ⟨c, hc, rfl⟩, hne⟩
      · simp only [hs, hd, if_false, false_iff, reduceCtorEq]
        rintro ⟨d, hd1, _, n, hn, hne⟩
        simp at hd1
        obtain ⟨c, hc, rfl⟩ := List.mem_map.1 hn
        exact hd ⟨c, hc, by rw [hd1]; exact hne⟩

theorem constraint_ctor_ok_iff {T : Type} (buffer : List (Option (Constraint T))) :
    (∃ self, constraint_t.ctor buffer = Except.ok self) ↔
      ∃ d, ((non_null buffer).map Constraint.Nx).head? = some d ∧ d ≠ SIZE_MAX ∧
        ∀ n ∈ (non_null buffer).map Constraint.Nx, n = d := by
  rw [constraint_ctor_eq, head_map_Nx]
  cases hh : (non_null buffer).head? with
  | none => simp
  | some c0 =>
    by_cases hs : c0.Nx = SIZE_MAX
    · simp [hs]
    · by_cases hd : ∃ c ∈ non_null buffer, c.Nx ≠ c0.Nx
      · simp only [hs, hd, if_false, if_true, reduceCtorEq, exists_false, false_iff]
        rintro ⟨d, hd1, _, hall⟩
        simp at hd1
        obtain ⟨c, hc, hne⟩ := hd
        exact hne (by rw [hd1]; exact hall _ (List.mem_map.2 ⟨c, hc, rfl⟩))
      · simp only [hs, hd, if_false]
        refine ⟨fun _ => ⟨c0.Nx, rfl, hs, fun n hn => ?_⟩, fun _ => ⟨_, rfl⟩⟩
        obtain ⟨c, hc, rfl⟩ := List.mem_map.1 hn
        by_contra hne
        exact hd ⟨c, hc, hne⟩

/-- Counterexample to C6 as stated: two terms of `2 ^ 63` rows each construct
successfully, the sum of their `Nf` is `2 ^ 64`, and `Nf()` returns 0 (as does the
cached `fdim_`), because both are accumulated in `size_t`. -/
theorem constraint_t_Nf_counterexample :
    ∃ self, constraint_t.ctor overflow_buffer = Except.ok self ∧
      ((non_null overflow_buffer).map Constraint.Nf).sum = 2 ^ 64 ∧
      self.Nf = 0 ∧ self.fdim_ = 0 ∧
      self.Nf ≠ ((non_null overflow_buffer).map Constraint.Nf).sum := by
  refine ⟨⟨overflow_buffer, 4, 0⟩, ?_, ?_, ?_, rfl, ?_⟩
  · rw [constraint_ctor_eq]
    simp [overflow_buffer, non_null, sample_constraint, SIZE_MAX]
  · simp [overflow_buffer, non_null, sample_constraint]
  · rw [constraint_Nf_eq]
    simp [overflow_buffer, non_null, sample_constraint]
  · rw [constraint_Nf_eq]
    simp [overflow_buffer, non_null, sample_constraint]

/-- C6 (amended). For every successfully constructed `constraint_t`, `Nf()` is
the sum of `Nf` over the non-null terms reduced modulo `2 ^ 64` (the sum itself
when it is below `2 ^ 64`); it equals the cached `fdim_`, also when it is
recomputed over any later content of the buffer whose non-null terms report the
same `Nf` values in the same order; and `fdim_` is the size that the resize step of
`constraint_t::Hes` gives to its output. -/
theorem constraint_t_Nf_stable {T : Type} (buffer : List (Option (Constraint T)))
    (self : constraint_t T) (hc : constraint_t.ctor buffer = Except.ok self) :
    self.Nf = ((non_null buffer).map Constraint.Nf).sum % 2 ^ 64 ∧
      (((non_null buffer).map Constraint.Nf).sum < 2 ^ 64 →
        self.Nf = ((non_null buffer).map Constraint.Nf).sum) ∧
      self.Nf = self.fdim_ ∧
      (∀ later : List (Option (Constraint T)),
        (non_null later).map Constraint.Nf = (non_null buffer).map Constraint.Nf →
          constraint_t.Nf ⟨later, self.xdim_, self.fdim_⟩ = self.fdim_) ∧
      ∀ hes, (self.Hes_resize hes).length = self.fdim_ := by
  rw [constraint_ctor_eq] at hc
  cases hh : (non_null buffer).head? with
  | none => simp [hh] at hc
  | some c0 =>
    simp only [hh] at hc
    split_ifs at hc
    cases hc
    refine ⟨constraint_Nf_eq _, fun hlt => ?_, constraint_Nf_eq _, fun later hl => ?_,
      fun hes => ?_⟩
    · rw [constraint_Nf_eq]
      exact Nat.mod_eq_of_lt hlt
    · rw [constraint_Nf_eq]
      simp only []
      rw [hl]
    · unfold constraint_t.Hes_resize
      split_ifs with hlen
      · simp only [resize, List.length_append, List.length_take, List.length_replicate]
        omega
      · exact not_not.1 hlen

/-- Witness for C6 (amended): terms of 2 and 3 rows give `Nf() = fdim_ = 5`. -/
theorem constraint_t_Nf_stable_witness :
    constraint_t.Nf ⟨stacked_buffer, 4, 5⟩ =
        ((non_null stacked_buffer).map Constraint.Nf).sum % 2 ^ 64 ∧
      (((non_null stacked_buffer).map Constraint.Nf).sum < 2 ^ 64 →
        constraint_t.Nf ⟨stacked_buffer, 4, 5⟩ =
          ((non_null stacked_buffer).map Constraint.Nf).sum) ∧
      constraint_t.Nf ⟨stacked_buffer, 4, 5⟩ = 5 ∧
      (∀ later : List (Option (Constraint Int)),
        (non_null later).map Constraint.Nf = (non_null stacked_buffer).map Constraint.Nf →
          constraint_t.Nf ⟨later, 4, 5⟩ = 5) ∧
      ∀ hes, (constraint_t.Hes_resize (⟨stacked_buffer, 4, 5⟩ : constraint_t Int) hes).length
        = 5 :=
  constraint_t_Nf_stable stacked_buffer ⟨stacked_buffer, 4, 5⟩
    (by
      rw [constraint_ctor_eq]
      simp [stacked_buffer, non_null, sample_constraint, SIZE_MAX])

/-- Counterexample to C8 as stated: the buffer has non-null terms that report
different `Nx` (`2 ^ 64 - 1` and 5), yet construction throws
`null_input_exception` and not `compatibility_exception`. -/
theorem constraint_t_ctor_counterexample :
    (∃ c ∈ non_null wrapped_constraint_buffer, ∃ g ∈ non_null wrapped_constraint_buffer,
        c.Nx ≠ g.Nx) ∧
      constraint_t.ctor wrapped_constraint_buffer =
        Except.error exception.null_input_exception ∧
      constraint_t.ctor wrapped_constraint_buffer ≠
        Except.error exception.compatibility_exception := by
  refine ⟨⟨sample_constraint SIZE_MAX 1 1, ?_, sample_constraint 5 1 1, ?_, ?_⟩, ?_, ?_⟩
  · simp [wrapped_constraint_buffer, non_null]
  · simp [wrapped_constraint_buffer, non_null]
  · simp [sample_constraint, SIZE_MAX]
  · rw [constraint_ctor_eq]
    simp [wrapped_constraint_buffer, non_null, sample_constraint]
  · rw [constraint_ctor_eq]
    simp [wrapped_constraint_buffer, non_null, sample_constraint]

/-- C8 (amended). For every constraint buffer with at least one non-null term
whose first non-null term does not report `Nx = 2 ^ 64 - 1`, construction throws
`compatibility_exception` exactly when two non-null terms report different `Nx`;
otherwise it succeeds and `Nx()` is the `Nx` of every non-null term; and the
terms' `Nf` play no part: every other buffer whose non-null terms report the
same `Nx` values, whatever their `Nf`, fails or succeeds the same way. -/
theorem constraint_t_ctor_outcomes {T : Type} (buffer : List (Option (Constraint T)))
    (c0 : Constraint T) (hhead : (non_null buffer).head? = some c0)
    (hfirst : c0.Nx ≠ SIZE_MAX) :
    (constraint_t.ctor buffer = Except.error exception.compatibility_exception ↔
        ∃ c ∈ non_null buffer, ∃ g ∈ non_null buffer, c.Nx ≠ g.Nx) ∧
      ((¬ ∃ c ∈ non_null buffer, ∃ g ∈ non_null buffer, c.Nx ≠ g.Nx) →
        ∃ self, constraint_t.ctor buffer = Except.ok self ∧ self.buffer_ = buffer ∧
          ∀ c ∈ non_null buffer, self.Nx = c.Nx) ∧
      ∀ other : List (Option (Constraint T)),
        (non_null other).map Constraint.Nx = (non_null buffer).map Constraint.Nx →
          ((constraint_t.ctor other = Except.error exception.compatibility_exception ↔
              constraint_t.ctor buffer = Except.error exception.compatibility_exception) ∧
            ((∃ self, constraint_t.ctor other = Except.ok self) ↔
              ∃ self, constraint_t.ctor buffer = Except.ok self)) := by
  suffices h : (constraint_t.ctor buffer = Except.error exception.compatibility_exception ↔
        ∃ c ∈ non_null buffer, ∃ g ∈ non_null buffer, c.Nx ≠ g.Nx) ∧
      ((¬ ∃ c ∈ non_null buffer, ∃ g ∈ non_null buffer, c.Nx ≠ g.Nx) →
        ∃ self, constraint_t.ctor buffer = Except.ok self ∧ self.buffer_ = buffer ∧
          ∀ c ∈ non_null buffer, self.Nx = c.Nx) by
    refine ⟨h.1, h.2, fun other ho => ?_⟩
    rw [constraint_ctor_compat_iff other, constraint_ctor_compat_iff buffer,
      constraint_ctor_ok_iff other, constraint_ctor_ok_iff buffer, ho]
    exact ⟨Iff.rfl, Iff.rfl⟩
  have hmem : c0 ∈ non_null buffer := List.mem_of_mem_head? hhead
  have hiff : (∃ c ∈ non_null buffer, c.Nx ≠ c0.Nx) ↔
      ∃ c ∈ non_null buffer, ∃ g ∈ non_null buffer, c.Nx ≠ g.Nx := by
    constructor
    · rintro ⟨c, hc, hne⟩
      exact ⟨c, hc, c0, hmem, hne⟩
    · rintro ⟨c, hc, g, hg, hne⟩
      by_cases h : c.Nx = c0.Nx
      · exact ⟨g, hg, fun hg0 => hne (h.trans hg0.symm)⟩
      · exact ⟨c, hc, h⟩
  rw [constraint_ctor_eq, hhead]
  simp only [hfirst, if_false]
  by_cases hd : ∃ c ∈ non_null buffer, c.Nx ≠ c0.Nx
  · have hd2 := hiff.1 hd
    simp only [hd, if_true, true_iff]
    exact ⟨hd2, fun h => absurd hd2 h⟩
  · have hd2 : ¬ ∃ c ∈ non_null buffer, ∃ g ∈ non_null buffer, c.Nx ≠ g.Nx :=
      fun h => hd (hiff.2 h)
    simp only [hd, if_false]
    refine ⟨⟨fun h => (by cases h), fun h => absurd h hd2⟩, fun _ => ?_⟩
    refine ⟨_, rfl, rfl, fun c hc => ?_⟩
    by_contra hne
    exact hd ⟨c, hc, fun h => hne (by simp [constraint_t.Nx, h])⟩

/-- Witness for C8 (amended): terms with `Nx = 4` and row counts 2 and 3. -/
theorem constraint_t_ctor_outcomes_witness :
    ∃ self, constraint_t.ctor stacked_buffer = Except.ok self ∧
      self.buffer_ = stacked_buffer ∧ ∀ c ∈ non_null stacked_buffer, self.Nx = c.Nx :=
  (constraint_t_ctor_outcomes stacked_buffer (sample_constraint 4 2 1)
    (by simp [stacked_buffer, non_null])
    (by simp [sample_constraint, SIZE_MAX])).2.1
    (by simp [stacked_buffer, non_null, sample_constraint])

theorem row_start_zero {T : Type} (terms : List (Constraint T)) : row_start terms 0 = 0 := by
  simp [row_start]

theorem row_start_succ {T : Type} (c : Constraint T) (terms : List (Constraint T)) (k : Nat) :
    row_start (c :: terms) (k + 1) = c.Nf + row_start terms k := by
  simp [row_start]

theorem foldl_Val_blocks {T : Type} [Zero T] [Add T] (x : Nat → T)
    (buffer : List (Option (Constraint T))) (v : Nat → T) (o : Nat)
    (hb : o + ((non_null buffer).map Constraint.Nf).sum < 2 ^ 64) :
    (∀ k c, (non_null buffer)[k]? = some c → ∀ i,
        o + row_start (non_null buffer) k ≤ i →
        i < o + row_start (non_null buffer) k + c.Nf →
        (buffer.foldl
          (fun (st : (Nat → T) × Nat) c => match c with
            | some c =>
              (fun i =>
                if st.2 ≤ i ∧ i < st.2 + c.Nf then
                  st.1 i + (c.Val x (fun _ => 0)).1 (i - st.2)
                else st.1 i,
               (st.2 + c.Nf) % 2 ^ 64)
            | none => st) (v, o)).1 i =
          v i + (c.Val x (fun _ => 0)).1 (i - (o + row_start (non_null buffer) k))) ∧
      (∀ i, (i < o ∨ o + ((non_null buffer).map Constraint.Nf).sum ≤ i) →
        (buffer.foldl
          (fun (st : (Nat → T) × Nat) c => match c with
            | some c =>
              (fun i =>
                if st.2 ≤ i ∧ i < st.2 + c.Nf then
                  st.1 i + (c.Val x (fun _ => 0)).1 (i - st.2)
                else st.1 i,
               (st.2 + c.Nf) % 2 ^ 64)
            | none => st) (v, o)).1 i = v i) := by
  induction buffer generalizing v o with
  | nil => simp [non_null]
  | cons e es ih =>
    cases e with
    | none =>
      have := ih v o (by simpa [non_null] using hb)
      simpa [non_null] using this
    | some c =>
      have hnn : non_null (some c :: es) = c :: non_null es := by simp [non_null]
      rw [hnn] at hb ⊢
      simp only [List.map_cons, List.sum_cons] at hb ⊢
      have hmod : (o + c.Nf) % 2 ^ 64 = o + c.Nf := Nat.mod_eq_of_lt (by omega)
      simp only [List.foldl_cons, hmod]
      obtain ⟨ih1, ih2⟩ := ih
        (fun i => if o ≤ i ∧ i < o + c.Nf then v i + (c.Val x (fun _ => 0)).1 (i - o) else v i)
        (o + c.Nf) (by omega)
      constructor
      · intro k c2 hk i hlo hhi
        cases k with
        | zero =>
          simp only [List.getElem?_cons_zero, Option.some.injEq] at hk
          subst hk
          rw [row_start_zero] at hlo hhi ⊢
          rw [ih2 i (Or.inl (by omega))]
          simp only [Nat.add_zero] at hlo hhi ⊢
          rw [if_pos ⟨hlo, hhi⟩]
        | succ k =>
          simp only [List.getElem?_cons_succ] at hk
          rw [row_start_succ] at hlo hhi ⊢
          rw [ih1 k c2 hk i (by omega) (by omega)]
          have hnot : ¬ (o ≤ i ∧ i < o + c.Nf) := by omega
          rw [if_neg hnot, Nat.add_assoc]
      · intro i hi
        rw [ih2 i (by omega)]
        have hnot : ¬ (o ≤ i ∧ i < o + c.Nf) := by omega
        rw [if_neg hnot]

theorem foldl_Jac_offsets {T : Type} (x : Nat → T) (off : Nat)
    (buffer : List (Option (Constraint T))) (pre : List (Constraint T))
    (jac : List (Triplet T)) (all : List (Constraint T))
    (hall : all = pre ++ non_null buffer)
    (hb : off + (all.map Constraint.Nf).sum < 2 ^ 64) :
    buffer.foldl
        (fun (st : List (Triplet T) × Nat) c => match c with
          | some c => ((c.Jac x st.2 st.1).1, (st.2 + c.Nf) % 2 ^ 64)
          | none => st) (jac, off + (pre.map Constraint.Nf).sum) =
      (((non_null buffer).enumFrom pre.length).foldl
          (fun acc p => (p.2.Jac x (off + row_start all p.1) acc).1) jac,
        off + (all.map Constraint.Nf).sum) := by
  induction buffer generalizing pre jac with
  | nil =>
    simp only [non_null, List.filterMap_nil, List.append_nil] at hall
    simp [non_null, hall]
  | cons e es ih =>
    cases e with
    | none =>
      have := ih pre jac (by simpa [non_null] using hall)
      simpa [non_null] using this
    | some c =>
      have hnn : non_null (some c :: es) = c :: non_null es := by simp [non_null]
      rw [hnn] at hall ⊢
      have hall2 : all = (pre ++ [c]) ++ non_null es := by simp [hall]
      have hsum : (all.map Constraint.Nf).sum =
          (pre.map Constraint.Nf).sum + c.Nf + ((non_null es).map Constraint.Nf).sum := by
        simp [hall, Nat.add_assoc]
      have hmod : (off + (pre.map Constraint.Nf).sum + c.Nf) % 2 ^ 64 =
          off + ((pre ++ [c]).map Constraint.Nf).sum := by
        rw [Nat.mod_eq_of_lt (by omega)]
        simp [Nat.add_assoc]
      have hrs : row_start all pre.length = (pre.map Constraint.Nf).sum := by
        simp [row_start, hall]
      simp only [List.foldl_cons, hmod, List.enumFrom_cons, hrs]
      have := ih (pre ++ [c]) (c.Jac x (off + (pre.map Constraint.Nf).sum) jac).1 hall2
      simpa using this

theorem block_cover {T : Type} (terms : List (Constraint T)) (i : Nat)
    (hi : i < (terms.map Constraint.Nf).sum) :
    ∃ k c, terms[k]? = some c ∧ row_start terms k ≤ i ∧ i < row_start terms k + c.Nf := by
  induction terms generalizing i with
  | nil => simp at hi
  | cons c cs ih =>
    simp only [List.map_cons, List.sum_cons] at hi
    by_cases h : i < c.Nf
    · exact ⟨0, c, by simp, by simp [row_start_zero], by simpa [row_start_zero] using h⟩
    · obtain ⟨k, c2, hk, hlo, hhi⟩ := ih (i - c.Nf) (by omega)
      refine ⟨k + 1, c2, by simpa using hk, ?_, ?_⟩
      · rw [row_start_succ]
        omega
      · rw [row_start_succ]
        omega

theorem block_inside {T : Type} (terms : List (Constraint T)) (k : Nat) (c : Constraint T)
    (hk : terms[k]? = some c) :
    row_start terms k + c.Nf ≤ (terms.map Constraint.Nf).sum := by
  induction terms generalizing k with
  | nil => simp at hk
  | cons c1 cs ih =>
    cases k with
    | zero =>
      simp only [List.getElem?_cons_zero, Option.some.injEq] at hk
      subst hk
      simp [row_start_zero]
    | succ k =>
      simp only [List.getElem?_cons_succ] at hk
      have := ih k hk
      rw [row_start_succ]
      simp only [List.map_cons, List.sum_cons]
      omega

theorem block_unique {T : Type} (terms : List (Constraint T)) (i k1 k2 : Nat)
    (c1 c2 : Constraint T) (h1 : terms[k1]? = some c1) (h2 : terms[k2]? = some c2)
    (hlo1 : row_start terms k1 ≤ i) (hhi1 : i < row_start terms k1 + c1.Nf)
    (hlo2 : row_start terms k2 ≤ i) (hhi2 : i < row_start terms k2 + c2.Nf) : k1 = k2 := by
  induction terms generalizing i k1 k2 with
  | nil => simp at h1
  | cons c cs ih =>
    cases k1 with
    | zero =>
      cases k2 with
      | zero => rfl
      | succ k2 =>
        simp only [List.getElem?_cons_zero, Option.some.injEq] at h1
        subst h1
        rw [row_start_zero] at hhi1
        rw [row_start_succ] at hlo2
        omega
    | succ k1 =>
      cases k2 with
      | zero =>
        simp only [List.getElem?_cons_zero, Option.some.injEq] at h2
        subst h2
        rw [row_start_zero] at hhi2
        rw [row_start_succ] at hlo1
        omega
      | succ k2 =>
        simp only [List.getElem?_cons_succ] at h1 h2
        rw [row_start_succ] at hlo1 hhi1 hlo2 hhi2
        have := ih (i - c.Nf) k1 k2 h1 h2 (by omega) (by omega) (by omega) (by omega)
        omega

theorem constraint_ctor_ok_buffer {T : Type} (buffer : List (Option (Constraint T)))
    (self : constraint_t T) (hc : constraint_t.ctor buffer = Except.ok self) :
    self.buffer_ = buffer := by
  rw [constraint_ctor_eq] at hc
  cases hh : (non_null buffer).head? with
  | none => simp [hh] at hc
  | some c0 =>
    simp only [hh] at hc
    split_ifs at hc
    cases hc
    rfl

/-- Counterexample to C7 as stated. (i) With `off = 2 ^ 64 - 1` and two terms of
one row each, `Jac` hands the second term the row offset 0, not
`off + start_1 = 2 ^ 64`. (ii) With two terms of `2 ^ 63` rows each, `Nf()` is 0
although row 0 lies in the block of the first term, so the blocks do not cover
exactly the rows below `Nf()`. Both composites are what the constructor builds. -/
theorem constraint_t_row_blocks_counterexample :
    (constraint_t.ctor unit_rows_buffer = Except.ok ⟨unit_rows_buffer, 4, 2⟩ ∧
      ((constraint_t.Jac ⟨unit_rows_buffer, 4, 2⟩ (fun _ => 1) SIZE_MAX []).1.map
        Triplet.row = [SIZE_MAX, 0]) ∧
      SIZE_MAX + row_start (non_null unit_rows_buffer) 1 = 2 ^ 64) ∧
    (constraint_t.ctor overflow_buffer = Except.ok ⟨overflow_buffer, 4, 0⟩ ∧
      constraint_t.Nf ⟨overflow_buffer, 4, 0⟩ = 0 ∧
      (non_null overflow_buffer)[0]? = some (sample_constraint 4 (2 ^ 63) 1) ∧
      row_start (non_null overflow_buffer) 0 ≤ 0 ∧
      0 < row_start (non_null overflow_buffer) 0 + (sample_constraint 4 (2 ^ 63) 1).Nf) := by
  refine ⟨⟨?_, ?_, ?_⟩, ?_, ?_, ?_, ?_, ?_⟩
  · rw [constraint_ctor_eq]
    simp [unit_rows_buffer, non_null, sample_constraint, SIZE_MAX]
  · simp [constraint_t.Jac, unit_rows_buffer, sample_constraint, SIZE_MAX, List.range_succ]
  · simp [row_start, unit_rows_buffer, non_null, sample_constraint, SIZE_MAX]
  · rw [constraint_ctor_eq]
    simp [overflow_buffer, non_null, sample_constraint, SIZE_MAX]
  · rw [constraint_Nf_eq]
    simp [overflow_buffer, non_null, sample_constraint]
  · simp [overflow_buffer, non_null]
  · simp [row_start]
  · simp [row_start, sample_constraint]

/-- C7 (amended). For every successfully constructed `constraint_t` whose terms'
`Nf` sum to less than `2 ^ 64`, the `k`-th non-null term owns the rows from
`start_k` (the sum of `Nf` of the non-null terms before it) up to
`start_k + Nf_k`: `Val` adds that term's value vector, computed from a zeroed
temporary, into exactly those rows and leaves every row from `Nf()` on
untouched; `Jac` hands that term the row offset `off + start_k` whenever `off`
plus the sum of the `Nf` is below `2 ^ 64`; every row below `Nf()` lies in some
block, every block lies below `Nf()`, and no row lies in two blocks. -/
theorem constraint_t_row_blocks {T : Type} [Zero T] [Add T]
    (buffer : List (Option (Constraint T))) (self : constraint_t T) (x : Nat → T)
    (hc : constraint_t.ctor buffer = Except.ok self)
    (hsum : ((non_null buffer).map Constraint.Nf).sum < 2 ^ 64) :
    (∀ val k c i, (non_null buffer)[k]? = some c →
        row_start (non_null buffer) k ≤ i → i < row_start (non_null buffer) k + c.Nf →
        (self.Val x val).1 i =
          val i + (c.Val x (fun _ => 0)).1 (i - row_start (non_null buffer) k)) ∧
      (∀ val i, self.Nf ≤ i → (self.Val x val).1 i = val i) ∧
      (∀ off jac, off + ((non_null buffer).map Constraint.Nf).sum < 2 ^ 64 →
        self.Jac x off jac =
          (((non_null buffer).enum).foldl
            (fun acc p => (p.2.Jac x (off + row_start (non_null buffer) p.1) acc).1) jac,
           0)) ∧
      (∀ i, i < self.Nf → ∃ k c, (non_null buffer)[k]? = some c ∧
        row_start (non_null buffer) k ≤ i ∧ i < row_start (non_null buffer) k + c.Nf) ∧
      (∀ k c i, (non_null buffer)[k]? = some c →
        i < row_start (non_null buffer) k + c.Nf → i < self.Nf) ∧
      (∀ i k1 c1 k2 c2, (non_null buffer)[k1]? = some c1 → (non_null buffer)[k2]? = some c2 →
        row_start (non_null buffer) k1 ≤ i → i < row_start (non_null buffer) k1 + c1.Nf →
        row_start (non_null buffer) k2 ≤ i → i < row_start (non_null buffer) k2 + c2.Nf →
        k1 = k2) := by
  have hb := constraint_ctor_ok_buffer buffer self hc
  have hNf : self.Nf = ((non_null buffer).map Constraint.Nf).sum := by
    rw [constraint_Nf_eq, hb]
    exact Nat.mod_eq_of_lt hsum
  refine ⟨fun val k c i hk hlo hhi => ?_, fun val i hi => ?_, fun off jac hoff => ?_,
    fun i hi => ?_, fun k c i hk hhi => ?_, fun i k1 c1 k2 c2 h1 h2 a1 b1 a2 b2 => ?_⟩
  · have := (foldl_Val_blocks x buffer val 0 (by omega)).1 k c hk i (by omega) (by omega)
    simp only [constraint_t.Val, hb]
    rw [this, Nat.zero_add]
  · have := (foldl_Val_blocks x buffer val 0 (by omega)).2 i (Or.inr (by omega))
    simp only [constraint_t.Val, hb]
    rw [this]
  · have := foldl_Jac_offsets x off buffer [] jac (non_null buffer) (by simp) hoff
    simp only [List.map_nil, List.sum_nil, Nat.add_zero, List.length_nil] at this
    simp only [constraint_t.Jac, hb, this, List.enum]
  · rw [hNf] at hi
    exact block_cover _ i hi
  · rw [hNf]
    have := block_inside _ k c hk
    omega
  · exact block_unique _ i k1 k2 c1 c2 h1 h2 a1 b1 a2 b2

/-- Witness for C7 (amended): terms of 2 and 3 rows around a null entry. -/
theorem constraint_t_row_blocks_witness :
    (∀ val k c i, (non_null stacked_buffer)[k]? = some c →
        row_start (non_null stacked_buffer) k ≤ i →
        i < row_start (non_null stacked_buffer) k + c.Nf →
        (sample_stacked.Val (fun _ => 1) val).1 i =
          val i + (c.Val (fun _ => 1) (fun _ => 0)).1
            (i - row_start (non_null stacked_buffer) k)) ∧
      (∀ val i, sample_stacked.Nf ≤ i → (sample_stacked.Val (fun _ => 1) val).1 i = val i) ∧
      (∀ off jac, off + ((non_null stacked_buffer).map Constraint.Nf).sum < 2 ^ 64 →
        sample_stacked.Jac (fun _ => 1) off jac =
          (((non_null stacked_buffer).enum).foldl
            (fun acc p =>
              (p.2.Jac (fun _ => 1) (off + row_start (non_null stacked_buffer) p.1) acc).1)
            jac, 0)) ∧
      (∀ i, i < sample_stacked.Nf → ∃ k c, (non_null stacked_buffer)[k]? = some c ∧
        row_start (non_null stacked_buffer) k ≤ i ∧
        i < row_start (non_null stacked_buffer) k + c.Nf) ∧
      (∀ k c i, (non_null stacked_buffer)[k]? = some c →
        i < row_start (non_null stacked_buffer) k + c.Nf → i < sample_stacked.Nf) ∧
      (∀ i k1 c1 k2 c2, (non_null stacked_buffer)[k1]? = some c1 →
        (non_null stacked_buffer)[k2]? = some c2 →
        row_start (non_null stacked_buffer) k1 ≤ i →
        i < row_start (non_null stacked_buffer) k1 + c1.Nf →
        row_start (non_null stacked_buffer) k2 ≤ i →
        i < row_start (non_null stacked_buffer) k2 + c2.Nf →
        k1 = k2) :=
  constraint_t_row_blocks stacked_buffer sample_stacked (fun _ => 1)
    (by
      rw [constraint_ctor_eq]
      simp [stacked_buffer, non_null, sample_constraint, SIZE_MAX, sample_stacked])
    (by simp [stacked_buffer, non_null, sample_constraint])

theorem g2l_scan_length (F : Finset Nat) (idx : List Nat) (ptr : Nat) :
    (g2l_scan F idx ptr).length = idx.length := by
  induction idx generalizing ptr with
  | nil => rfl
  | cons i is ih =>
    unfold g2l_scan
    split_ifs <;> simp [ih]

theorem free_count_range (N : Nat) (F : Finset Nat) (hF : ∀ i ∈ F, i < N) :
    ((List.range N).filter (fun i => decide (i ∉ F))).length = N - F.card := by
  have hnd : ((List.range N).filter (fun i => decide (i ∉ F))).Nodup :=
    (List.nodup_range N).filter _
  rw [← List.toFinset_card_of_nodup hnd]
  have hset : ((List.range N).filter (fun i => decide (i ∉ F))).toFinset =
      Finset.range N \ F := by
    ext a
    simp [List.mem_filter]
  rw [hset, Finset.card_sdiff (fun i hi => Finset.mem_range.2 (hF i hi)), Finset.card_range]

theorem rm_rc_scan {T : Type} [Zero T] (F : Finset Nat) (idx : List Nat) (ptr : Nat)
    (v r : List T) (hv : v.length = idx.length)
    (hr : ptr + (idx.filter (fun i => decide (i ∉ F))).length ≤ r.length)
    (hmax : r.length ≤ SIZE_MAX) :
    rm_vector_row (rc_vector_row r (g2l_scan F idx ptr) v) (g2l_scan F idx ptr) =
      (r.drop ptr).take (idx.filter (fun i => decide (i ∉ F))).length := by
  induction idx generalizing ptr v with
  | nil => simp [g2l_scan, rm_vector_row, rc_vector_row]
  | cons i is ih =>
    cases v with
    | nil => simp at hv
    | cons v0 vs =>
      have hvs : vs.length = is.length := by simpa using hv
      by_cases hi : i ∈ F
      · have hfil : (i :: is).filter (fun i => decide (i ∉ F)) =
            is.filter (fun i => decide (i ∉ F)) := by simp [List.filter_cons, hi]
        rw [hfil] at hr ⊢
        have := ih ptr vs hvs hr
        simpa [g2l_scan, hi, rm_vector_row, rc_vector_row] using this
      · have hfil : (i :: is).filter (fun i => decide (i ∉ F)) =
            i :: is.filter (fun i => decide (i ∉ F)) := by simp [List.filter_cons, hi]
        rw [hfil] at hr ⊢
        simp only [List.length_cons] at hr ⊢
        have hptr : ptr < r.length := by omega
        have hne : ptr ≠ SIZE_MAX := by omega
        have := ih (ptr + 1) vs hvs (by omega)
        simp only [rm_vector_row, rc_vector_row] at this
        simp only [g2l_scan, hi, if_false, rm_vector_row, rc_vector_row, List.zipWith_cons_cons,
          List.zip_cons_cons, List.filterMap_cons, hne, this]
        rw [List.drop_eq_getElem_cons hptr, List.take_succ_cons, List.getD_eq_getElem _ _ hptr]

theorem rc_scan_get {T : Type} [Zero T] (F : Finset Nat) (idx : List Nat) (ptr : Nat)
    (v r : List T) (hv : v.length = idx.length) (j i : Nat) (hj : idx[j]? = some i) :
    (i ∈ F → (rc_vector_row r (g2l_scan F idx ptr) v)[j]? = v[j]?) ∧
      (i ∉ F → ptr + (idx.filter (fun i => decide (i ∉ F))).length ≤ SIZE_MAX →
        ∃ k, (g2l_scan F idx ptr)[j]? = some k ∧ ptr ≤ k ∧
          k < ptr + (idx.filter (fun i => decide (i ∉ F))).length ∧
          (rc_vector_row r (g2l_scan F idx ptr) v)[j]? = some (r.getD k 0)) := by
  induction idx generalizing ptr v j with
  | nil => simp at hj
  | cons i0 is ih =>
    cases v with
    | nil => simp at hv
    | cons v0 vs =>
      have hvs : vs.length = is.length := by simpa using hv
      cases j with
      | zero =>
        simp only [List.getElem?_cons_zero, Option.some.injEq] at hj
        subst hj
        constructor
        · intro hi
          simp [g2l_scan, hi, rc_vector_row]
        · intro hi hb
          have hfil : (i0 :: is).filter (fun i => decide (i ∉ F)) =
              i0 :: is.filter (fun i => decide (i ∉ F)) := by simp [List.filter_cons, hi]
          rw [hfil] at hb ⊢
          simp only [List.length_cons] at hb ⊢
          have hne : ptr ≠ SIZE_MAX := by omega
          refine ⟨ptr, by simp [g2l_scan, hi], le_refl _, by omega, ?_⟩
          simp [g2l_scan, hi, rc_vector_row, hne]
      | succ j =>
        simp only [List.getElem?_cons_succ] at hj
        by_cases hi0 : i0 ∈ F
        · have hfil : (i0 :: is).filter (fun i => decide (i ∉ F)) =
              is.filter (fun i => decide (i ∉ F)) := by simp [List.filter_cons, hi0]
          rw [hfil]
          have := ih ptr vs hvs j hj
          simpa [g2l_scan, hi0, rc_vector_row] using this
        · have hfil : (i0 :: is).filter (fun i => decide (i ∉ F)) =
              i0 :: is.filter (fun i => decide (i ∉ F)) := by simp [List.filter_cons, hi0]
          rw [hfil]
          simp only [List.length_cons]
          obtain ⟨h1, h2⟩ := ih (ptr + 1) vs hvs j hj
          constructor
          · intro hi
            simpa [g2l_scan, hi0, rc_vector_row] using h1 hi
          · intro hi hb
            obtain ⟨k, hk, hlo, hhi, hget⟩ := h2 hi (by omega)
            refine ⟨k, by simpa [g2l_scan, hi0] using hk, by omega, by omega, ?_⟩
            simpa [g2l_scan, hi0, rc_vector_row] using hget

/-- C9. DOF reduction round trip. For every size `N` (a `size_t`), every
exclusion set `F` of indices below `N`, every reduced solution `r` of length
`N - |F|` and every full-size vector `v`: expanding `r` through the
global-to-local map built from `(N, F)` leaves each excluded index of `v` at the
value it held, sets each free index `i` to `r[g2l[i]]`, and reducing the result
again returns `r` exactly; hence `solve_for_xyz` with a non-empty `fixDOF_`
leaves the coordinate of every fixed vertex exactly unchanged. -/
theorem dof_reduction_round_trip {T : Type} [AddMonoid T] (N : Nat) (F : Finset Nat)
    (r v : List T) (hN : N < 2 ^ 64) (hF : ∀ i ∈ F, i < N)
    (hr : r.length = N - F.card) (hv : v.length = N) :
    (rc_vector_row r (build_global_local_mapping N F) v).length = N ∧
      (∀ i ∈ F, (rc_vector_row r (build_global_local_mapping N F) v)[i]? = v[i]?) ∧
      (∀ i, i < N → i ∉ F → ∃ k, (build_global_local_mapping N F)[i]? = some k ∧
        k < r.length ∧ (rc_vector_row r (build_global_local_mapping N F) v)[i]? = r[k]?) ∧
      rm_vector_row (rc_vector_row r (build_global_local_mapping N F) v)
        (build_global_local_mapping N F) = r ∧
      (∀ (rhs_of solve : List T → List T) (X : List T), X.length = N → F ≠ ∅ →
        ∀ i ∈ F, (solve_for_xyz rhs_of solve F (build_global_local_mapping N F) X)[i]? =
          X[i]?) := by
  have hfree := free_count_range N F hF
  have hmax : N ≤ SIZE_MAX := by
    unfold SIZE_MAX
    omega
  have hcard : N - F.card ≤ N := Nat.sub_le _ _
  have hfix : ∀ (w u : List T), u.length = N → ∀ i ∈ F,
      (rc_vector_row w (build_global_local_mapping N F) u)[i]? = u[i]? := by
    intro w u hu i hi
    exact (rc_scan_get F (List.range N) 0 u w (by simpa using hu) i i
      (List.getElem?_range (hF i hi))).1 hi
  refine ⟨?_, hfix r v hv, ?_, ?_, ?_⟩
  · simp [rc_vector_row, build_global_local_mapping, g2l_scan_length, hv]
  · intro i hi hiF
    obtain ⟨k, hk, _, hhi, hget⟩ :=
      (rc_scan_get F (List.range N) 0 v r (by simpa using hv) i i
        (List.getElem?_range hi)).2 hiF (by rw [hfree]; omega)
    rw [hfree] at hhi
    have hkr : k < r.length := by omega
    refine ⟨k, hk, hkr, ?_⟩
    rw [show rc_vector_row r (build_global_local_mapping N F) v =
      rc_vector_row r (g2l_scan F (List.range N) 0) v from rfl, hget,
      List.getD_eq_getElem _ _ hkr, List.getElem?_eq_getElem hkr]
  · have := rm_rc_scan F (List.range N) 0 v r (by simpa using hv)
      (by rw [hfree]; omega) (by omega)
    rw [hfree] at this
    rw [show build_global_local_mapping N F = g2l_scan F (List.range N) 0 from rfl, this,
      List.drop_zero, ← hr, List.take_length]
  · intro rhs_of solve X hX hne i hi
    have hiN : i < N := hF i hi
    have hD := hfix (solve (rm_vector_row (rhs_of X) (build_global_local_mapping N F)))
      (List.replicate X.length 0) (by simp [hX]) i hi
    have hrep : (List.replicate X.length (0 : T))[i]? = some 0 := by
      rw [List.getElem?_replicate]
      simp [hX, hiN]
    have hXi := @List.getElem?_eq_getElem T X i (by omega)
    simp only [solve_for_xyz, if_pos hne, List.getElem?_zipWith, hD, hrep, hXi]
    simp

/-- Witness for C9: five variables with indices 1 and 3 excluded. -/
theorem dof_reduction_round_trip_witness :
    (rc_vector_row [10, 20, 30] (build_global_local_mapping 5 sample_fixed)
        ([1, 2, 3, 4, 5] : List Int)).length = 5 ∧
      (∀ i ∈ sample_fixed,
        (rc_vector_row [10, 20, 30] (build_global_local_mapping 5 sample_fixed)
          ([1, 2, 3, 4, 5] : List Int))[i]? = ([1, 2, 3, 4, 5] : List Int)[i]?) ∧
      (∀ i, i < 5 → i ∉ sample_fixed →
        ∃ k, (build_global_local_mapping 5 sample_fixed)[i]? = some k ∧
          k < ([10, 20, 30] : List Int).length ∧
          (rc_vector_row [10, 20, 30] (build_global_local_mapping 5 sample_fixed)
            ([1, 2, 3, 4, 5] : List Int))[i]? = ([10, 20, 30] : List Int)[k]?) ∧
      rm_vector_row
        (rc_vector_row [10, 20, 30] (build_global_local_mapping 5 sample_fixed)
          ([1, 2, 3, 4, 5] : List Int))
        (build_global_local_mapping 5 sample_fixed) = [10, 20, 30] ∧
      (∀ (rhs_of solve : List Int → List Int) (X : List Int), X.length = 5 →
        sample_fixed ≠ ∅ → ∀ i ∈ sample_fixed,
          (solve_for_xyz rhs_of solve sample_fixed
            (build_global_local_mapping 5 sample_fixed) X)[i]? = X[i]?) :=
  dof_reduction_round_trip 5 sample_fixed [10, 20, 30] [1, 2, 3, 4, 5]
    (by norm_num) (by decide) (by decide) (by decide)

theorem normalize_sum {K : Type} [Field K] (w : List K) (h : w.sum ≠ 0) :
    (normalize w).sum = 1 := by
  unfold normalize
  simp only [div_eq_mul_inv]
  rw [List.sum_map_mul_right]
  have hm : List.map (fun a : K => a) w = w := by simp
  rw [hm]
  exact mul_inv_cancel₀ h

theorem normalize_nonneg {K : Type} [LinearOrderedField K] (w : List K)
    (hw : ∀ a ∈ w, 0 ≤ a) : ∀ b ∈ normalize w, 0 ≤ b := by
  intro b hb
  unfold normalize at hb
  obtain ⟨a, ha, rfl⟩ := List.mem_map.1 hb
  exact div_nonneg (hw a ha) (List.sum_nonneg hw)

theorem tet_volume_nonneg {K : Type} [LinearOrderedField K] (nods : Nat → Vec3 K)
    (t : Nat × Nat × Nat × Nat) : 0 ≤ tet_volume nods t := by
  unfold tet_volume
  exact div_nonneg (abs_nonneg _) (by norm_num)

theorem raw_stiff_nonneg {K : Type} [LinearOrderedField K] (sqrt : K → K)
    (tets : List (Nat × Nat × Nat × Nat)) (nods : Nat → Vec3 K) (adjt : List (Nat × Nat)) :
    ∀ a ∈ SH_smooth_energy_tet.raw_stiff sqrt tets nods adjt, 0 ≤ a := by
  intro a ha
  unfold SH_smooth_energy_tet.raw_stiff at ha
  obtain ⟨lr, _, rfl⟩ := List.mem_map.1 ha
  exact div_nonneg (add_nonneg (tet_volume_nonneg _ _) (tet_volume_nonneg _ _))
    (mul_self_nonneg _)

theorem sample_face_area_nonneg (a b c : Vec3 ℚ) : 0 ≤ sample_face_area a b c := by
  unfold sample_face_area sample_sqrt
  split_ifs <;> norm_num

/-- C10. Per-term weight normalisation, in exact arithmetic over an ordered
field. For every tet mesh: when the raw weights `(vol_l + vol_r) / dist^2` of
`SH_smooth_energy_tet` are defined (no zero barycentre distance) and have a
non-zero total, the stored `stiff_` sums to 1 and each entry is non-negative;
when the tet volumes `|det Ds| / 6` have a non-zero total, the stored `volume_`
of `frame_orth_energy` sums to 1 and each entry is non-negative; and when the
(non-negative) face areas have a non-zero total, the stored `stiff_` of
`SH_align_energy_tet` and of `boundary_fix_energy` sum to 1 with non-negative
entries. -/
theorem weights_normalized {K : Type} [LinearOrderedField K] (sqrt : K → K)
    (cal_face_area : Vec3 K → Vec3 K → Vec3 K → K)
    (tets : List (Nat × Nat × Nat × Nat)) (nods : Nat → Vec3 K)
    (face2tet_ : List (Nat × Nat)) (is_outside_face : Nat × Nat → Bool)
    (surf : List (Nat × Nat × Nat))
    (harea : ∀ a b c, 0 ≤ cal_face_area a b c) :
    ((SH_smooth_energy_tet.raw_stiff sqrt tets nods
          (SH_smooth_energy_tet.adjt_ face2tet_ is_outside_face)).sum ≠ 0 →
        (∀ lr ∈ SH_smooth_energy_tet.adjt_ face2tet_ is_outside_face,
          SH_smooth_energy_tet.dist sqrt tets nods lr ≠ 0) →
        (SH_smooth_energy_tet.stiff_ sqrt tets nods
          (SH_smooth_energy_tet.adjt_ face2tet_ is_outside_face)).sum = 1 ∧
        ∀ w ∈ SH_smooth_energy_tet.stiff_ sqrt tets nods
          (SH_smooth_energy_tet.adjt_ face2tet_ is_outside_face), 0 ≤ w) ∧
      ((tets.map (tet_volume nods)).sum ≠ 0 →
        (frame_orth_energy.volume_ tets nods).sum = 1 ∧
        ∀ w ∈ frame_orth_energy.volume_ tets nods, 0 ≤ w) ∧
      ((surf.map (fun f => cal_face_area (nods f.1) (nods f.2.1) (nods f.2.2))).sum ≠ 0 →
        ((SH_align_energy_tet.stiff_ cal_face_area nods surf).sum = 1 ∧
          ∀ w ∈ SH_align_energy_tet.stiff_ cal_face_area nods surf, 0 ≤ w) ∧
        ((boundary_fix_energy.stiff_ cal_face_area nods surf).sum = 1 ∧
          ∀ w ∈ boundary_fix_energy.stiff_ cal_face_area nods surf, 0 ≤ w)) := by
  have hsurf : ∀ a ∈ surf.map (fun f => cal_face_area (nods f.1) (nods f.2.1) (nods f.2.2)),
      0 ≤ a := by
    intro a ha
    obtain ⟨f, _, rfl⟩ := List.mem_map.1 ha
    exact harea _ _ _
  have hvol : ∀ a ∈ tets.map (tet_volume nods), 0 ≤ a := by
    intro a ha
    obtain ⟨t, _, rfl⟩ := List.mem_map.1 ha
    exact tet_volume_nonneg _ _
  refine ⟨fun h _ => ⟨normalize_sum _ h, normalize_nonneg _ (raw_stiff_nonneg _ _ _ _)⟩,
    fun h => ⟨normalize_sum _ h, normalize_nonneg _ hvol⟩,
    fun h => ⟨⟨normalize_sum _ h, normalize_nonneg _ hsurf⟩,
      ⟨normalize_sum _ h, normalize_nonneg _ hsurf⟩⟩⟩

theorem sample_adjt :
    SH_smooth_energy_tet.adjt_ sample_face2tet sample_is_outside = [(0, 1)] := by
  simp [SH_smooth_energy_tet.adjt_, sample_face2tet, sample_is_outside, SIZE_MAX]

theorem sample_dist :
    SH_smooth_energy_tet.dist sample_sqrt sample_tets sample_nods (0, 1) = 2 := by
  norm_num [SH_smooth_energy_tet.dist, norm3, barycenter, Vec3.sub, sample_tets, sample_nods,
    sample_sqrt]

theorem sample_raw_stiff :
    SH_smooth_energy_tet.raw_stiff sample_sqrt sample_tets sample_nods [(0, 1)] = [4] := by
  simp only [SH_smooth_energy_tet.raw_stiff, List.map_cons, List.map_nil, sample_dist]
  norm_num [tet_volume, det3, Vec3.sub, sample_tets, sample_nods]

theorem sample_volumes : sample_tets.map (tet_volume sample_nods) = [8, 8] := by
  norm_num [tet_volume, det3, Vec3.sub, sample_tets, sample_nods]

theorem sample_areas :
    sample_surf.map (fun f =>
      sample_face_area (sample_nods f.1) (sample_nods f.2.1) (sample_nods f.2.2)) =
      [10, 6, 10, 10, 6, 10] := by
  norm_num [sample_surf, sample_face_area, Vec3.sub, sample_nods, sample_sqrt]

/-- Witness for C10: on the sample mesh of two tetrahedra the raw weights are
`[4]`, `[8, 8]` and `[10, 6, 10, 10, 6, 10]`, so every premise holds. -/
theorem weights_normalized_witness :
    ((SH_smooth_energy_tet.stiff_ sample_sqrt sample_tets sample_nods
          (SH_smooth_energy_tet.adjt_ sample_face2tet sample_is_outside)).sum = 1 ∧
        ∀ w ∈ SH_smooth_energy_tet.stiff_ sample_sqrt sample_tets sample_nods
          (SH_smooth_energy_tet.adjt_ sample_face2tet sample_is_outside), 0 ≤ w) ∧
      ((frame_orth_energy.volume_ sample_tets sample_nods).sum = 1 ∧
        ∀ w ∈ frame_orth_energy.volume_ sample_tets sample_nods, 0 ≤ w) ∧
      (((SH_align_energy_tet.stiff_ sample_face_area sample_nods sample_surf).sum = 1 ∧
          ∀ w ∈ SH_align_energy_tet.stiff_ sample_face_area sample_nods sample_surf, 0 ≤ w) ∧
        ((boundary_fix_energy.stiff_ sample_face_area sample_nods sample_surf).sum = 1 ∧
          ∀ w ∈ boundary_fix_energy.stiff_ sample_face_area sample_nods sample_surf,
            0 ≤ w)) :=
  ⟨(weights_normalized sample_sqrt sample_face_area sample_tets sample_nods sample_face2tet
      sample_is_outside sample_surf sample_face_area_nonneg).1
      (by rw [sample_adjt, sample_raw_stiff]; norm_num)
      (by
        rw [sample_adjt]
        intro lr hlr
        simp only [List.mem_singleton] at hlr
        rw [hlr, sample_dist]
        norm_num),
    (weights_normalized sample_sqrt sample_face_area sample_tets sample_nods sample_face2tet
      sample_is_outside sample_surf sample_face_area_nonneg).2.1
      (by rw [sample_volumes]; norm_num),
    (weights_normalized sample_sqrt sample_face_area sample_tets sample_nods sample_face2tet
      sample_is_outside sample_surf sample_face_area_nonneg).2.2
      (by rw [sample_areas]; norm_num)⟩

/-- C14. Unimplemented Hessian signal: for every input and every triplet list,
the virtual `Hes` of `SH_smooth_energy_tet`, `SH_align_energy_tet`,
`poly_smooth_energy_tet`, `l1_smooth_energy_tet` (the inherited one),
`frame_orth_energy` and `boundary_fix_energy` returns a non-zero value and
leaves the triplet list unchanged, and so does the default `Constraint::Hes`
with its output. -/
theorem Hes_not_implemented {K : Type} (x : Nat → K) (hes : List (Triplet K)) (off : Nat)
    (ches : List (List (Triplet K))) :
    ((SH_smooth_energy_tet.Hes x hes).1 = hes ∧ (SH_smooth_energy_tet.Hes x hes).2 ≠ 0) ∧
      ((SH_align_energy_tet.Hes x hes).1 = hes ∧ (SH_align_energy_tet.Hes x hes).2 ≠ 0) ∧
      ((poly_smooth_energy_tet.Hes x hes).1 = hes ∧
        (poly_smooth_energy_tet.Hes x hes).2 ≠ 0) ∧
      ((l1_smooth_energy_tet.Hes x hes).1 = hes ∧ (l1_smooth_energy_tet.Hes x hes).2 ≠ 0) ∧
      ((frame_orth_energy.Hes x hes).1 = hes ∧ (frame_orth_energy.Hes x hes).2 ≠ 0) ∧
      ((boundary_fix_energy.Hes x hes).1 = hes ∧ (boundary_fix_energy.Hes x hes).2 ≠ 0) ∧
      ((Constraint.Hes_default x off ches).1 = ches ∧
        (Constraint.Hes_default x off ches).2 ≠ 0) := by
  refine ⟨⟨rfl, ?_⟩, ⟨rfl, ?_⟩, ⟨rfl, ?_⟩, ⟨rfl, ?_⟩, ⟨rfl, ?_⟩, ⟨rfl, ?_⟩, ⟨rfl, ?_⟩⟩ <;>
    simp [SH_smooth_energy_tet.Hes, SH_align_energy_tet.Hes, poly_smooth_energy_tet.Hes,
      l1_smooth_energy_tet.Hes, frame_orth_energy.Hes, boundary_fix_energy.Hes,
      Constraint.Hes_default]

theorem foldl_Hes_unchanged {T : Type} (x : Nat → T)
    (buffer : List (Option (Functional T))) (hes : List (Triplet T))
    (h : ∀ f ∈ non_null buffer, ∀ l, (f.Hes x l).1 = l) :
    buffer.foldl
        (fun acc e => match e with
          | some f => (f.Hes x acc).1
          | none => acc) hes = hes := by
  induction buffer generalizing hes with
  | nil => rfl
  | cons e es ih =>
    cases e with
    | none => exact ih hes (by simpa [non_null] using h)
    | some f =>
      have hf := h f (by simp [non_null])
      simp only [List.foldl_cons, hf]
      exact ih hes (fun g hg => h g (by
        simp only [non_null, List.filterMap_cons, id] at hg ⊢
        exact List.mem_cons_of_mem _ hg))

/-- C20. `energy_t::Val`, `Gra` and `Hes` return 0 for every input, whatever
the terms return. In particular, when every non-null term signals an
unimplemented Hessian (non-zero return value, triplet list untouched),
`energy_t::Hes` returns 0 and leaves the list unchanged, which is exactly what it
returns when every term reports success and has nothing to append: the result
does not tell the two apart. -/
theorem energy_t_returns_zero {T : Type} (self : energy_t T) (x : Nat → T) (val : T)
    (gra : Nat → T) (hes : List (Triplet T)) :
    (self.Val x val).2 = 0 ∧ (self.Gra x gra).2 = 0 ∧ (self.Hes x hes).2 = 0 ∧
      ((∀ f ∈ non_null self.buffer_, ∀ l, (f.Hes x l).1 = l ∧ (f.Hes x l).2 ≠ 0) →
        self.Hes x hes = (hes, 0)) ∧
      ((∀ f ∈ non_null self.buffer_, ∀ l, (f.Hes x l).1 = l ∧ (f.Hes x l).2 ≠ 0) →
        ∀ other : energy_t T,
          (∀ f ∈ non_null other.buffer_, ∀ l, (f.Hes x l).1 = l ∧ (f.Hes x l).2 = 0) →
            self.Hes x hes = other.Hes x hes) := by
  have key : ∀ e : energy_t T, (∀ f ∈ non_null e.buffer_, ∀ l, (f.Hes x l).1 = l) →
      e.Hes x hes = (hes, 0) := by
    intro e he
    unfold energy_t.Hes
    rw [foldl_Hes_unchanged x e.buffer_ hes he]
  refine ⟨rfl, rfl, rfl, fun h => key self (fun f hf l => (h f hf l).1), fun h other ho => ?_⟩
  rw [key self (fun f hf l => (h f hf l).1), key other (fun f hf l => (ho f hf l).1)]

/-- An instance of C20: a composite of two terms without Hessian returns 0 from
`Hes` and leaves the triplet list empty, although both terms returned 455. -/
theorem energy_t_returns_zero_sample :
    (energy_t.Hes ⟨[some (first_order_term 3 2), some (first_order_term 3 5)], 3⟩
        (fun _ => 1) []) = ([], 0) ∧
      ((first_order_term 3 2).Hes (fun _ => 1) []).2 = 455 :=
  ⟨((energy_t_returns_zero
      ⟨[some (first_order_term 3 2), some (first_order_term 3 5)], 3⟩ (fun _ => 1) 0
      (fun _ => 0) []).2.2.2.1
      (by simp [non_null, first_order_term, boundary_fix_energy.Hes])), rfl⟩

/-- C11. A term with zero eligible elements. For every tet mesh all of whose
faces are outside faces, `SH_smooth_energy_tet` is constructed with an empty
adjacency table and empty weights, and for every input its `Val`, `Gra`,
`ValSH`, `GraSH` and `HesSH` leave the accumulator, the gradient buffer and the
triplet list unchanged and return 0. -/
theorem SH_smooth_no_interior_face {K : Type} [LinearOrderedField K] (sqrt : K → K)
    (tets : List (Nat × Nat × Nat × Nat)) (nods : Nat → Vec3 K)
    (face2tet_ : List (Nat × Nat)) (is_outside_face : Nat × Nat → Bool)
    (hout : ∀ ts ∈ face2tet_, is_outside_face ts = true) :
    SH_smooth_energy_tet.adjt_ face2tet_ is_outside_face = [] ∧
      SH_smooth_energy_tet.stiff_ sqrt tets nods
        (SH_smooth_energy_tet.adjt_ face2tet_ is_outside_face) = [] ∧
      ∀ (kernel : K → (Nat → K) → K → K)
        (kernel_jac : (Nat → K) → (Nat → K) → K → (Nat → K)) (w : K) (x : Nat → K)
        (val : K) (gra : Nat → K) (hes : List (Triplet K)),
        SH_smooth_energy_tet.Val kernel w
            (SH_smooth_energy_tet.adjt_ face2tet_ is_outside_face)
            (SH_smooth_energy_tet.stiff_ sqrt tets nods
              (SH_smooth_energy_tet.adjt_ face2tet_ is_outside_face)) x val = (val, 0) ∧
          SH_smooth_energy_tet.Gra kernel_jac w
            (SH_smooth_energy_tet.adjt_ face2tet_ is_outside_face)
            (SH_smooth_energy_tet.stiff_ sqrt tets nods
              (SH_smooth_energy_tet.adjt_ face2tet_ is_outside_face)) x gra = (gra, 0) ∧
          SH_smooth_energy_tet.ValSH w
            (SH_smooth_energy_tet.adjt_ face2tet_ is_outside_face)
            (SH_smooth_energy_tet.stiff_ sqrt tets nods
              (SH_smooth_energy_tet.adjt_ face2tet_ is_outside_face)) x val = (val, 0) ∧
          SH_smooth_energy_tet.GraSH w
            (SH_smooth_energy_tet.adjt_ face2tet_ is_outside_face)
            (SH_smooth_energy_tet.stiff_ sqrt tets nods
              (SH_smooth_energy_tet.adjt_ face2tet_ is_outside_face)) x gra = (gra, 0) ∧
          SH_smooth_energy_tet.HesSH w
            (SH_smooth_energy_tet.adjt_ face2tet_ is_outside_face)
            (SH_smooth_energy_tet.stiff_ sqrt tets nods
              (SH_smooth_energy_tet.adjt_ face2tet_ is_outside_face)) hes = (hes, 0) := by
  have hA : SH_smooth_energy_tet.adjt_ face2tet_ is_outside_face = [] := by
    unfold SH_smooth_energy_tet.adjt_
    rw [List.filter_eq_nil_iff]
    intro ts hts
    simp [hout ts hts]
  have hS : SH_smooth_energy_tet.stiff_ sqrt tets nods
      (SH_smooth_energy_tet.adjt_ face2tet_ is_outside_face) = [] := by
    rw [hA]
    rfl
  refine ⟨hA, hS, fun kernel kernel_jac w x val gra hes => ?_⟩
  rw [hS, hA]
  exact ⟨rfl, rfl, rfl, rfl, rfl⟩

/-- Witness for C11: a single tetrahedron, whose four faces are outside faces. -/
theorem SH_smooth_no_interior_face_witness :
    SH_smooth_energy_tet.adjt_ single_tet_face2tet sample_is_outside = [] ∧
      SH_smooth_energy_tet.stiff_ sample_sqrt [(0, 1, 2, 3)] sample_nods
        (SH_smooth_energy_tet.adjt_ single_tet_face2tet sample_is_outside) = [] ∧
      ∀ (kernel : ℚ → (Nat → ℚ) → ℚ → ℚ)
        (kernel_jac : (Nat → ℚ) → (Nat → ℚ) → ℚ → (Nat → ℚ)) (w : ℚ) (x : Nat → ℚ)
        (val : ℚ) (gra : Nat → ℚ) (hes : List (Triplet ℚ)),
        SH_smooth_energy_tet.Val kernel w
            (SH_smooth_energy_tet.adjt_ single_tet_face2tet sample_is_outside)
            (SH_smooth_energy_tet.stiff_ sample_sqrt [(0, 1, 2, 3)] sample_nods
              (SH_smooth_energy_tet.adjt_ single_tet_face2tet sample_is_outside)) x val =
            (val, 0) ∧
          SH_smooth_energy_tet.Gra kernel_jac w
            (SH_smooth_energy_tet.adjt_ single_tet_face2tet sample_is_outside)
            (SH_smooth_energy_tet.stiff_ sample_sqrt [(0, 1, 2, 3)] sample_nods
              (SH_smooth_energy_tet.adjt_ single_tet_face2tet sample_is_outside)) x gra =
            (gra, 0) ∧
          SH_smooth_energy_tet.ValSH w
            (SH_smooth_energy_tet.adjt_ single_tet_face2tet sample_is_outside)
            (SH_smooth_energy_tet.stiff_ sample_sqrt [(0, 1, 2, 3)] sample_nods
              (SH_smooth_energy_tet.adjt_ single_tet_face2tet sample_is_outside)) x val =
            (val, 0) ∧
          SH_smooth_energy_tet.GraSH w
            (SH_smooth_energy_tet.adjt_ single_tet_face2tet sample_is_outside)
            (SH_smooth_energy_tet.stiff_ sample_sqrt [(0, 1, 2, 3)] sample_nods
              (SH_smooth_energy_tet.adjt_ single_tet_face2tet sample_is_outside)) x gra =
            (gra, 0) ∧
          SH_smooth_energy_tet.HesSH w
            (SH_smooth_energy_tet.adjt_ single_tet_face2tet sample_is_outside)
            (SH_smooth_energy_tet.stiff_ sample_sqrt [(0, 1, 2, 3)] sample_nods
              (SH_smooth_energy_tet.adjt_ single_tet_face2tet sample_is_outside)) hes =
            (hes, 0) :=
  SH_smooth_no_interior_face sample_sqrt [(0, 1, 2, 3)] sample_nods single_tet_face2tet
    sample_is_outside (by simp [single_tet_face2tet, sample_is_outside])

theorem assemble_singleton {K : Type} [AddMonoid K] (t : Triplet K) (i j : Nat) :
    assemble [t] i j = if t.row = i ∧ t.col = j then t.value else 0 := by
  by_cases h : t.row = i ∧ t.col = j
  · simp [assemble, List.filter_cons, h]
  · simp [assemble, List.filter_cons, h]

theorem assemble_diag_range {K : Type} [AddMonoid K] (n a b : Nat) (v : K) (m i j : Nat) :
    assemble ((List.range m).map (fun k => (⟨n * a + k, n * b + k, v⟩ : Triplet K))) i j =
      if n * a ≤ i ∧ i < n * a + m ∧ j = n * b + (i - n * a) then v else 0 := by
  induction m with
  | zero =>
    have hf : ¬ (n * a ≤ i ∧ i < n * a + 0 ∧ j = n * b + (i - n * a)) := by omega
    rw [if_neg hf]
    simp [assemble]
  | succ m ih =>
    rw [List.range_succ, List.map_append, assemble_append, ih, List.map_singleton,
      assemble_singleton]
    by_cases h1 : n * a ≤ i ∧ i < n * a + m ∧ j = n * b + (i - n * a)
    · have h2 : ¬ (n * a + m = i ∧ n * b + m = j) := by omega
      have h3 : n * a ≤ i ∧ i < n * a + (m + 1) ∧ j = n * b + (i - n * a) := by omega
      rw [if_pos h1, if_neg h2, if_pos h3, add_zero]
    · by_cases h2 : n * a + m = i ∧ n * b + m = j
      · have h3 : n * a ≤ i ∧ i < n * a + (m + 1) ∧ j = n * b + (i - n * a) := by omega
        rw [if_neg h1, if_pos h2, if_pos h3, zero_add]
      · have h3 : ¬ (n * a ≤ i ∧ i < n * a + (m + 1) ∧ j = n * b + (i - n * a)) := by omega
        rw [if_neg h1, if_neg h2, if_neg h3, add_zero]

theorem assemble_add_diag_block {K : Type} [AddMonoid K] (n a b : Nat) (v : K)
    (hes : List (Triplet K)) (i j : Nat) :
    assemble (add_diag_block n a b v hes) i j =
      assemble hes i j +
        if n * a ≤ i ∧ i < n * a + n ∧ j = n * b + (i - n * a) then v else 0 := by
  unfold add_diag_block
  rw [assemble_append, assemble_diag_range]

theorem sum_range_block {K : Type} [AddCommMonoid K] (n a m : Nat) (g : Nat → K)
    (h : a + m ≤ n) :
    Finset.sum (Finset.range n) (fun i => if a ≤ i ∧ i < a + m then g (i - a) else 0) =
      Finset.sum (Finset.range m) g := by
  rw [← Finset.sum_filter]
  have hfil : Finset.filter (fun i => a ≤ i ∧ i < a + m) (Finset.range n) =
      Finset.Ico a (a + m) := by
    ext i
    simp only [Finset.mem_filter, Finset.mem_range, Finset.mem_Ico]
    omega
  rw [hfil, Finset.sum_Ico_eq_sum_range]
  simp

theorem dense_row_block {K : Type} [CommRing K] (n m a b : Nat) (v : K) (f : Nat → K)
    (i : Nat) (hb : m * b + m ≤ n) :
    Finset.sum (Finset.range n)
        (fun j => (if m * a ≤ i ∧ i < m * a + m ∧ j = m * b + (i - m * a) then v else 0) *
          f j) =
      if m * a ≤ i ∧ i < m * a + m then v * f (m * b + (i - m * a)) else 0 := by
  by_cases h : m * a ≤ i ∧ i < m * a + m
  · rw [if_pos h]
    rw [Finset.sum_eq_single (m * b + (i - m * a))]
    · simp [h.1, h.2]
    · intro j _ hj
      have : ¬ (m * a ≤ i ∧ i < m * a + m ∧ j = m * b + (i - m * a)) := fun hc => hj hc.2.2
      simp [this]
    · intro hnot
      exact absurd (Finset.mem_range.2 (by omega)) hnot
  · rw [if_neg h]
    apply Finset.sum_eq_zero
    intro j _
    have : ¬ (m * a ≤ i ∧ i < m * a + m ∧ j = m * b + (i - m * a)) :=
      fun hc => h ⟨hc.1, hc.2.1⟩
    simp [this]

theorem list_sum_range {K : Type} [AddCommMonoid K] (m : Nat) (g : Nat → K) :
    ((List.range m).map g).sum = Finset.sum (Finset.range m) g := by
  induction m with
  | zero => simp
  | succ m ih => rw [List.range_succ, List.map_append, List.sum_append, ih,
      Finset.sum_range_succ]; simp

theorem pair_assemble {K : Type} [CommRing K] (e : K) (l r : Nat) (hes : List (Triplet K))
    (i j : Nat) :
    assemble
        (add_diag_block 9 r r e
          (add_diag_block 9 r l (-e)
            (add_diag_block 9 l r (-e) (add_diag_block 9 l l e hes)))) i j =
      assemble hes i j +
        (if 9 * l ≤ i ∧ i < 9 * l + 9 ∧ j = 9 * l + (i - 9 * l) then e else 0) +
        (if 9 * l ≤ i ∧ i < 9 * l + 9 ∧ j = 9 * r + (i - 9 * l) then -e else 0) +
        (if 9 * r ≤ i ∧ i < 9 * r + 9 ∧ j = 9 * l + (i - 9 * r) then -e else 0) +
        (if 9 * r ≤ i ∧ i < 9 * r + 9 ∧ j = 9 * r + (i - 9 * r) then e else 0) := by
  simp only [assemble_add_diag_block]

theorem pair_symmetric {K : Type} [CommRing K] (e : K) (l r : Nat) (hes : List (Triplet K))
    (hsym : ∀ i j, assemble hes i j = assemble hes j i) (i j : Nat) :
    assemble
        (add_diag_block 9 r r e
          (add_diag_block 9 r l (-e)
            (add_diag_block 9 l r (-e) (add_diag_block 9 l l e hes)))) i j =
      assemble
        (add_diag_block 9 r r e
          (add_diag_block 9 r l (-e)
            (add_diag_block 9 l r (-e) (add_diag_block 9 l l e hes)))) j i := by
  rw [pair_assemble, pair_assemble, hsym i j]
  have h1 : (9 * l ≤ j ∧ j < 9 * l + 9 ∧ i = 9 * l + (j - 9 * l)) ↔
      (9 * l ≤ i ∧ i < 9 * l + 9 ∧ j = 9 * l + (i - 9 * l)) := by omega
  have h2 : (9 * l ≤ j ∧ j < 9 * l + 9 ∧ i = 9 * r + (j - 9 * l)) ↔
      (9 * r ≤ i ∧ i < 9 * r + 9 ∧ j = 9 * l + (i - 9 * r)) := by omega
  have h3 : (9 * r ≤ j ∧ j < 9 * r + 9 ∧ i = 9 * l + (j - 9 * r)) ↔
      (9 * l ≤ i ∧ i < 9 * l + 9 ∧ j = 9 * r + (i - 9 * l)) := by omega
  have h4 : (9 * r ≤ j ∧ j < 9 * r + 9 ∧ i = 9 * r + (j - 9 * r)) ↔
      (9 * r ≤ i ∧ i < 9 * r + 9 ∧ j = 9 * r + (i - 9 * r)) := by omega
  rw [if_congr h1 rfl rfl, if_congr h2 rfl rfl, if_congr h3 rfl rfl, if_congr h4 rfl rfl]
  ring

theorem pair_dense {K : Type} [CommRing K] (n : Nat) (f : Nat → K) (e : K) (l r : Nat)
    (hes : List (Triplet K)) (hl : 9 * l + 9 ≤ n) (hr : 9 * r + 9 ≤ n) (i : Nat) :
    Finset.sum (Finset.range n)
        (fun j => assemble
          (add_diag_block 9 r r e
            (add_diag_block 9 r l (-e)
              (add_diag_block 9 l r (-e) (add_diag_block 9 l l e hes)))) i j * f j) =
      Finset.sum (Finset.range n) (fun j => assemble hes i j * f j) +
        (if 9 * l ≤ i ∧ i < 9 * l + 9 then e * f (9 * l + (i - 9 * l)) else 0) +
        (if 9 * l ≤ i ∧ i < 9 * l + 9 then -e * f (9 * r + (i - 9 * l)) else 0) +
        (if 9 * r ≤ i ∧ i < 9 * r + 9 then -e * f (9 * l + (i - 9 * r)) else 0) +
        (if 9 * r ≤ i ∧ i < 9 * r + 9 then e * f (9 * r + (i - 9 * r)) else 0) := by
  simp only [pair_assemble, add_mul, Finset.sum_add_distrib]
  rw [dense_row_block n 9 l l e f i hl, dense_row_block n 9 l r (-e) f i hr,
    dense_row_block n 9 r l (-e) f i hl, dense_row_block n 9 r r e f i hr]

theorem pair_gra {K : Type} [CommRing K] (G v1 v2 : Nat → K) (l r i : Nat) :
    add_col 9 (add_col 9 G l v1) r v2 i =
      G i + (if 9 * l ≤ i ∧ i < 9 * l + 9 then v1 (i - 9 * l) else 0) +
        (if 9 * r ≤ i ∧ i < 9 * r + 9 then v2 (i - 9 * r) else 0) := by
  unfold add_col
  split_ifs <;> simp

theorem HesSH_symmetric {K : Type} [CommRing K] (w : K) (ps : List ((Nat × Nat) × K))
    (hes : List (Triplet K)) (hsym : ∀ i j, assemble hes i j = assemble hes j i) (i j : Nat) :
    assemble
        (ps.foldl
          (fun hes p =>
            add_diag_block 9 p.1.2 p.1.2 (2 * w * p.2)
              (add_diag_block 9 p.1.2 p.1.1 (-(2 * w * p.2))
                (add_diag_block 9 p.1.1 p.1.2 (-(2 * w * p.2))
                  (add_diag_block 9 p.1.1 p.1.1 (2 * w * p.2) hes)))) hes) i j =
      assemble
        (ps.foldl
          (fun hes p =>
            add_diag_block 9 p.1.2 p.1.2 (2 * w * p.2)
              (add_diag_block 9 p.1.2 p.1.1 (-(2 * w * p.2))
                (add_diag_block 9 p.1.1 p.1.2 (-(2 * w * p.2))
                  (add_diag_block 9 p.1.1 p.1.1 (2 * w * p.2) hes)))) hes) j i := by
  induction ps generalizing hes with
  | nil => exact hsym i j
  | cons p ps ih =>
    simp only [List.foldl_cons]
    exact ih _ (fun a b => pair_symmetric (2 * w * p.2) p.1.1 p.1.2 hes hsym a b)

theorem HesSH_dense_eq_GraSH {K : Type} [CommRing K] (n : Nat) (w : K) (f : Nat → K)
    (ps : List ((Nat × Nat) × K))
    (hn : ∀ p ∈ ps, 9 * p.1.1 + 9 ≤ n ∧ 9 * p.1.2 + 9 ≤ n)
    (hes : List (Triplet K)) (G : Nat → K)
    (h0 : ∀ i, Finset.sum (Finset.range n) (fun j => assemble hes i j * f j) = G i) (i : Nat) :
    Finset.sum (Finset.range n)
        (fun j => assemble
          (ps.foldl
            (fun hes p =>
              add_diag_block 9 p.1.2 p.1.2 (2 * w * p.2)
                (add_diag_block 9 p.1.2 p.1.1 (-(2 * w * p.2))
                  (add_diag_block 9 p.1.1 p.1.2 (-(2 * w * p.2))
                    (add_diag_block 9 p.1.1 p.1.1 (2 * w * p.2) hes)))) hes) i j * f j) =
      ps.foldl
        (fun G p =>
          add_col 9
            (add_col 9 G p.1.1
              (fun k => 2 * w * p.2 * (f (9 * p.1.1 + k) - f (9 * p.1.2 + k))))
            p.1.2 (fun k => 2 * w * p.2 * (f (9 * p.1.2 + k) - f (9 * p.1.1 + k)))) G i := by
  induction ps generalizing hes G with
  | nil => exact h0 i
  | cons p ps ih =>
    simp only [List.foldl_cons]
    have hp := hn p (List.mem_cons_self _ _)
    apply ih (fun q hq => hn q (List.mem_cons_of_mem _ hq))
    intro a
    rw [pair_dense n f (2 * w * p.2) p.1.1 p.1.2 hes hp.1 hp.2 a, pair_gra, h0 a]
    split_ifs <;> ring

theorem quad_block {K : Type} [CommRing K] (n a b m : Nat) (v : K) (f : Nat → K)
    (h : a + m ≤ n) :
    Finset.sum (Finset.range n)
        (fun i => f i * (if a ≤ i ∧ i < a + m then v * f (b + (i - a)) else 0)) =
      Finset.sum (Finset.range m) (fun k => f (a + k) * (v * f (b + k))) := by
  rw [← sum_range_block n a m (fun k => f (a + k) * (v * f (b + k))) h]
  apply Finset.sum_congr rfl
  intro i _
  by_cases hc : a ≤ i ∧ i < a + m
  · rw [if_pos hc, if_pos hc]
    have : a + (i - a) = i := by omega
    rw [this]
  · rw [if_neg hc, if_neg hc, mul_zero]

theorem pair_quad {K : Type} [CommRing K] (n : Nat) (f : Nat → K) (w s : K) (l r : Nat)
    (hes : List (Triplet K)) (hl : 9 * l + 9 ≤ n) (hr : 9 * r + 9 ≤ n) :
    Finset.sum (Finset.range n) (fun i => f i *
        Finset.sum (Finset.range n)
          (fun j => assemble
            (add_diag_block 9 r r (2 * w * s)
              (add_diag_block 9 r l (-(2 * w * s))
                (add_diag_block 9 l r (-(2 * w * s))
                  (add_diag_block 9 l l (2 * w * s) hes)))) i j * f j)) =
      Finset.sum (Finset.range n) (fun i => f i *
          Finset.sum (Finset.range n) (fun j => assemble hes i j * f j)) +
        2 * (w * s *
          dot9 (fun k => f (9 * l + k) - f (9 * r + k))
            (fun k => f (9 * l + k) - f (9 * r + k))) := by
  simp only [pair_dense n f (2 * w * s) l r hes hl hr, mul_add, Finset.sum_add_distrib]
  rw [quad_block n (9 * l) (9 * l) 9 (2 * w * s) f hl,
    quad_block n (9 * l) (9 * r) 9 (-(2 * w * s)) f hl,
    quad_block n (9 * r) (9 * l) 9 (-(2 * w * s)) f hr,
    quad_block n (9 * r) (9 * r) 9 (2 * w * s) f hr]
  simp only [dot9, list_sum_range, Finset.sum_range_succ, Finset.sum_range_zero]
  ring

theorem HesSH_quad_eq_ValSH {K : Type} [CommRing K] (n : Nat) (w : K) (f : Nat → K)
    (ps : List ((Nat × Nat) × K))
    (hn : ∀ p ∈ ps, 9 * p.1.1 + 9 ≤ n ∧ 9 * p.1.2 + 9 ≤ n)
    (hes : List (Triplet K)) (val : K)
    (h0 : Finset.sum (Finset.range n) (fun i => f i *
        Finset.sum (Finset.range n) (fun j => assemble hes i j * f j)) = 2 * val) :
    Finset.sum (Finset.range n) (fun i => f i *
        Finset.sum (Finset.range n)
          (fun j => assemble
            (ps.foldl
              (fun hes p =>
                add_diag_block 9 p.1.2 p.1.2 (2 * w * p.2)
                  (add_diag_block 9 p.1.2 p.1.1 (-(2 * w * p.2))
                    (add_diag_block 9 p.1.1 p.1.2 (-(2 * w * p.2))
                      (add_diag_block 9 p.1.1 p.1.1 (2 * w * p.2) hes)))) hes) i j * f j)) =
      2 * ps.foldl
        (fun val p =>
          val + w * p.2 *
            dot9 (fun k => f (9 * p.1.1 + k) - f (9 * p.1.2 + k))
              (fun k => f (9 * p.1.1 + k) - f (9 * p.1.2 + k))) val := by
  induction ps generalizing hes val with
  | nil => exact h0
  | cons p ps ih =>
    simp only [List.foldl_cons]
    have hp := hn p (List.mem_cons_self _ _)
    apply ih (fun q hq => hn q (List.mem_cons_of_mem _ hq))
    rw [pair_quad n f w p.2 p.1.1 p.1.2 hes hp.1 hp.2, h0]
    ring

theorem dot9_self_nonneg {K : Type} [LinearOrderedCommRing K] (d : Nat → K) :
    0 ≤ dot9 d d := by
  unfold dot9
  apply List.sum_nonneg
  intro x hx
  obtain ⟨k, _, rfl⟩ := List.mem_map.1 hx
  exact mul_self_nonneg _

theorem ValSH_fold_nonneg {K : Type} [LinearOrderedCommRing K] (w : K) (f : Nat → K)
    (ps : List ((Nat × Nat) × K)) (hw : 0 ≤ w) (hs : ∀ p ∈ ps, 0 ≤ p.2) (val : K)
    (hv : 0 ≤ val) :
    0 ≤ ps.foldl
      (fun val p =>
        val + w * p.2 *
          dot9 (fun k => f (9 * p.1.1 + k) - f (9 * p.1.2 + k))
            (fun k => f (9 * p.1.1 + k) - f (9 * p.1.2 + k))) val := by
  induction ps generalizing val with
  | nil => exact hv
  | cons p ps ih =>
    simp only [List.foldl_cons]
    apply ih (fun q hq => hs q (List.mem_cons_of_mem _ hq))
    exact add_nonneg hv
      (mul_nonneg (mul_nonneg hw (hs p (List.mem_cons_self _ _))) (dot9_self_nonneg _))

theorem sample_stiff :
    SH_smooth_energy_tet.stiff_ sample_sqrt sample_tets sample_nods
      (SH_smooth_energy_tet.adjt_ sample_face2tet sample_is_outside) = [1] := by
  rw [sample_adjt]
  unfold SH_smooth_energy_tet.stiff_
  rw [sample_raw_stiff]
  norm_num [normalize]

/-- C17. The assembled quadratic system of the smoothness term. For every
adjacency table, weights and field `f`, and every size `n` that covers the
blocks of all adjacent elements, the matrix `H` obtained from the triplets of
`HesSH` by summing duplicate entries is symmetric, `H * f` is the gradient that
`GraSH` writes into a zero buffer, and `f^T * H * f` is twice the energy that
`ValSH` adds; and when the weights are those that the constructor stores for
the table, on any mesh, `f^T * H * f >= 0` whenever `w >= 0`, so `H` is
positive semidefinite. -/
theorem HesSH_consistent {K : Type} [LinearOrderedField K] (w : K)
    (adjt : List (Nat × Nat)) (stiff : List K) (f : Nat → K) (n : Nat)
    (hn : ∀ p ∈ adjt.zip stiff, 9 * p.1.1 + 9 ≤ n ∧ 9 * p.1.2 + 9 ≤ n) :
    (∀ i j, assemble (SH_smooth_energy_tet.HesSH w adjt stiff []).1 i j =
        assemble (SH_smooth_energy_tet.HesSH w adjt stiff []).1 j i) ∧
      (∀ i, Finset.sum (Finset.range n)
          (fun j => assemble (SH_smooth_energy_tet.HesSH w adjt stiff []).1 i j * f j) =
        (SH_smooth_energy_tet.GraSH w adjt stiff f (fun _ => 0)).1 i) ∧
      Finset.sum (Finset.range n) (fun i => f i *
          Finset.sum (Finset.range n)
            (fun j => assemble (SH_smooth_energy_tet.HesSH w adjt stiff []).1 i j * f j)) =
        2 * (SH_smooth_energy_tet.ValSH w adjt stiff f 0).1 ∧
      (∀ (sqrt : K → K) (tets : List (Nat × Nat × Nat × Nat)) (nods : Nat → Vec3 K),
        stiff = SH_smooth_energy_tet.stiff_ sqrt tets nods adjt → 0 ≤ w →
        0 ≤ Finset.sum (Finset.range n) (fun i => f i *
          Finset.sum (Finset.range n)
            (fun j => assemble (SH_smooth_energy_tet.HesSH w adjt stiff []).1 i j * f j))) := by
  have hq := HesSH_quad_eq_ValSH n w f (adjt.zip stiff) hn [] 0 (by simp [assemble])
  refine ⟨fun i j => HesSH_symmetric w (adjt.zip stiff) [] (fun _ _ => rfl) i j,
    fun i => HesSH_dense_eq_GraSH n w f (adjt.zip stiff) hn [] (fun _ => 0)
      (by simp [assemble]) i, hq, fun sqrt tets nods hst hw => ?_⟩
  have hs : ∀ s ∈ stiff, 0 ≤ s := by
    rw [hst]
    exact normalize_nonneg _ (raw_stiff_nonneg sqrt tets nods adjt)
  unfold SH_smooth_energy_tet.HesSH
  rw [hq]
  have hv := ValSH_fold_nonneg w f (adjt.zip stiff) hw
    (fun p hp => hs p.2 (List.of_mem_zip hp).2) 0 (le_refl 0)
  linarith

/-- Witness for C17: the adjacency table and the weights that the constructor
stores for the sample mesh of two tetrahedra, `w = 1 / 2`, on a system of
size 18. -/
theorem HesSH_consistent_witness :
    (∀ i j,
        assemble (SH_smooth_energy_tet.HesSH (1 / 2 : ℚ)
          (SH_smooth_energy_tet.adjt_ sample_face2tet sample_is_outside)
          (SH_smooth_energy_tet.stiff_ sample_sqrt sample_tets sample_nods
            (SH_smooth_energy_tet.adjt_ sample_face2tet sample_is_outside)) []).1 i j =
        assemble (SH_smooth_energy_tet.HesSH (1 / 2 : ℚ)
          (SH_smooth_energy_tet.adjt_ sample_face2tet sample_is_outside)
          (SH_smooth_energy_tet.stiff_ sample_sqrt sample_tets sample_nods
            (SH_smooth_energy_tet.adjt_ sample_face2tet sample_is_outside)) []).1 j i) ∧
      (∀ i, Finset.sum (Finset.range 18)
          (fun j => assemble (SH_smooth_energy_tet.HesSH (1 / 2 : ℚ)
            (SH_smooth_energy_tet.adjt_ sample_face2tet sample_is_outside)
            (SH_smooth_energy_tet.stiff_ sample_sqrt sample_tets sample_nods
              (SH_smooth_energy_tet.adjt_ sample_face2tet sample_is_outside)) []).1 i j *
            unit_field j) =
        (SH_smooth_energy_tet.GraSH (1 / 2 : ℚ)
          (SH_smooth_energy_tet.adjt_ sample_face2tet sample_is_outside)
          (SH_smooth_energy_tet.stiff_ sample_sqrt sample_tets sample_nods
            (SH_smooth_energy_tet.adjt_ sample_face2tet sample_is_outside))
          unit_field (fun _ => 0)).1 i) ∧
      Finset.sum (Finset.range 18) (fun i => unit_field i *
          Finset.sum (Finset.range 18)
            (fun j => assemble (SH_smooth_energy_tet.HesSH (1 / 2 : ℚ)
              (SH_smooth_energy_tet.adjt_ sample_face2tet sample_is_outside)
              (SH_smooth_energy_tet.stiff_ sample_sqrt sample_tets sample_nods
                (SH_smooth_energy_tet.adjt_ sample_face2tet sample_is_outside)) []).1 i j *
              unit_field j)) =
        2 * (SH_smooth_energy_tet.ValSH (1 / 2 : ℚ)
          (SH_smooth_energy_tet.adjt_ sample_face2tet sample_is_outside)
          (SH_smooth_energy_tet.stiff_ sample_sqrt sample_tets sample_nods
            (SH_smooth_energy_tet.adjt_ sample_face2tet sample_is_outside))
          unit_field 0).1 ∧
      0 ≤ Finset.sum (Finset.range 18) (fun i => unit_field i *
          Finset.sum (Finset.range 18)
            (fun j => assemble (SH_smooth_energy_tet.HesSH (1 / 2 : ℚ)
              (SH_smooth_energy_tet.adjt_ sample_face2tet sample_is_outside)
              (SH_smooth_energy_tet.stiff_ sample_sqrt sample_tets sample_nods
                (SH_smooth_energy_tet.adjt_ sample_face2tet sample_is_outside)) []).1 i j *
              unit_field j)) :=
  have h := HesSH_consistent (1 / 2 : ℚ)
    (SH_smooth_energy_tet.adjt_ sample_face2tet sample_is_outside)
    (SH_smooth_energy_tet.stiff_ sample_sqrt sample_tets sample_nods
      (SH_smooth_energy_tet.adjt_ sample_face2tet sample_is_outside))
    unit_field 18 (by rw [sample_stiff, sample_adjt]; simp)
  ⟨h.1, h.2.1, h.2.2.1, h.2.2.2 sample_sqrt sample_tets sample_nods rfl (by norm_num)⟩

theorem ctor_same_Nx_not_compat {T : Type} (buffer : List (Option (Functional T))) (d : Nat)
    (h : ∀ f ∈ non_null buffer, f.Nx = d) :
    (energy_t.ctor buffer).1 ≠ Except.error exception.compatibility_exception := by
  intro hc
  rw [energy_ctor_compat_iff] at hc
  obtain ⟨d0, hd0, _, n, hn, hne⟩ := hc
  obtain ⟨f, hf, rfl⟩ := List.mem_map.1 hn
  have hmem : d0 ∈ (non_null buffer).map Functional.Nx := List.mem_of_mem_head? hd0
  obtain ⟨g, hg, rfl⟩ := List.mem_map.1 hmem
  exact hne ((h f hf).trans (h g hg).symm)

/-- C19. The term sets that the drivers compose share one variable space. For
every tet mesh with `T` tets: the three terms of `smoothL1` report the same
`Nx`, the two terms of `smoothSH` report the same `Nx`, and the two terms of
`cross_frame_opt` report the same `Nx`, so that constructing the composite over
them never raises the compatibility error; and the common value is `9 * T`,
respectively `3 * T`, for every mesh whose `9 * T` fits a `size_t`, as that of
every mesh held in memory does. -/
theorem driver_terms_share_Nx {T : Type} (tets : List (Nat × Nat × Nat × Nat)) :
    (l1_smooth_energy_tet.Nx tets = frame_orth_energy.Nx tets ∧
        frame_orth_energy.Nx tets = boundary_fix_energy.Nx 9 tets) ∧
      SH_smooth_energy_tet.Nx tets = boundary_fix_energy.Nx 3 tets ∧
      SH_smooth_energy_tet.Nx tets = SH_align_energy_tet.Nx tets ∧
      (9 * tets.length < 2 ^ 64 →
        l1_smooth_energy_tet.Nx tets = 9 * tets.length ∧
        frame_orth_energy.Nx tets = 9 * tets.length ∧
        boundary_fix_energy.Nx 9 tets = 9 * tets.length ∧
        SH_smooth_energy_tet.Nx tets = 3 * tets.length ∧
        boundary_fix_energy.Nx 3 tets = 3 * tets.length ∧
        SH_align_energy_tet.Nx tets = 3 * tets.length) ∧
      (∀ f1 f2 f3 : Functional T, f1.Nx = l1_smooth_energy_tet.Nx tets →
        f2.Nx = frame_orth_energy.Nx tets → f3.Nx = boundary_fix_energy.Nx 9 tets →
        (energy_t.ctor [some f1, some f2, some f3]).1 ≠
          Except.error exception.compatibility_exception) ∧
      (∀ f1 f2 : Functional T, f1.Nx = SH_smooth_energy_tet.Nx tets →
        f2.Nx = boundary_fix_energy.Nx 3 tets →
        (energy_t.ctor [some f1, some f2]).1 ≠
          Except.error exception.compatibility_exception) ∧
      (∀ f1 f2 : Functional T, f1.Nx = SH_smooth_energy_tet.Nx tets →
        f2.Nx = SH_align_energy_tet.Nx tets →
        (energy_t.ctor [some f1, some f2]).1 ≠
          Except.error exception.compatibility_exception) := by
  have hl1 : l1_smooth_energy_tet.Nx tets = frame_orth_energy.Nx tets := by
    simp only [l1_smooth_energy_tet.Nx, SH_smooth_energy_tet.dim_, frame_orth_energy.Nx,
      frame_orth_energy.dim_]
    omega
  have h9 : frame_orth_energy.Nx tets = boundary_fix_energy.Nx 9 tets := rfl
  have h3 : SH_smooth_energy_tet.Nx tets = boundary_fix_energy.Nx 3 tets := rfl
  have h3a : SH_smooth_energy_tet.Nx tets = SH_align_energy_tet.Nx tets := rfl
  refine ⟨⟨hl1, h9⟩, h3, h3a, fun hlt => ?_, fun f1 f2 f3 e1 e2 e3 => ?_,
    fun f1 f2 e1 e2 => ?_, fun f1 f2 e1 e2 => ?_⟩
  · simp only [l1_smooth_energy_tet.Nx, SH_smooth_energy_tet.dim_, frame_orth_energy.Nx,
      frame_orth_energy.dim_, boundary_fix_energy.Nx, boundary_fix_energy.dim_,
      SH_smooth_energy_tet.Nx, SH_align_energy_tet.Nx, SH_align_energy_tet.dim_]
    omega
  · apply ctor_same_Nx_not_compat _ (frame_orth_energy.Nx tets)
    intro f hf
    simp only [non_null, List.filterMap_cons, id, List.filterMap_nil, List.mem_cons,
      List.mem_nil_iff, or_false] at hf
    rcases hf with rfl | rfl | rfl
    · rw [e1, hl1]
    · exact e2
    · rw [e3, h9]
  · apply ctor_same_Nx_not_compat _ (SH_smooth_energy_tet.Nx tets)
    intro f hf
    simp only [non_null, List.filterMap_cons, id, List.filterMap_nil, List.mem_cons,
      List.mem_nil_iff, or_false] at hf
    rcases hf with rfl | rfl
    · exact e1
    · rw [e2, h3]
  · apply ctor_same_Nx_not_compat _ (SH_smooth_energy_tet.Nx tets)
    intro f hf
    simp only [non_null, List.filterMap_cons, id, List.filterMap_nil, List.mem_cons,
      List.mem_nil_iff, or_false] at hf
    rcases hf with rfl | rfl
    · exact e1
    · rw [e2, h3a]

/-- An instance of C19 on the sample mesh of two tetrahedra: the terms report
18 and 6. -/
theorem driver_terms_share_Nx_sample :
    l1_smooth_energy_tet.Nx sample_tets = 9 * sample_tets.length ∧
      frame_orth_energy.Nx sample_tets = 9 * sample_tets.length ∧
      boundary_fix_energy.Nx 9 sample_tets = 9 * sample_tets.length ∧
      SH_smooth_energy_tet.Nx sample_tets = 3 * sample_tets.length ∧
      boundary_fix_energy.Nx 3 sample_tets = 3 * sample_tets.length ∧
      SH_align_energy_tet.Nx sample_tets = 3 * sample_tets.length :=
  (@driver_terms_share_Nx Int sample_tets).2.2.2.1 (by simp [sample_tets])

theorem sum_range_hit {K : Type} [AddMonoid K] (a j m : Nat) (d : K) :
    ((List.range m).map (fun k => if a + k = j then d else 0)).sum =
      if a ≤ j ∧ j < a + m then d else 0 := by
  induction m with
  | zero =>
    have hf : ¬ (a ≤ j ∧ j < a + 0) := by omega
    rw [if_neg hf]
    simp
  | succ m ih =>
    rw [List.range_succ, List.map_append, List.sum_append, ih]
    simp only [List.map_cons, List.map_nil, List.sum_cons, List.sum_nil, add_zero]
    by_cases h1 : a ≤ j ∧ j < a + m
    · have h2 : ¬ (a + m = j) := by omega
      have h3 : a ≤ j ∧ j < a + (m + 1) := by omega
      rw [if_pos h1, if_neg h2, if_pos h3, add_zero]
    · by_cases h2 : a + m = j
      · have h3 : a ≤ j ∧ j < a + (m + 1) := by omega
        rw [if_neg h1, if_pos h2, if_pos h3, zero_add]
      · have h3 : ¬ (a ≤ j ∧ j < a + (m + 1)) := by omega
        rw [if_neg h1, if_neg h2, if_neg h3, add_zero]

theorem col_sq_dist_update {K : Type} [CommRing K] (vd : Nat) (x x0 : Nat → K)
    (tid j : Nat) (t : K) :
    col_sq_dist vd (Function.update x j t) x0 tid =
      col_sq_dist vd x x0 tid +
        if vd * tid ≤ j ∧ j < vd * tid + vd then
          (t - x0 j) * (t - x0 j) - (x j - x0 j) * (x j - x0 j)
        else 0 := by
  rw [← sum_range_hit (vd * tid) j vd
    ((t - x0 j) * (t - x0 j) - (x j - x0 j) * (x j - x0 j))]
  unfold col_sq_dist
  rw [← List.sum_map_add]
  congr 1
  apply List.map_congr_left
  intro k _
  by_cases h : vd * tid + k = j
  · rw [if_pos h, h, Function.update_same]
    ring
  · rw [if_neg h, Function.update_noteq h, add_zero]

theorem foldl_add_sum {α K : Type} [AddMonoid K] (g : α → K) (ps : List α) (val : K) :
    ps.foldl (fun v p => v + g p) val = val + (ps.map g).sum := by
  induction ps generalizing val with
  | nil => simp
  | cons p ps ih => simp only [List.foldl_cons, ih, List.map_cons, List.sum_cons, add_assoc]

theorem foldl_add_col {α K : Type} [AddMonoid K] (vd : Nat) (col : α → Nat)
    (v : α → Nat → K) (ps : List α) (gra : Nat → K) (j : Nat) :
    ps.foldl (fun G p => add_col vd G (col p) (v p)) gra j =
      gra j + (ps.map (fun p =>
        if vd * col p ≤ j ∧ j < vd * col p + vd then v p (j - vd * col p) else 0)).sum := by
  induction ps generalizing gra with
  | nil => simp
  | cons p ps ih =>
    simp only [List.foldl_cons, ih, List.map_cons, List.sum_cons]
    unfold add_col
    split_ifs <;> simp [add_assoc]

theorem boundary_fix_Val_update {K : Type} [CommRing K] (vd : Nat) (w : K) (x0 x : Nat → K)
    (j : Nat) (t : K) (ps : List (Nat × K)) :
    (ps.map (fun p => w * p.2 * col_sq_dist vd (Function.update x j t) x0 p.1)).sum =
      (ps.map (fun p => w * p.2 * col_sq_dist vd x x0 p.1)).sum +
        (ps.map (fun p => if vd * p.1 ≤ j ∧ j < vd * p.1 + vd then w * p.2 else 0)).sum *
          ((t - x0 j) * (t - x0 j) - (x j - x0 j) * (x j - x0 j)) := by
  induction ps with
  | nil => simp
  | cons p ps ih =>
    rw [List.map_cons, List.sum_cons, ih, col_sq_dist_update, List.map_cons, List.sum_cons,
      List.map_cons, List.sum_cons]
    split_ifs <;> ring

theorem boundary_fix_Gra_coord {K : Type} [CommRing K] (vd : Nat) (w : K) (x0 x : Nat → K)
    (j : Nat) (ps : List (Nat × K)) :
    (ps.map (fun p =>
        if vd * p.1 ≤ j ∧ j < vd * p.1 + vd then
          w * 2 * p.2 * (x (vd * p.1 + (j - vd * p.1)) - x0 (vd * p.1 + (j - vd * p.1)))
        else 0)).sum =
      (ps.map (fun p => if vd * p.1 ≤ j ∧ j < vd * p.1 + vd then w * p.2 else 0)).sum *
        (2 * (x j - x0 j)) := by
  induction ps with
  | nil => simp
  | cons p ps ih =>
    simp only [List.map_cons, List.sum_cons, ih]
    by_cases h : vd * p.1 ≤ j ∧ j < vd * p.1 + vd
    · have hj : vd * p.1 + (j - vd * p.1) = j := by omega
      rw [if_pos h, if_pos h, hj]
      ring
    · rw [if_neg h, if_neg h]
      ring

theorem col_sq_dist_self {K : Type} [CommRing K] (vd : Nat) (x0 : Nat → K) (tid : Nat) :
    col_sq_dist vd x0 x0 tid = 0 := by
  unfold col_sq_dist
  apply List.sum_eq_zero
  intro y hy
  obtain ⟨k, _, rfl⟩ := List.mem_map.1 hy
  simp

theorem col_index_unique (vd c tid k : Nat) (hk : k < vd)
    (h1 : vd * tid ≤ vd * c + k) (h2 : vd * c + k < vd * tid + vd) : c = tid := by
  have hpos : 0 < vd := by omega
  have e1 : (vd * c + k) / vd = c := by
    rw [Nat.mul_add_div hpos, Nat.div_eq_of_lt hk, Nat.add_zero]
  have e2 : (vd * c + k) / vd = tid := by
    obtain ⟨r, hr⟩ := Nat.exists_eq_add_of_le h1
    rw [hr, Nat.mul_add_div hpos, Nat.div_eq_of_lt (by omega), Nat.add_zero]
  omega

/-- C18. `boundary_fix_energy` accumulates additively and its gradient matches
its value (in real arithmetic, for a positive `var_dim_`). `Val` adds
`w * sum_i stiff_i * ||X[:, tid_i] - X0[:, tid_i]||^2` to the accumulator and
returns 0; `Gra` adds to every cell `j` one contribution
`2 * w * stiff_i * (x_j - x0_j)` per face `i` whose tet column holds `j`, returns
0 and leaves the columns of tets without a surface face as they were; the cell
`j` of what `Gra` adds to a zero buffer is the derivative of what `Val` adds with
respect to `x_j`; and at `x = x0` both add nothing. -/
theorem boundary_fix_value_gradient (var_dim : Nat) (w : ℝ) (adjt : List Nat)
    (stiff : List ℝ) (x0 x : Nat → ℝ) (_hvd : 0 < var_dim) :
    (∀ val, boundary_fix_energy.Val var_dim w adjt stiff x0 x val =
        (val + w * ((adjt.zip stiff).map
          (fun p => p.2 * col_sq_dist var_dim x x0 p.1)).sum, 0)) ∧
      (∀ gra j, (boundary_fix_energy.Gra var_dim w adjt stiff x0 x gra).1 j =
        gra j + ((adjt.zip stiff).map (fun p =>
          if var_dim * p.1 ≤ j ∧ j < var_dim * p.1 + var_dim then
            2 * w * p.2 * (x j - x0 j)
          else 0)).sum) ∧
      (∀ gra, (boundary_fix_energy.Gra var_dim w adjt stiff x0 x gra).2 = 0) ∧
      (∀ gra c k, c ∉ adjt → k < var_dim →
        (boundary_fix_energy.Gra var_dim w adjt stiff x0 x gra).1 (var_dim * c + k) =
          gra (var_dim * c + k)) ∧
      (∀ j, HasDerivAt
        (fun t => (boundary_fix_energy.Val var_dim w adjt stiff x0
          (Function.update x j t) 0).1)
        ((boundary_fix_energy.Gra var_dim w adjt stiff x0 x (fun _ => 0)).1 j) (x j)) ∧
      (∀ val gra, boundary_fix_energy.Val var_dim w adjt stiff x0 x0 val = (val, 0) ∧
        boundary_fix_energy.Gra var_dim w adjt stiff x0 x0 gra = (gra, 0)) := by
  have hV : ∀ (y : Nat → ℝ) (val : ℝ),
      boundary_fix_energy.Val var_dim w adjt stiff x0 y val =
        (val + ((adjt.zip stiff).map
          (fun p => w * p.2 * col_sq_dist var_dim y x0 p.1)).sum, 0) := by
    intro y val
    unfold boundary_fix_energy.Val
    rw [foldl_add_sum (fun p : Nat × ℝ => w * p.2 * col_sq_dist var_dim y x0 p.1)]
  have hG : ∀ (y : Nat → ℝ) (gra : Nat → ℝ) (j : Nat),
      (boundary_fix_energy.Gra var_dim w adjt stiff x0 y gra).1 j =
        gra j + ((adjt.zip stiff).map (fun p =>
          if var_dim * p.1 ≤ j ∧ j < var_dim * p.1 + var_dim then
            w * 2 * p.2 * (y (var_dim * p.1 + (j - var_dim * p.1)) -
              x0 (var_dim * p.1 + (j - var_dim * p.1)))
          else 0)).sum := by
    intro y gra j
    unfold boundary_fix_energy.Gra
    exact foldl_add_col var_dim Prod.fst
      (fun (p : Nat × ℝ) k => w * 2 * p.2 * (y (var_dim * p.1 + k) - x0 (var_dim * p.1 + k)))
      (adjt.zip stiff) gra j
  have hG2 : ∀ (y : Nat → ℝ) (gra : Nat → ℝ) (j : Nat),
      (boundary_fix_energy.Gra var_dim w adjt stiff x0 y gra).1 j =
        gra j + ((adjt.zip stiff).map (fun p =>
          if var_dim * p.1 ≤ j ∧ j < var_dim * p.1 + var_dim then
            2 * w * p.2 * (y j - x0 j)
          else 0)).sum := by
    intro y gra j
    rw [hG]
    congr 2
    apply List.map_congr_left
    intro p _
    by_cases h : var_dim * p.1 ≤ j ∧ j < var_dim * p.1 + var_dim
    · have hj : var_dim * p.1 + (j - var_dim * p.1) = j := by omega
      rw [if_pos h, if_pos h, hj]
      ring
    · rw [if_neg h, if_neg h]
  refine ⟨fun val => ?_, hG2 x, fun _ => rfl, fun gra c k hc hk => ?_, fun j => ?_,
    fun val gra => ⟨?_, ?_⟩⟩
  · rw [hV, ← List.sum_map_mul_left]
    simp only [mul_assoc]
  · rw [hG2]
    have hz : ((adjt.zip stiff).map (fun p =>
        if var_dim * p.1 ≤ var_dim * c + k ∧ var_dim * c + k < var_dim * p.1 + var_dim then
          2 * w * p.2 * (x (var_dim * c + k) - x0 (var_dim * c + k))
        else 0)).sum = 0 := by
      apply List.sum_eq_zero
      intro y hy
      obtain ⟨p, hp, rfl⟩ := List.mem_map.1 hy
      have hne : ¬ (var_dim * p.1 ≤ var_dim * c + k ∧
          var_dim * c + k < var_dim * p.1 + var_dim) := by
        intro hcond
        have := col_index_unique var_dim c p.1 k hk hcond.1 hcond.2
        exact hc (this ▸ (List.of_mem_zip hp).1)
      rw [if_neg hne]
    rw [hz, add_zero]
  · have hfun : (fun t => (boundary_fix_energy.Val var_dim w adjt stiff x0
          (Function.update x j t) 0).1) =
        fun t => (0 + ((adjt.zip stiff).map
            (fun p => w * p.2 * col_sq_dist var_dim x x0 p.1)).sum) +
          ((adjt.zip stiff).map (fun p =>
            if var_dim * p.1 ≤ j ∧ j < var_dim * p.1 + var_dim then w * p.2 else 0)).sum *
            ((t - x0 j) * (t - x0 j) - (x j - x0 j) * (x j - x0 j)) := by
      funext t
      rw [hV, boundary_fix_Val_update]
      ring
    have hval : (boundary_fix_energy.Gra var_dim w adjt stiff x0 x (fun _ => 0)).1 j =
        ((adjt.zip stiff).map (fun p =>
            if var_dim * p.1 ≤ j ∧ j < var_dim * p.1 + var_dim then w * p.2 else 0)).sum *
          (1 * (x j - x0 j) + (x j - x0 j) * 1) := by
      rw [hG, boundary_fix_Gra_coord]
      ring
    rw [hfun, hval]
    have h1 : HasDerivAt (fun t : ℝ => t - x0 j) 1 (x j) := (hasDerivAt_id (x j)).sub_const _
    have h2 := h1.mul h1
    exact (((h2.sub_const ((x j - x0 j) * (x j - x0 j))).const_mul _).const_add _)
  · rw [hV]
    have hz : ((adjt.zip stiff).map
        (fun p => w * p.2 * col_sq_dist var_dim x0 x0 p.1)).sum = 0 := by
      apply List.sum_eq_zero
      intro y hy
      obtain ⟨p, _, rfl⟩ := List.mem_map.1 hy
      rw [col_sq_dist_self, mul_zero]
    rw [hz, add_zero]
  · have hfunG : (boundary_fix_energy.Gra var_dim w adjt stiff x0 x0 gra).1 = gra := by
      funext j
      rw [hG2]
      have hz : ((adjt.zip stiff).map (fun p =>
          if var_dim * p.1 ≤ j ∧ j < var_dim * p.1 + var_dim then
            2 * w * p.2 * (x0 j - x0 j)
          else 0)).sum = 0 := by
        apply List.sum_eq_zero
        intro y hy
        obtain ⟨p, _, rfl⟩ := List.mem_map.1 hy
        simp
      rw [hz, add_zero]
    exact Prod.ext hfunG rfl

/-- Witness for C18: three surface faces on the tets 0, 0 and 1 with
`var_dim_ = 3`, weights `1 / 2`, `1 / 4`, `1 / 4` and `w_ = 2`. -/
theorem boundary_fix_value_gradient_witness :
    (∀ val, boundary_fix_energy.Val 3 (2 : ℝ) [0, 0, 1] [1 / 2, 1 / 4, 1 / 4] (fun _ => 0)
          (fun i => (i : ℝ)) val =
        (val + 2 * (([0, 0, 1].zip [(1 / 2 : ℝ), 1 / 4, 1 / 4]).map
          (fun p => p.2 * col_sq_dist 3 (fun i => (i : ℝ)) (fun _ => 0) p.1)).sum, 0)) ∧
      (∀ gra j, (boundary_fix_energy.Gra 3 (2 : ℝ) [0, 0, 1] [1 / 2, 1 / 4, 1 / 4]
          (fun _ => 0) (fun i => (i : ℝ)) gra).1 j =
        gra j + (([0, 0, 1].zip [(1 / 2 : ℝ), 1 / 4, 1 / 4]).map (fun p =>
          if 3 * p.1 ≤ j ∧ j < 3 * p.1 + 3 then
            2 * 2 * p.2 * ((fun i : Nat => (i : ℝ)) j - (fun _ : Nat => (0 : ℝ)) j)
          else 0)).sum) ∧
      (∀ gra, (boundary_fix_energy.Gra 3 (2 : ℝ) [0, 0, 1] [1 / 2, 1 / 4, 1 / 4]
          (fun _ => 0) (fun i => (i : ℝ)) gra).2 = 0) ∧
      (∀ gra c k, c ∉ [0, 0, 1] → k < 3 →
        (boundary_fix_energy.Gra 3 (2 : ℝ) [0, 0, 1] [1 / 2, 1 / 4, 1 / 4]
          (fun _ => 0) (fun i => (i : ℝ)) gra).1 (3 * c + k) = gra (3 * c + k)) ∧
      (∀ j, HasDerivAt
        (fun t => (boundary_fix_energy.Val 3 (2 : ℝ) [0, 0, 1] [1 / 2, 1 / 4, 1 / 4]
          (fun _ => 0) (Function.update (fun i : Nat => (i : ℝ)) j t) 0).1)
        ((boundary_fix_energy.Gra 3 (2 : ℝ) [0, 0, 1] [1 / 2, 1 / 4, 1 / 4]
          (fun _ => 0) (fun i => (i : ℝ)) (fun _ => 0)).1 j) ((fun i : Nat => (i : ℝ)) j)) ∧
      (∀ val gra, boundary_fix_energy.Val 3 (2 : ℝ) [0, 0, 1] [1 / 2, 1 / 4, 1 / 4]
          (fun _ => 0) (fun _ => 0) val = (val, 0) ∧
        boundary_fix_energy.Gra 3 (2 : ℝ) [0, 0, 1] [1 / 2, 1 / 4, 1 / 4]
          (fun _ => 0) (fun _ => 0) gra = (gra, 0)) :=
  boundary_fix_value_gradient 3 2 [0, 0, 1] [1 / 2, 1 / 4, 1 / 4] (fun _ => 0)
    (fun i => (i : ℝ)) (by norm_num)

theorem propagate_transform_unreduced {K : Type} [AddMonoid K] [Neg K]
    (L_mul solve : List K → List K) (hf_ : List K) :
    propagate_transform L_mul solve ∅ ∅ hf_ = hf_ := by
  unfold propagate_transform
  have he : ¬ ((∅ : Finset Nat) ∪ ∅ ≠ ∅) := by simp
  rw [if_neg he]
  induction hf_ with
  | nil => rfl
  | cons a as ih => simp [List.replicate_succ, ih]

/-- C16 at its failing input: no fixed and no edited vertex, `L_` the Laplacian
of a single triangle and `hf_ = (0, 1, 0)` (the state after `init`,
`edit_boundary` on vertex 1 and `edit_boundary` on no vertex). The solver's
output is `df = (1, 0, 1)`, which solves `L * df = -L * hf_`, yet
`propagate_transform` leaves `hf_` at `(0, 1, 0)` instead of
`hf_ + df = (1, 1, 1)`; `solve_for_xyz` on the same system does add the solver's
output. -/
theorem propagate_transform_drops_df :
    propagate_transform_df triangle_L_mul triangle_solve ∅ ∅ [0, 1, 0] = [1, 0, 1] ∧
      triangle_L_mul [1, 0, 1] = (triangle_L_mul [0, 1, 0]).map (fun a => -a) ∧
      propagate_transform triangle_L_mul triangle_solve ∅ ∅ [0, 1, 0] = [0, 1, 0] ∧
      List.zipWith (fun a b => a + b) [0, 1, 0]
        (propagate_transform_df triangle_L_mul triangle_solve ∅ ∅ [0, 1, 0]) = [1, 1, 1] ∧
      solve_for_xyz (fun v => (triangle_L_mul v).map (fun a => -a)) triangle_solve ∅ []
        [0, 1, 0] = [1, 1, 1] := by
  have hdf : propagate_transform_df triangle_L_mul triangle_solve ∅ ∅ [0, 1, 0] = [1, 0, 1] := by
    simp [propagate_transform_df, triangle_L_mul, triangle_solve]
    norm_num
  refine ⟨hdf, ?_, propagate_transform_unreduced _ _ _, ?_, ?_⟩
  · simp [triangle_L_mul]
    norm_num
  · rw [hdf]
    simp
  · simp [solve_for_xyz, triangle_L_mul, triangle_solve]
    norm_num

theorem frame_block_orthogonalize {K : Type} [Mul K] [AddCommMonoid K]
    (svd : Matrix (Fin 3) (Fin 3) K →
      Matrix (Fin 3) (Fin 3) K × Matrix (Fin 3) (Fin 3) K × Matrix (Fin 3) (Fin 3) K)
    (mat : Nat → K) (size i : Nat) (hi : i < size / 9) :
    frame_block (smoothL1_orthogonalize svd mat size) i =
      (svd (frame_block mat i)).1 * (svd (frame_block mat i)).2.2 := by
  ext r c
  have hr := r.isLt
  have hc := c.isLt
  have h1 : (9 * i + 3 * c.val + r.val) / 9 = i := by omega
  have h2 : (9 * i + 3 * c.val + r.val) % 9 % 3 = r.val := by omega
  have h3 : (9 * i + 3 * c.val + r.val) % 9 / 3 = c.val := by omega
  have hr2 : (⟨(9 * i + 3 * c.val + r.val) % 9 % 3, Nat.mod_lt _ (by decide)⟩ : Fin 3) = r :=
    Fin.ext h2
  have hc2 : (⟨(9 * i + 3 * c.val + r.val) % 9 / 3, by omega⟩ : Fin 3) = c := Fin.ext h3
  simp only [frame_block, smoothL1_orthogonalize, Matrix.of_apply, h1, if_pos hi, hr2, hc2]

theorem orthogonal_factor_det_pos {K : Type} [LinearOrderedField K]
    (U S VT : Matrix (Fin 3) (Fin 3) K) (d : Fin 3 → K)
    (hU : U.transpose * U = 1) (hV : VT.transpose * VT = 1)
    (hS : S = Matrix.diagonal d) (hd : ∀ k, 0 ≤ d k) (hdet : 0 < (U * S * VT).det) :
    (U * VT).transpose * (U * VT) = 1 ∧ 0 < (U * VT).det := by
  constructor
  · rw [Matrix.transpose_mul, Matrix.mul_assoc, ← Matrix.mul_assoc U.transpose, hU,
      Matrix.one_mul, hV]
  · rw [Matrix.det_mul, Matrix.det_mul, hS, Matrix.det_diagonal] at hdet
    rw [Matrix.det_mul]
    have hp : 0 ≤ ∏ k, d k := Finset.prod_nonneg (fun k _ => hd k)
    by_contra hneg
    have hle : U.det * VT.det ≤ 0 := not_lt.mp hneg
    have : U.det * (∏ k, d k) * VT.det ≤ 0 := by
      have h := mul_nonpos_of_nonpos_of_nonneg hle hp
      calc U.det * (∏ k, d k) * VT.det = U.det * VT.det * ∏ k, d k := by ring
        _ ≤ 0 := h
    exact absurd hdet (not_lt.mpr this)

/-- C13: in the post-process of `smoothL1`, for a block `A = frame_block mat i`
(`i < size / 9`) with positive determinant on which `svd` returns `(U, S, VT)`
with `A = U * S * VT`, `U` and `VT` orthogonal and `S` diagonal with
non-negative entries, the block is replaced by `Q = U * VT`, and
`Qᵀ * Q = 1` and `det Q > 0`. -/
theorem smoothL1_orthogonal_projection {K : Type} [LinearOrderedField K]
    (svd : Matrix (Fin 3) (Fin 3) K →
      Matrix (Fin 3) (Fin 3) K × Matrix (Fin 3) (Fin 3) K × Matrix (Fin 3) (Fin 3) K)
    (mat : Nat → K) (size i : Nat) (U S VT : Matrix (Fin 3) (Fin 3) K) (d : Fin 3 → K)
    (hi : i < size / 9)
    (hsvd : svd (frame_block mat i) = (U, S, VT))
    (hA : frame_block mat i = U * S * VT)
    (hU : U.transpose * U = 1) (hV : VT.transpose * VT = 1)
    (hS : S = Matrix.diagonal d) (hd : ∀ k, 0 ≤ d k)
    (hdet : 0 < (frame_block mat i).det) :
    frame_block (smoothL1_orthogonalize svd mat size) i = U * VT ∧
      (frame_block (smoothL1_orthogonalize svd mat size) i).transpose *
        frame_block (smoothL1_orthogonalize svd mat size) i = 1 ∧
      0 < (frame_block (smoothL1_orthogonalize svd mat size) i).det := by
  have hQ : frame_block (smoothL1_orthogonalize svd mat size) i = U * VT := by
    rw [frame_block_orthogonalize svd mat size i hi, hsvd]
  rw [hA] at hdet
  have h := orthogonal_factor_det_pos U S VT d hU hV hS hd hdet
  rw [hQ]
  exact ⟨rfl, h.1, h.2⟩

theorem sample_frame_block :
    frame_block sample_frame 0 = 1 * Matrix.diagonal ![2, 3, 4] * 1 := by
  rw [Matrix.one_mul, Matrix.mul_one]
  ext r c
  fin_cases r <;> fin_cases c <;> simp [frame_block, sample_frame, Matrix.diagonal]

/-- Instance of C13 on one block `diag(2, 3, 4)` with `U = VT = 1`. -/
theorem smoothL1_orthogonal_projection_witness :
    frame_block (smoothL1_orthogonalize sample_svd sample_frame 9) 0 = 1 * 1 ∧
      (frame_block (smoothL1_orthogonalize sample_svd sample_frame 9) 0).transpose *
        frame_block (smoothL1_orthogonalize sample_svd sample_frame 9) 0 = 1 ∧
      0 < (frame_block (smoothL1_orthogonalize sample_svd sample_frame 9) 0).det :=
  smoothL1_orthogonal_projection sample_svd sample_frame 9 0 1 (Matrix.diagonal ![2, 3, 4]) 1
    ![2, 3, 4] (by decide) rfl sample_frame_block (by simp) (by simp) rfl
    (by intro k; fin_cases k <;> simp)
    (by rw [sample_frame_block]; simp [Matrix.det_diagonal, Fin.prod_univ_three])

theorem std_fill_getcontent {K : Type} [Zero K] (grad : List K) (n : Nat)
    (h : grad.length = n) : std_fill (getcontent grad) n 0 = fun _ => 0 := by
  funext j
  unfold std_fill getcontent
  split_ifs with hj
  · rfl
  · exact List.getD_eq_default _ _ (by omega)

/-- C15 as stated fails on the counter: a call entered with
`g_count = 2^64 - 1` leaves the counter at 0, not at `g_count + 1`. -/
theorem callback_counter_counterexample :
    (callback_l1 (sample_term 2 1) (sample_term 2 1) SIZE_MAX (fun _ => 0) 0 [0, 0]).g_count = 0 ∧
      (callback_sh (fun _ => 1) (fun _ => 1) (sample_term 2 1) (sample_term 2 1) SIZE_MAX
        (fun _ => 0) 0 [0, 0]).g_count = 0 ∧
      (callback_l1 (sample_term 2 1) (sample_term 2 1) SIZE_MAX (fun _ => 0) 0 [0, 0]).g_count ≠
        SIZE_MAX + 1 := by
  refine ⟨?_, ?_, ?_⟩ <;> simp [callback_l1, callback_sh, SIZE_MAX]

/-- C15, amended: for `callback_sh` and `callback_l1` called with a `grad` of
`Nx` cells, `func` is the composite value from a zero accumulator and `grad`
the composite gradient from a zero buffer; both are the same for every counter
`g_count`, every diagnostic functional `g_smooth` and every prior content of
`func` and `grad`; the diagnostic is written exactly when the counter before
the call is a multiple of 100; and a call entered with `g_count < 2^64 - 1`
leaves the counter at `g_count + 1`. -/
theorem callback_read_only {K : Type} [Mul K] [AddCommMonoid K]
    (RZ RY : K → Matrix (Fin 3) (Fin 3) K) (g_func g_smooth g_smooth2 : Functional K)
    (g_count g_count2 : Nat) (x : Nat → K) (func func2 : K) (grad grad2 : List K)
    (hlen : grad.length = g_func.Nx) (hlen2 : grad2.length = g_func.Nx)
    (hcount : g_count < SIZE_MAX) :
    ((callback_sh RZ RY g_func g_smooth g_count x func grad).func = (g_func.Val x 0).1 ∧
      (callback_sh RZ RY g_func g_smooth g_count x func grad).grad =
        (List.range g_func.Nx).map (g_func.Gra x (fun _ => 0)).1 ∧
      (callback_sh RZ RY g_func g_smooth2 g_count2 x func2 grad2).func =
        (callback_sh RZ RY g_func g_smooth g_count x func grad).func ∧
      (callback_sh RZ RY g_func g_smooth2 g_count2 x func2 grad2).grad =
        (callback_sh RZ RY g_func g_smooth g_count x func grad).grad ∧
      ((callback_sh RZ RY g_func g_smooth g_count x func grad).report.isSome = true ↔
        g_count % 100 = 0) ∧
      (callback_sh RZ RY g_func g_smooth g_count x func grad).g_count = g_count + 1) ∧
    ((callback_l1 g_func g_smooth g_count x func grad).func = (g_func.Val x 0).1 ∧
      (callback_l1 g_func g_smooth g_count x func grad).grad =
        (List.range g_func.Nx).map (g_func.Gra x (fun _ => 0)).1 ∧
      (callback_l1 g_func g_smooth2 g_count2 x func2 grad2).func =
        (callback_l1 g_func g_smooth g_count x func grad).func ∧
      (callback_l1 g_func g_smooth2 g_count2 x func2 grad2).grad =
        (callback_l1 g_func g_smooth g_count x func grad).grad ∧
      ((callback_l1 g_func g_smooth g_count x func grad).report.isSome = true ↔
        g_count % 100 = 0) ∧
      (callback_l1 g_func g_smooth g_count x func grad).g_count = g_count + 1) := by
  have hc : (g_count + 1) % 2 ^ 64 = g_count + 1 := by
    apply Nat.mod_eq_of_lt
    unfold SIZE_MAX at hcount
    omega
  have hf := std_fill_getcontent grad g_func.Nx hlen
  have hf2 := std_fill_getcontent grad2 g_func.Nx hlen2
  refine ⟨⟨rfl, ?_, rfl, ?_, ?_, hc⟩, ⟨rfl, ?_, rfl, ?_, ?_, hc⟩⟩
  · simp only [callback_sh, hf, hlen]
  · simp only [callback_sh, hf, hf2, hlen, hlen2]
  · simp only [callback_sh]
    split_ifs with h <;> simp [h]
  · simp only [callback_l1, hf, hlen]
  · simp only [callback_l1, hf, hf2, hlen, hlen2]
  · simp only [callback_l1]
    split_ifs with h <;> simp [h]

/-- Instance of C15 (amended) on the sample term of two variables, at counter
200 against counter 7. -/
theorem callback_read_only_witness :
    ((callback_sh (fun _ => 1) (fun _ => 1) (sample_term 2 1) (sample_term 2 5) 200
        (fun _ => 0) 3 [4, 5]).func = ((sample_term 2 1).Val (fun _ => 0) 0).1 ∧
      (callback_sh (fun _ => 1) (fun _ => 1) (sample_term 2 1) (sample_term 2 5) 200
        (fun _ => 0) 3 [4, 5]).grad =
        (List.range (sample_term 2 1).Nx).map ((sample_term 2 1).Gra (fun _ => 0) (fun _ => 0)).1 ∧
      (callback_sh (fun _ => 1) (fun _ => 1) (sample_term 2 1) (sample_term 2 9) 7
        (fun _ => 0) 8 [6, 7]).func =
        (callback_sh (fun _ => 1) (fun _ => 1) (sample_term 2 1) (sample_term 2 5) 200
          (fun _ => 0) 3 [4, 5]).func ∧
      (callback_sh (fun _ => 1) (fun _ => 1) (sample_term 2 1) (sample_term 2 9) 7
        (fun _ => 0) 8 [6, 7]).grad =
        (callback_sh (fun _ => 1) (fun _ => 1) (sample_term 2 1) (sample_term 2 5) 200
          (fun _ => 0) 3 [4, 5]).grad ∧
      ((callback_sh (fun _ => 1) (fun _ => 1) (sample_term 2 1) (sample_term 2 5) 200
        (fun _ => 0) 3 [4, 5]).report.isSome = true ↔ 200 % 100 = 0) ∧
      (callback_sh (fun _ => 1) (fun _ => 1) (sample_term 2 1) (sample_term 2 5) 200
        (fun _ => 0) 3 [4, 5]).g_count = 200 + 1) ∧
    ((callback_l1 (sample_term 2 1) (sample_term 2 5) 200 (fun _ => 0) 3 [4, 5]).func =
        ((sample_term 2 1).Val (fun _ => 0) 0).1 ∧
      (callback_l1 (sample_term 2 1) (sample_term 2 5) 200 (fun _ => 0) 3 [4, 5]).grad =
        (List.range (sample_term 2 1).Nx).map ((sample_term 2 1).Gra (fun _ => 0) (fun _ => 0)).1 ∧
      (callback_l1 (sample_term 2 1) (sample_term 2 9) 7 (fun _ => 0) 8 [6, 7]).func =
        (callback_l1 (sample_term 2 1) (sample_term 2 5) 200 (fun _ => 0) 3 [4, 5]).func ∧
      (callback_l1 (sample_term 2 1) (sample_term 2 9) 7 (fun _ => 0) 8 [6, 7]).grad =
        (callback_l1 (sample_term 2 1) (sample_term 2 5) 200 (fun _ => 0) 3 [4, 5]).grad ∧
      ((callback_l1 (sample_term 2 1) (sample_term 2 5) 200 (fun _ => 0) 3 [4, 5]).report.isSome =
        true ↔ 200 % 100 = 0) ∧
      (callback_l1 (sample_term 2 1) (sample_term 2 5) 200 (fun _ => 0) 3 [4, 5]).g_count =
        200 + 1) :=
  callback_read_only (fun _ => 1) (fun _ => 1) (sample_term 2 1) (sample_term 2 5)
    (sample_term 2 9) 200 7 (fun _ => 0) 3 8 [4, 5] [6, 7] rfl rfl (by decide)

theorem energy_ctor_null_iff {T : Type} (buffer : List (Option (Functional T))) :
    (energy_t.ctor buffer).1 = Except.error exception.null_input_exception ↔
      (non_null buffer = [] ∨
        ∃ f0, (non_null buffer).head? = some f0 ∧ f0.Nx = SIZE_MAX) := by
  rw [ctor_fst]
  cases hh : (non_null buffer).head? with
  | none =>
    have hnil : non_null buffer = [] := List.head?_eq_none_iff.1 hh
    simp [hnil]
  | some f0 =>
    have hne : non_null buffer ≠ [] := by
      intro h
      rw [h] at hh
      cases hh
    by_cases hs : f0.Nx = SIZE_MAX
    · simp [hs]
    · by_cases hd : ∃ f ∈ non_null buffer, f.Nx ≠ f0.Nx
      · simp [hs, hd, hne]
      · simp [hs, hd, hne]

theorem constraint_ctor_null_iff {T : Type} (buffer : List (Option (Constraint T))) :
    constraint_t.ctor buffer = Except.error exception.null_input_exception ↔
      (non_null buffer = [] ∨
        ∃ c0, (non_null buffer).head? = some c0 ∧ c0.Nx = SIZE_MAX) := by
  rw [constraint_ctor_eq]
  cases hh : (non_null buffer).head? with
  | none =>
    have hnil : non_null buffer = [] := List.head?_eq_none_iff.1 hh
    simp [hnil]
  | some c0 =>
    have hne : non_null buffer ≠ [] := by
      intro h
      rw [h] at hh
      cases hh
    by_cases hs : c0.Nx = SIZE_MAX
    · simp [hs]
    · by_cases hd : ∃ c ∈ non_null buffer, c.Nx ≠ c0.Nx
      · simp [hs, hd, hne]
      · simp [hs, hd, hne]

/-- Counterexample to C21 as stated: a buffer whose only entry is a non-null
term reporting `Nx = 2 ^ 64 - 1` makes the constructor of `energy_t`, and
likewise that of `constraint_t`, throw `null_input_exception` although the
buffer contains a non-null term. -/
theorem null_input_sentinel_counterexample :
    (non_null sentinel_buffer ≠ [] ∧
      (energy_t.ctor sentinel_buffer).1 = Except.error exception.null_input_exception) ∧
    (non_null sentinel_constraint_buffer ≠ [] ∧
      constraint_t.ctor sentinel_constraint_buffer =
        Except.error exception.null_input_exception) := by
  refine ⟨⟨?_, ?_⟩, ?_, ?_⟩
  · simp [sentinel_buffer, non_null]
  · rw [ctor_fst]
    simp [sentinel_buffer, non_null, sample_term]
  · simp [sentinel_constraint_buffer, non_null]
  · rw [constraint_ctor_eq]
    simp [sentinel_constraint_buffer, non_null, sample_constraint]

/-- C21 (amended). For every term buffer and every value the terms' `Nx` may
return, constructing `energy_t` or `constraint_t` raises `null_input_exception`
exactly when the buffer contains no non-null term or its first non-null term
reports `Nx = 2 ^ 64 - 1`, the value of the `-1` sentinel; hence, when no
non-null term reports that value, only if the buffer contains no non-null
term. -/
theorem null_input_only_without_term {T : Type} (fbuffer : List (Option (Functional T)))
    (cbuffer : List (Option (Constraint T))) :
    ((energy_t.ctor fbuffer).1 = Except.error exception.null_input_exception ↔
      (non_null fbuffer = [] ∨
        ∃ f0, (non_null fbuffer).head? = some f0 ∧ f0.Nx = SIZE_MAX)) ∧
    (constraint_t.ctor cbuffer = Except.error exception.null_input_exception ↔
      (non_null cbuffer = [] ∨
        ∃ c0, (non_null cbuffer).head? = some c0 ∧ c0.Nx = SIZE_MAX)) ∧
    ((∀ f ∈ non_null fbuffer, f.Nx ≠ SIZE_MAX) →
      (energy_t.ctor fbuffer).1 = Except.error exception.null_input_exception →
      non_null fbuffer = []) ∧
    ((∀ c ∈ non_null cbuffer, c.Nx ≠ SIZE_MAX) →
      constraint_t.ctor cbuffer = Except.error exception.null_input_exception →
      non_null cbuffer = []) := by
  refine ⟨energy_ctor_null_iff fbuffer, constraint_ctor_null_iff cbuffer,
    fun hall hnull => ?_, fun hall hnull => ?_⟩
  · rcases (energy_ctor_null_iff fbuffer).1 hnull with h | ⟨f0, hf0, hs⟩
    · exact h
    · exact absurd hs (hall f0 (List.mem_of_mem_head? hf0))
  · rcases (constraint_ctor_null_iff cbuffer).1 hnull with h | ⟨c0, hc0, hs⟩
    · exact h
    · exact absurd hs (hall c0 (List.mem_of_mem_head? hc0))

/-- An instance of C21 (amended): the buffer of two null entries throws
`null_input_exception` and holds no non-null term, and so does the empty
constraint buffer; both are covered by the case without the sentinel value. -/
theorem null_input_only_without_term_sample :
    ((energy_t.ctor null_buffer).1 = Except.error exception.null_input_exception →
      non_null null_buffer = []) ∧
    (constraint_t.ctor ([none] : List (Option (Constraint Int))) =
        Except.error exception.null_input_exception →
      non_null ([none] : List (Option (Constraint Int))) = []) :=
  ⟨(null_input_only_without_term null_buffer ([none] : List (Option (Constraint Int)))).2.2.1
      (by simp [null_buffer, non_null]),
    (null_input_only_without_term null_buffer ([none] : List (Option (Constraint Int)))).2.2.2
      (by simp [non_null])⟩

theorem foldl_offsets_mod {T α : Type} (g : Constraint T → Nat → α → α) (off : Nat)
    (buffer : List (Option (Constraint T))) (pre : List (Constraint T)) (a : α)
    (all : List (Constraint T)) (hall : all = pre ++ non_null buffer) :
    buffer.foldl
        (fun (st : α × Nat) c => match c with
          | some c => (g c st.2 st.1, (st.2 + c.Nf) % 2 ^ 64)
          | none => st) (a, (off + (pre.map Constraint.Nf).sum) % 2 ^ 64) =
      (((non_null buffer).enumFrom pre.length).foldl
          (fun acc p => g p.2 ((off + row_start all p.1) % 2 ^ 64) acc) a,
        (off + (all.map Constraint.Nf).sum) % 2 ^ 64) := by
  induction buffer generalizing pre a with
  | nil =>
    simp only [non_null, List.filterMap_nil, List.append_nil] at hall
    simp [non_null, hall]
  | cons e es ih =>
    cases e with
    | none =>
      have := ih pre a (by simpa [non_null] using hall)
      simpa [non_null] using this
    | some c =>
      have hnn : non_null (some c :: es) = c :: non_null es := by simp [non_null]
      rw [hnn] at hall ⊢
      have hall2 : all = (pre ++ [c]) ++ non_null es := by simp [hall]
      have hmod : ((off + (pre.map Constraint.Nf).sum) % 2 ^ 64 + c.Nf) % 2 ^ 64 =
          (off + ((pre ++ [c]).map Constraint.Nf).sum) % 2 ^ 64 := by
        have hs : ((pre ++ [c]).map Constraint.Nf).sum =
            (pre.map Constraint.Nf).sum + c.Nf := by simp
        rw [hs]
        omega
      have hrs : row_start all pre.length = (pre.map Constraint.Nf).sum := by
        simp [row_start, hall]
      simp only [List.foldl_cons, hmod, List.enumFrom_cons, hrs]
      have := ih (pre ++ [c]) (g c ((off + (pre.map Constraint.Nf).sum) % 2 ^ 64) a) hall2
      simpa using this

theorem resize_length {α : Type} (v : List (List α)) (n : Nat) : (resize v n).length = n := by
  simp only [resize, List.length_append, List.length_take, List.length_replicate]
  omega

theorem Hes_fold_offsets {T : Type} (self : constraint_t T) (x : Nat → T) (off : Nat)
    (hes : List (List (Triplet T))) :
    self.Hes x off hes =
      ((((non_null self.buffer_).enum).foldl
        (fun acc p => (p.2.Hes x (row_start (non_null self.buffer_) p.1 % 2 ^ 64) acc).1)
        (self.Hes_resize hes)), 0) := by
  have := foldl_offsets_mod (fun c o acc => (c.Hes x o acc).1) 0 self.buffer_ []
    (self.Hes_resize hes) (non_null self.buffer_) (by simp)
  simp only [List.map_nil, List.sum_nil, Nat.add_zero, List.length_nil, Nat.zero_mod,
    Nat.zero_add] at this
  simp only [constraint_t.Hes, this, List.enum]

theorem Jac_fold_offsets {T : Type} (self : constraint_t T) (x : Nat → T) (off : Nat)
    (hoff : off < 2 ^ 64) (jac : List (Triplet T)) :
    self.Jac x off jac =
      ((((non_null self.buffer_).enum).foldl
        (fun acc p => (p.2.Jac x ((off + row_start (non_null self.buffer_) p.1) % 2 ^ 64) acc).1)
        jac), 0) := by
  have := foldl_offsets_mod (fun c o acc => (c.Jac x o acc).1) off self.buffer_ []
    jac (non_null self.buffer_) (by simp)
  simp only [List.map_nil, List.sum_nil, Nat.add_zero, List.length_nil,
    Nat.mod_eq_of_lt hoff] at this
  simp only [constraint_t.Jac, this, List.enum]

theorem row_start_le_sum {T : Type} (terms : List (Constraint T)) (k : Nat) :
    row_start terms k ≤ (terms.map Constraint.Nf).sum := by
  unfold row_start
  have h : (terms.map Constraint.Nf).sum =
      ((terms.take k).map Constraint.Nf).sum + ((terms.drop k).map Constraint.Nf).sum := by
    rw [← List.sum_append, ← List.map_append, List.take_append_drop]
  omega

/-- Counterexample to C22 as stated: for the composite that the constructor
builds from three recording terms of `2 ^ 63`, `2 ^ 63` and 1 rows, `Hes` hands
the third term the row offset 0, whereas the `Nf` of the two terms before it sum
to `2 ^ 64`. -/
theorem constraint_t_Hes_offsets_counterexample :
    constraint_t.ctor probe_buffer = Except.ok ⟨probe_buffer, 4, 1⟩ ∧
      (constraint_t.Hes ⟨probe_buffer, 4, 1⟩ (fun _ => 0) 0 []).1.map
        (fun row => row.map Triplet.row) = [[], [0], [2 ^ 63], [0]] ∧
      row_start (non_null probe_buffer) 2 = 2 ^ 64 := by
  refine ⟨?_, ?_, ?_⟩
  · rw [constraint_ctor_eq]
    simp [probe_buffer, non_null, offset_probe, SIZE_MAX]
  · simp [constraint_t.Hes, constraint_t.Hes_resize, resize, probe_buffer, offset_probe]
  · simp [row_start, probe_buffer, non_null, offset_probe]

/-- C22 (amended). For every successfully constructed `constraint_t`: `Hes`
gives the same result for every `off`; it resizes the output to `fdim_` entries
when its size differs; it hands the `k`-th non-null term the sum of `Nf` of the
non-null terms before it reduced modulo `2 ^ 64` (the sum itself when the `Nf`
sum to less than `2 ^ 64`), counted from 0, whereas `Jac` hands it `off` plus
that sum, modulo `2 ^ 64`; and the offsets of `Hes` and `Jac` agree for every
term exactly when `off = 0`. -/
theorem constraint_t_Hes_ignores_off {T : Type} (buffer : List (Option (Constraint T)))
    (self : constraint_t T) (x : Nat → T)
    (hc : constraint_t.ctor buffer = Except.ok self) :
    (∀ off off2 hes, self.Hes x off hes = self.Hes x off2 hes) ∧
      (∀ hes, (self.Hes_resize hes).length = self.fdim_ ∧
        (hes.length = self.fdim_ → self.Hes_resize hes = hes)) ∧
      (∀ off hes, self.Hes x off hes =
        (((non_null buffer).enum).foldl
          (fun acc p => (p.2.Hes x (row_start (non_null buffer) p.1 % 2 ^ 64) acc).1)
          (self.Hes_resize hes), 0)) ∧
      (∀ off jac, off < 2 ^ 64 → self.Jac x off jac =
        (((non_null buffer).enum).foldl
          (fun acc p =>
            (p.2.Jac x ((off + row_start (non_null buffer) p.1) % 2 ^ 64) acc).1) jac, 0)) ∧
      (((non_null buffer).map Constraint.Nf).sum < 2 ^ 64 →
        ∀ k, row_start (non_null buffer) k % 2 ^ 64 = row_start (non_null buffer) k) ∧
      (∀ off, off < 2 ^ 64 →
        ((∀ k, k < (non_null buffer).length →
            (off + row_start (non_null buffer) k) % 2 ^ 64 =
              row_start (non_null buffer) k % 2 ^ 64) ↔ off = 0)) := by
  have hb := constraint_ctor_ok_buffer buffer self hc
  have hne : 0 < (non_null buffer).length := by
    rw [constraint_ctor_eq] at hc
    cases hh : (non_null buffer).head? with
    | none => simp [hh] at hc
    | some c0 =>
      cases hl : non_null buffer with
      | nil => simp [hl] at hh
      | cons a as => simp
  refine ⟨fun off off2 hes => rfl, fun hes => ⟨?_, fun hl => ?_⟩, fun off hes => ?_,
    fun off jac hoff => ?_, fun hsum k => ?_, fun off hoff => ⟨fun h => ?_, fun h k _ => ?_⟩⟩
  · unfold constraint_t.Hes_resize
    split_ifs with h
    · exact resize_length _ _
    · exact not_not.mp h
  · unfold constraint_t.Hes_resize
    rw [if_neg (not_not.mpr hl)]
  · rw [Hes_fold_offsets, hb]
  · rw [Jac_fold_offsets self x off hoff, hb]
  · have := row_start_le_sum (non_null buffer) k
    exact Nat.mod_eq_of_lt (by omega)
  · have h0 := h 0 hne
    rw [row_start_zero] at h0
    simp only [Nat.add_zero, Nat.zero_mod] at h0
    rw [Nat.mod_eq_of_lt hoff] at h0
    exact h0
  · rw [h, Nat.zero_add]

/-- Witness for C22 (amended): recording terms of 2 and 3 rows around a null
entry. -/
theorem constraint_t_Hes_ignores_off_witness :
    (∀ off off2 hes, constraint_t.Hes ⟨small_probe_buffer, 4, 5⟩ (fun _ => 0) off hes =
        constraint_t.Hes ⟨small_probe_buffer, 4, 5⟩ (fun _ => 0) off2 hes) ∧
      (∀ hes, (constraint_t.Hes_resize ⟨small_probe_buffer, 4, 5⟩ hes).length =
          (⟨small_probe_buffer, 4, 5⟩ : constraint_t Int).fdim_ ∧
        (hes.length = (⟨small_probe_buffer, 4, 5⟩ : constraint_t Int).fdim_ →
          constraint_t.Hes_resize ⟨small_probe_buffer, 4, 5⟩ hes = hes)) ∧
      (∀ off hes, constraint_t.Hes ⟨small_probe_buffer, 4, 5⟩ (fun _ => 0) off hes =
        (((non_null small_probe_buffer).enum).foldl
          (fun acc p =>
            (p.2.Hes (fun _ => 0) (row_start (non_null small_probe_buffer) p.1 % 2 ^ 64) acc).1)
          (constraint_t.Hes_resize ⟨small_probe_buffer, 4, 5⟩ hes), 0)) ∧
      (∀ off jac, off < 2 ^ 64 →
        constraint_t.Jac ⟨small_probe_buffer, 4, 5⟩ (fun _ => 0) off jac =
        (((non_null small_probe_buffer).enum).foldl
          (fun acc p =>
            (p.2.Jac (fun _ => 0)
              ((off + row_start (non_null small_probe_buffer) p.1) % 2 ^ 64) acc).1) jac, 0)) ∧
      (((non_null small_probe_buffer).map Constraint.Nf).sum < 2 ^ 64 →
        ∀ k, row_start (non_null small_probe_buffer) k % 2 ^ 64 =
          row_start (non_null small_probe_buffer) k) ∧
      (∀ off, off < 2 ^ 64 →
        ((∀ k, k < (non_null small_probe_buffer).length →
            (off + row_start (non_null small_probe_buffer) k) % 2 ^ 64 =
              row_start (non_null small_probe_buffer) k % 2 ^ 64) ↔ off = 0)) :=
  constraint_t_Hes_ignores_off small_probe_buffer ⟨small_probe_buffer, 4, 5⟩ (fun _ => 0)
    (by
      rw [constraint_ctor_eq]
      simp [small_probe_buffer, non_null, offset_probe, SIZE_MAX])

/-- C23. `Functional::operator()` returns 0 for every input and hands the
caller's `*val` to `Val` without resetting it, so that for a functional whose
`Val` adds its value `E` and whose `Gra` adds its gradient `G`, `*val` ends at
its initial content plus `E` (and equals `E` only if it was 0 on entry), `gra`
ends at its initial content plus `G` when `graON` is true and is unchanged when
`graON` is false; the `step` argument has no effect on the result. -/
theorem operator_call_accumulates {T : Type} [AddGroup T] (self : Functional T)
    (x : Nat → T) (E : T) (G : Nat → T)
    (hVal : ∀ v, (self.Val x v).1 = v + E)
    (hGra : ∀ g i, (self.Gra x g).1 i = g i + G i)
    (val : T) (gra : Nat → T) (step : T) :
    (∀ graON, (self.operator_call x val gra step graON).2 = 0) ∧
      (∀ graON, (self.operator_call x val gra step graON).1.1 = (self.Val x val).1) ∧
      (∀ graON, (self.operator_call x val gra step graON).1.1 = val + E) ∧
      (∀ graON, (self.operator_call x val gra step graON).1.1 = E ↔ val = 0) ∧
      (self.operator_call x val gra step true).1.2 = (self.Gra x gra).1 ∧
      (∀ i, (self.operator_call x val gra step true).1.2 i = gra i + G i) ∧
      (self.operator_call x val gra step false).1.2 = gra ∧
      (∀ step2 graON, self.operator_call x val gra step2 graON =
        self.operator_call x val gra step graON) := by
  refine ⟨fun _ => rfl, fun _ => rfl, fun _ => hVal val, fun graON => ?_, rfl,
    fun i => hGra gra i, rfl, fun _ _ => rfl⟩
  show (self.Val x val).1 = E ↔ val = 0
  rw [hVal val]
  exact add_left_eq_self

/-- Witness for C23: the sample term of three variables with coefficient 2 at
`x = 1`, entered with `*val = 7`, a gradient buffer of tens and `step = 5`. -/
theorem operator_call_accumulates_witness :
    (∀ graON, ((sample_term 3 2).operator_call (fun _ => 1) 7 (fun _ => 10) 5 graON).2 = 0) ∧
      (∀ graON, ((sample_term 3 2).operator_call (fun _ => 1) 7 (fun _ => 10) 5 graON).1.1 =
        ((sample_term 3 2).Val (fun _ => 1) 7).1) ∧
      (∀ graON, ((sample_term 3 2).operator_call (fun _ => 1) 7 (fun _ => 10) 5 graON).1.1 =
        7 + 2) ∧
      (∀ graON, ((sample_term 3 2).operator_call (fun _ => 1) 7 (fun _ => 10) 5 graON).1.1 = 2 ↔
        (7 : Int) = 0) ∧
      ((sample_term 3 2).operator_call (fun _ => 1) 7 (fun _ => 10) 5 true).1.2 =
        ((sample_term 3 2).Gra (fun _ => 1) (fun _ => 10)).1 ∧
      (∀ i, ((sample_term 3 2).operator_call (fun _ => 1) 7 (fun _ => 10) 5 true).1.2 i =
        10 + (if i < 3 then 2 else 0)) ∧
      ((sample_term 3 2).operator_call (fun _ => 1) 7 (fun _ => 10) 5 false).1.2 =
        (fun _ => 10) ∧
      (∀ step2 graON, (sample_term 3 2).operator_call (fun _ => 1) 7 (fun _ => 10) step2 graON =
        (sample_term 3 2).operator_call (fun _ => 1) 7 (fun _ => 10) 5 graON) :=
  operator_call_accumulates (sample_term 3 2) (fun _ => 1) 2 (fun i => if i < 3 then 2 else 0)
    (by intro v; simp [sample_term])
    (by intro g i; simp [sample_term])
    7 (fun _ => 10) 5

end riemann
